import Mathlib

/-!
# order-app-api: session authority and request handlers

A shallow embedding of `src/main.go`.  Every handler is a pure function of the
request, the clock reading, the configured secret and the state of its external
collaborators (the relational store and the payment gateway); it returns the
final state of the `http.ResponseWriter` together with the new store state or
the list of gateway calls it made.

The libraries the handlers call (`net/http`, `github.com/dgrijalva/jwt-go` v3,
`strconv`, `database/sql`) are modelled by the small definitions of the first
sections, each named after the library function it stands for.
-/

namespace OrderApp

/-! ## Clock -/

/-- A `time.Time` instant: nanoseconds elapsed since the Unix epoch. -/
structure Time where
  nanos : Int
  deriving DecidableEq, Repr

/-- A `time.Duration`: a signed count of nanoseconds. -/
abbrev Duration := Int

/-- The constant `time.Second`. -/
def Second : Duration := 1000000000

/-- The constant `time.Minute`. -/
def Minute : Duration := 60 * Second

/-- The method `Time.Add`. -/
def Time.Add (t : Time) (d : Duration) : Time := ⟨t.nanos + d⟩

/-- The method `Time.Unix`: whole seconds since the epoch, rounded down. -/
def Time.Unix (t : Time) : Int := t.nanos / 1000000000

/-! ## Go error values -/

/-- The error values the handlers compare against or receive.  Two values are
`==` in Go exactly when they are equal here: the sentinels are single package
variables, and a `*jwt.ValidationError` is never identical to a sentinel. -/
inductive GoError
  /-- The sentinel `http.ErrNoCookie`. -/
  | ErrNoCookie
  /-- The sentinel `jwt.ErrSignatureInvalid`. -/
  | ErrSignatureInvalid
  /-- A `*jwt.ValidationError` with its `Errors` bitfield. -/
  | ValidationError (Errors : Nat)
  /-- The sentinel `sql.ErrNoRows`. -/
  | ErrNoRows
  /-- Any other error of the store driver. -/
  | StoreError
  /-- A `*strconv.NumError` wrapping `strconv.ErrSyntax`. -/
  | ErrSyntax
  /-- A `*strconv.NumError` wrapping `strconv.ErrRange`. -/
  | ErrRange
  deriving DecidableEq, Repr

/-- Bit `jwt.ValidationErrorMalformed`. -/
def ValidationErrorMalformed : Nat := 1
/-- Bit `jwt.ValidationErrorUnverifiable`. -/
def ValidationErrorUnverifiable : Nat := 2
/-- Bit `jwt.ValidationErrorSignatureInvalid`. -/
def ValidationErrorSignatureInvalid : Nat := 4
/-- Bit `jwt.ValidationErrorExpired`. -/
def ValidationErrorExpired : Nat := 16
/-- Bit `jwt.ValidationErrorIssuedAt`. -/
def ValidationErrorIssuedAt : Nat := 32
/-- Bit `jwt.ValidationErrorNotValidYet`. -/
def ValidationErrorNotValidYet : Nat := 128

/-! ## HTTP status codes -/

def StatusOK : Nat := 200
def StatusBadRequest : Nat := 400
def StatusUnauthorized : Nat := 401
def StatusNotFound : Nat := 404
def StatusInternalServerError : Nat := 500

/-! ## Session claims and tokens -/

/-- The struct `Claims` of `main.go`: the user name plus the embedded
`jwt.StandardClaims`, of which the three time fields are kept (the string
fields take no part in validation). -/
structure Claims where
  UserName : String := ""
  ExpiresAt : Int := 0
  IssuedAt : Int := 0
  NotBefore : Int := 0
  deriving DecidableEq, Repr

/-- The signing methods a token header can name.  `other` stands for the
registered methods that are not HMAC based (they reject a `[]byte` key). -/
inductive SigningMethod
  | HS256
  | HS384
  | HS512
  | other (alg : String)
  deriving DecidableEq, Repr

/-- A compact token string as `jwt.Parser.ParseUnverified` sees it: either it
does not split and decode into header, claims and signature (`malformed`), or
it does. -/
inductive TokenString
  | malformed (raw : String)
  | compact (alg : SigningMethod) (claims : Claims) (signature : String)
  deriving DecidableEq, Repr

/-- The keyed hash behind the `HS*` methods: method, key and signing input
(header and claims) give the signature text. -/
abbrev Hmac := SigningMethod → String → Claims → String

/-- A `*jwt.Token` after parsing. -/
structure Token where
  Method : SigningMethod := SigningMethod.HS256
  Claims : Claims := {}
  Valid : Bool := false

/-- The function `jwt.NewWithClaims`. -/
def NewWithClaims (method : SigningMethod) (claims : Claims) : Token :=
  { Method := method, Claims := claims, Valid := false }

/-- The method `Token.SignedString` for a `[]byte` key.  An HMAC method signs
any byte key; the other methods return `ErrInvalidKeyType`, rendered here as
`none`. -/
def Token.SignedString (hmac : Hmac) (tok : Token) (key : String) : Option TokenString :=
  match tok.Method with
  | SigningMethod.other _ => none
  | m => some (TokenString.compact m tok.Claims (hmac m key tok.Claims))

/-- The helper `verifyExp` of jwt-go: an unset expiry (zero) passes when the
claim is not required. -/
def verifyExp (exp now : Int) (required : Bool) : Bool :=
  if exp = 0 then !required else decide (now ≤ exp)

/-- The helper `verifyIat` of jwt-go. -/
def verifyIat (iat now : Int) (required : Bool) : Bool :=
  if iat = 0 then !required else decide (iat ≤ now)

/-- The helper `verifyNbf` of jwt-go. -/
def verifyNbf (nbf now : Int) (required : Bool) : Bool :=
  if nbf = 0 then !required else decide (nbf ≤ now)

/-- The method `StandardClaims.Valid`: the bitfield of the failed time checks,
zero when the claims are valid at `now` (Unix seconds). -/
def Claims.Valid (c : Claims) (now : Int) : Nat :=
  (if verifyExp c.ExpiresAt now false then 0 else ValidationErrorExpired)
  + (if verifyIat c.IssuedAt now false then 0 else ValidationErrorIssuedAt)
  + (if verifyNbf c.NotBefore now false then 0 else ValidationErrorNotValidYet)

/-- The method `SigningMethod.Verify` against a `[]byte` key: `true` when the
signature is the keyed hash of the signing input. -/
def SigningMethod.Verify (hmac : Hmac) (m : SigningMethod) (claims : Claims)
    (signature key : String) : Bool :=
  match m with
  | SigningMethod.other _ => false
  | _ => decide (signature = hmac m key claims)

/-- The function `jwt.ParseWithClaims` with a key function that always returns
`key`.  Like the library it returns the pair (token, error); every failure is
reported as a `*ValidationError`, and `Valid` is set exactly when there is no
error. -/
def ParseWithClaims (hmac : Hmac) (tokenStr : TokenString) (key : String) (now : Time) :
    Token × Option GoError :=
  match tokenStr with
  | TokenString.malformed _ => ({}, some (GoError.ValidationError ValidationErrorMalformed))
  | TokenString.compact alg claims signature =>
    let vErr := claims.Valid now.Unix
    let vErr := if alg.Verify hmac claims signature key then vErr
                else vErr + ValidationErrorSignatureInvalid
    if vErr = 0 then
      ({ Method := alg, Claims := claims, Valid := true }, none)
    else
      ({ Method := alg, Claims := claims, Valid := false }, some (GoError.ValidationError vErr))

/-! ## Requests and responses -/

/-- An `http.Cookie` as read from or written to a message.  `Expires` is unset
on request cookies. -/
structure Cookie where
  Name : String
  Value : TokenString
  Expires : Option Time := none
  deriving DecidableEq, Repr

/-- An `*http.Request` after routing.  `vars` are the path variables of
`mux.Vars`; `body` is the outcome of `json.NewDecoder(r.Body).Decode(&v)` for
the struct `v` the handler decodes into, `none` when `Decode` fails. -/
structure Request (β : Type) where
  cookies : List Cookie := []
  vars : List (String × String) := []
  body : Option β := none

/-- The method `Request.Cookie`: the first cookie with the given name, or
`ErrNoCookie`. -/
def Request.Cookie {β : Type} (r : Request β) (name : String) : Except GoError Cookie :=
  match r.cookies.find? (fun c => c.Name == name) with
  | some c => Except.ok c
  | none => Except.error GoError.ErrNoCookie

/-- The lookup `mux.Vars(r)[key]`: the empty string for an absent key. -/
def Request.Var {β : Type} (r : Request β) (key : String) : String :=
  match r.vars.find? (fun kv => kv.1 == key) with
  | some kv => kv.2
  | none => ""

/-! ## Number parsing (`strconv`) -/

/-- The function `strconv.Atoi` on a 64-bit platform: an optional sign and
decimal digits.  The result is 0 with a syntax error for any other text, and
the nearest bound of `int` with a range error when the value does not fit. -/
def Atoi (s : String) : Int × Option GoError :=
  let cs := s.toList
  let (neg, ds) := match cs with
    | '+' :: t => (false, t)
    | '-' :: t => (true, t)
    | _ => (false, cs)
  if ds.isEmpty ∨ !ds.all (fun c => decide ('0' ≤ c ∧ c ≤ '9')) then (0, some GoError.ErrSyntax)
  else
    let un : Nat := ds.foldl (fun n c => n * 10 + (c.toNat - 48)) 0
    if !neg ∧ un ≥ 2 ^ 63 then (2 ^ 63 - 1, some GoError.ErrRange)
    else if neg ∧ un > 2 ^ 63 then (-(2 ^ 63), some GoError.ErrRange)
    else (if neg then -(un : Int) else (un : Int), none)

/-- A `float64` value: a finite `±mant * 2^exp`, an infinity, or NaN. -/
inductive Float64
  | finite (neg : Bool) (mant : Nat) (exp : Int)
  | inf (neg : Bool)
  | nan
  deriving DecidableEq, Repr

/-- The binary logarithm rounded down, by at most `fuel` halvings. -/
def log2Fuel : Nat → Nat → Nat
  | 0, _ => 0
  | fuel + 1, n => if n < 2 then 0 else log2Fuel fuel (n / 2) + 1

/-- The binary logarithm of a natural number, rounded down (0 at 0). -/
def ilog2 (n : Nat) : Nat := log2Fuel n n

/-- The integer `k` with `2^k ≤ num/den < 2^(k+1)`, for positive `num`, `den`. -/
def floorLog2 (num den : Nat) : Int :=
  let k0 : Int := (ilog2 num : Int) - (ilog2 den : Int)
  if den * 2 ^ k0.toNat ≤ num * 2 ^ (-k0).toNat then k0 else k0 - 1

/-- IEEE 754 binary64 rounding (to nearest, ties to even) of the rational
`±num/den`, `den > 0`: the quotient is scaled to a 53-bit integer `q` (fewer
bits below the smallest normal number) and rounded.  The flag reports overflow,
a result of `2^1024` or more, which becomes an infinity. -/
def roundFloat64 (neg : Bool) (num den : Nat) : Float64 × Bool :=
  if num = 0 then (Float64.finite neg 0 0, false) else
  let e : Int := max (floorLog2 num den - 52) (-1074)
  let n := num * 2 ^ (-e).toNat
  let d := den * 2 ^ e.toNat
  let q := n / d
  let r := n % d
  let q := if d < 2 * r ∨ (2 * r = d ∧ q % 2 = 1) then q + 1 else q
  if 971 < e ∨ (e = 971 ∧ 2 ^ 53 ≤ q) then (Float64.inf neg, true)
  else (Float64.finite neg q e, false)

/-- The value of a digit character in the given base (10 or 16). -/
def digitVal (hex : Bool) (c : Char) : Option Nat :=
  if '0' ≤ c ∧ c ≤ '9' then some (c.toNat - 48)
  else if hex ∧ 'a' ≤ c ∧ c ≤ 'f' then some (c.toNat - 87)
  else if hex ∧ 'A' ≤ c ∧ c ≤ 'F' then some (c.toNat - 55)
  else none

/-- The loop variables of the mantissa loop of `readFloat`.  The mantissa keeps
every significant digit, so that the exact value is `mantissa * base^(dp - nd)`. -/
structure Digits where
  mantissa : Nat := 0
  nd : Nat := 0
  dp : Int := 0
  sawdot : Bool := false
  sawdigits : Bool := false
  underscores : Bool := false
  deriving DecidableEq, Repr

/-- The mantissa loop of `readFloat`: the loop variables when the loop stops,
and the input not consumed. -/
def readDigits (hex : Bool) : List Char → Digits → Digits × List Char
  | [], st => (st, [])
  | c :: cs, st =>
    if c = '_' then readDigits hex cs { st with underscores := true }
    else if c = '.' then
      if st.sawdot then (st, c :: cs)
      else readDigits hex cs { st with sawdot := true, dp := st.nd }
    else
      match digitVal hex c with
      | none => (st, c :: cs)
      | some v =>
        if c = '0' ∧ st.nd = 0 then
          readDigits hex cs { st with sawdigits := true, dp := st.dp - 1 }
        else
          readDigits hex cs { st with sawdigits := true, nd := st.nd + 1,
                                      mantissa := st.mantissa * (if hex then 16 else 10) + v }

/-- The exponent loop of `readFloat`: the exponent (no longer extended once it
reaches 10000), whether an underscore was seen, and the input not consumed. -/
def readExpDigits : List Char → Nat → Bool → Nat × Bool × List Char
  | [], e, u => (e, u, [])
  | c :: cs, e, u =>
    if c = '_' then readExpDigits cs e true
    else if '0' ≤ c ∧ c ≤ '9' then
      readExpDigits cs (if e < 10000 then e * 10 + (c.toNat - 48) else e) u
    else (e, u, c :: cs)

/-- The function `underscoreOK` of `strconv`: underscores only between digits,
or between a base marker and a digit.  `saw` is the class of the last
character: `'^'` start, `'0'` digit or base marker, `'_'`, `'!'` any other. -/
def underscoreScan (hex : Bool) : List Char → Char → Bool
  | [], saw => saw != '_'
  | c :: cs, saw =>
    if (digitVal hex c).isSome then underscoreScan hex cs '0'
    else if c = '_' then
      if saw != '0' then false else underscoreScan hex cs '_'
    else if saw = '_' then false
    else underscoreScan hex cs '!'

/-- The function `underscoreOK` of `strconv`. -/
def underscoreOK (s : List Char) : Bool :=
  let s := match s with
    | '-' :: t => t
    | '+' :: t => t
    | _ => s
  match s with
  | '0' :: b :: t =>
    if b = 'x' ∨ b = 'X' then underscoreScan true t '0'
    else if b = 'b' ∨ b = 'B' ∨ b = 'o' ∨ b = 'O' then underscoreScan false t '0'
    else underscoreScan false s '^'
  | _ => underscoreScan false s '^'

/-- The outcome of `readFloat`: sign, mantissa, the exponent of the base (10,
or 2 for a hexadecimal mantissa), and the input not consumed. -/
structure ReadFloat where
  neg : Bool
  hex : Bool
  mantissa : Nat
  exp : Int
  underscores : Bool
  rest : List Char
  deriving DecidableEq, Repr

/-- The optional sign at the start of `readFloat`: whether the number is
negative, and the input after the sign. -/
def readSign (s : List Char) : Bool × List Char :=
  match s with
  | '+' :: t => (false, t)
  | '-' :: t => (true, t)
  | _ => (false, s)

/-- The base marker test of `readFloat`: `0x` or `0X` followed by at least one
more character selects a hexadecimal mantissa. -/
def readBase (s : List Char) : Bool × List Char :=
  match s with
  | '0' :: x :: c :: t => if x = 'x' ∨ x = 'X' then (true, c :: t) else (false, s)
  | _ => (false, s)

/-- The exponent part of `readFloat`, read after the mantissa: `none` when the
text is not a number, else the exponent to add to the point position, whether
an underscore was seen, and the input not consumed.  A hexadecimal mantissa
must have an exponent. -/
def readExponent (hex : Bool) (underscores : Bool) (s : List Char) :
    Option (Int × Bool × List Char) :=
  match s with
  | [] => if hex then none else some (0, underscores, s)
  | c :: s4 =>
    if c ∈ (if hex then ['p', 'P'] else ['e', 'E']) then
      let (esign, s5) := readSign s4
      match s5 with
      | [] => none
      | d :: _ =>
        if '0' ≤ d ∧ d ≤ '9' then
          let (e, u, rest) := readExpDigits s5 0 underscores
          some (if esign then -(e : Int) else (e : Int), u, rest)
        else none
    else if hex then none
    else some (0, underscores, s)

/-- The function `readFloat` of `strconv`, up to the underscore check, which
`parseFloat64` below makes.  `none` when the text is not a number. -/
def readFloat (s : List Char) : Option ReadFloat :=
  match s with
  | [] => none
  | _ =>
    let (neg, s1) := readSign s
    let (hex, s2) := readBase s1
    let (st, s3) := readDigits hex s2 {}
    if !st.sawdigits then none else
    let dp : Int := if st.sawdot then st.dp else st.nd
    let dp := if hex then dp * 4 else dp
    let ndMant : Int := if hex then st.nd * 4 else st.nd
    match readExponent hex st.underscores s3 with
    | none => none
    | some (e, u, rest) =>
      some { neg := neg, hex := hex, mantissa := st.mantissa,
             exp := if st.mantissa ≠ 0 then dp + e - ndMant else 0,
             underscores := u, rest := rest }

/-- Lower-casing of an ASCII capital, as in `commonPrefixLenIgnoreCase`. -/
def asciiLower (c : Char) : Char :=
  if 'A' ≤ c ∧ c ≤ 'Z' then Char.ofNat (c.toNat + 32) else c

/-- Whether a text is `inf` or `infinity`, in any case of the letters. -/
def isInfText (t : List Char) : Bool :=
  decide (t.map asciiLower = "inf".toList ∨ t.map asciiLower = "infinity".toList)

/-- The function `special` of `strconv` for a text it matches as a whole:
the infinities (`inf`, `infinity`, any case, optional sign) and `nan` (any
case, no sign). -/
def special (s : List Char) : Option Float64 :=
  match s with
  | '+' :: t => if isInfText t then some (Float64.inf false) else none
  | '-' :: t => if isInfText t then some (Float64.inf true) else none
  | _ =>
    if isInfText s then some (Float64.inf false)
    else if s.map asciiLower = "nan".toList then some Float64.nan
    else none

/-- The function `strconv.ParseFloat(s, 64)` on the characters of `s`: the
value and the error.  A text that is not a number as a whole gives 0 with a
syntax error; a number beyond the largest finite `float64` gives an infinity
with a range error; any other number gives the nearest `float64`. -/
def parseFloat64 (cs : List Char) : Float64 × Option GoError :=
  match special cs with
  | some v => (v, none)
  | none =>
    match readFloat cs with
    | none => (Float64.finite false 0 0, some GoError.ErrSyntax)
    | some rf =>
      if !rf.rest.isEmpty ∨ (rf.underscores ∧ !underscoreOK cs) then
        (Float64.finite false 0 0, some GoError.ErrSyntax)
      else
        let base : Nat := if rf.hex then 2 else 10
        let res := roundFloat64 rf.neg (rf.mantissa * base ^ rf.exp.toNat)
                     (base ^ (-rf.exp).toNat)
        (res.1, if res.2 then some GoError.ErrRange else none)

/-- The function `strconv.ParseFloat(s, 64)`. -/
def ParseFloat (s : String) : Float64 × Option GoError :=
  parseFloat64 s.toList

/-- The conversion `int64(f)`: truncation toward zero.  When `int64` cannot
represent the result the outcome is implementation-dependent and is read from
`overflow`. -/
def Float64.toInt64 (overflow : Float64 → Int) (f : Float64) : Int :=
  match f with
  | Float64.finite neg m e =>
    let t : Nat := m * 2 ^ e.toNat / 2 ^ (-e).toNat
    let v : Int := if neg then -(t : Int) else (t : Int)
    if -(2 ^ 63) ≤ v ∧ v < 2 ^ 63 then v else overflow f
  | _ => overflow f

/-! ## Data model of `main.go` -/

/-- The struct `Credentials`. -/
structure Credentials where
  UserName : String := ""
  Password : String := ""
  deriving DecidableEq, Repr

/-- The struct `Product`. -/
structure Product where
  ProductID : Int := 0
  ProductName : String := ""
  ProductPrice : Int := 0
  deriving DecidableEq, Repr

/-- The struct `Cart`. -/
structure Cart where
  CartID : Int := 0
  UserID : Int := 0
  ProductID : Int := 0
  ProductName : String := ""
  ProductPrice : Int := 0
  CartTotalPrice : Int := 0
  deriving DecidableEq, Repr

/-- The struct `CartRequestBody`. -/
structure CartRequestBody where
  ProductID : Int := 0
  deriving DecidableEq, Repr

/-- The struct `PaymentBill`. -/
structure PaymentBill where
  CartTotalPrice : String := ""
  TransactionID : String := ""
  ProductName : String := ""
  deriving DecidableEq, Repr

/-- The struct `midtrans.TransactionDetails`. -/
structure TransactionDetails where
  OrderID : String
  GrossAmt : Int
  deriving DecidableEq, Repr

/-- The struct `midtrans.CustomerDetails`, of which the handler fills `FName`. -/
structure CustomerDetails where
  FName : String
  deriving DecidableEq, Repr

/-- The struct `midtrans.ItemDetails`, with the four fields the handler fills. -/
structure ItemDetails where
  ID : String
  Price : Int
  Qty : Int
  Name : String
  deriving DecidableEq, Repr

/-- The constant `coreapi.PaymentTypeQris`. -/
def PaymentTypeQris : String := "qris"

/-- The struct `coreapi.ChargeReq`, with the fields the handler fills. -/
structure ChargeReq where
  PaymentType : String
  TransactionDetails : TransactionDetails
  CustomerDetails : CustomerDetails
  Items : List ItemDetails
  deriving DecidableEq, Repr

/-- A document written by one `json.NewEncoder(w).Encode(v)` call, kept as the
encoded value.  `gateway` is a response of the payment gateway, forwarded as
received. -/
inductive JsonDoc
  | string (s : String)
  | products (ps : List Product)
  | cart (c : Cart)
  | gateway (res : String)
  deriving DecidableEq, Repr

/-- One write to the response body: plain text or one JSON document. -/
inductive Chunk
  | text (s : String)
  | json (d : JsonDoc)
  deriving DecidableEq, Repr

/-- The observable state of an `http.ResponseWriter`: the status line once it
is written, the headers, the `Set-Cookie` headers and the body writes in
order. -/
structure ResponseWriter where
  status : Option Nat := none
  header : List (String × String) := []
  setCookies : List Cookie := []
  body : List Chunk := []
  deriving DecidableEq, Repr

/-- The method `ResponseWriter.WriteHeader`: only the first call counts. -/
def ResponseWriter.WriteHeader (w : ResponseWriter) (code : Nat) : ResponseWriter :=
  match w.status with
  | some _ => w
  | none => { w with status := some code }

/-- The method `ResponseWriter.Write`: the first write sends status 200 when no
status was written before. -/
def ResponseWriter.Write (w : ResponseWriter) (c : Chunk) : ResponseWriter :=
  { w.WriteHeader StatusOK with body := w.body ++ [c] }

/-- The call `w.Header().Set(key, value)`: without effect once the status line
is written. -/
def ResponseWriter.HeaderSet (w : ResponseWriter) (key value : String) : ResponseWriter :=
  match w.status with
  | some _ => w
  | none => { w with header := (key, value) :: w.header.filter (fun kv => kv.1 != key) }

/-- The function `http.SetCookie`. -/
def ResponseWriter.SetCookie (w : ResponseWriter) (c : Cookie) : ResponseWriter :=
  match w.status with
  | some _ => w
  | none => { w with setCookies := w.setCookies ++ [c] }

/-- The function `http.Error`: plain-text headers, the status, then the message. -/
def ResponseWriter.Error (w : ResponseWriter) (error : String) (code : Nat) : ResponseWriter :=
  let w := w.HeaderSet "Content-Type" "text/plain; charset=utf-8"
  let w := w.HeaderSet "X-Content-Type-Options" "nosniff"
  let w := w.WriteHeader code
  w.Write (Chunk.text error)

/-- The call `json.NewEncoder(w).Encode(v)`. -/
def ResponseWriter.Encode (w : ResponseWriter) (d : JsonDoc) : ResponseWriter :=
  w.Write (Chunk.json d)

/-- The status the client receives: 200 when the handler wrote none. -/
def ResponseWriter.Status (w : ResponseWriter) : Nat := w.status.getD StatusOK

/-- The JSON documents of the body, in order. -/
def ResponseWriter.Docs (w : ResponseWriter) : List JsonDoc :=
  w.body.filterMap (fun c => match c with
    | Chunk.json d => some d
    | Chunk.text _ => none)

/-! ## External collaborators -/

/-- A row of `order_app_api_user`. -/
structure User where
  user_name : String
  user_password : String
  deriving DecidableEq, Repr

/-- Modelled from the spec: the relational store behind the handle `db`, with
the three tables of the schema (`order_app_api_user`, `order_app_api_products`,
`order_app_api_cart`), the last value of the sequence behind the serial key
`cart_id`, and whether the store is reachable. -/
structure Store where
  up : Bool := true
  users : List User := []
  products : List Product := []
  cart : List Cart := []
  cartSeq : Int := 0
  deriving DecidableEq, Repr

/-- The process-wide state set up by `init`: the signing secret `jwtSecret`
with the keyed hash the token library computes, the store's conversion of a
text parameter compared with an integer column (`none` when the store rejects
the text), the two calls of the gateway client `coreAPI` (`none` for an
error), and the platform's result for a `float64` to `int64` conversion whose
value `int64` cannot represent. -/
structure Config where
  jwtSecret : String
  hmac : Hmac
  intIn : String → Option Int
  int64Overflow : Float64 → Int
  ChargeTransaction : ChargeReq → Option String
  CheckTransaction : String → Option String

/-- The query `SELECT user_password FROM order_app_api_user WHERE user_name=$1`
read with `QueryRow(...).Scan`. -/
def Store.QueryUserPassword (db : Store) (userName : String) : Except GoError String :=
  if !db.up then Except.error GoError.StoreError else
  match db.users.find? (fun u => u.user_name == userName) with
  | some u => Except.ok u.user_password
  | none => Except.error GoError.ErrNoRows

/-- The query `SELECT product_id, product_name, product_price FROM
order_app_api_products` read with `Query` and a scan of every row. -/
def Store.QueryProducts (db : Store) : Except GoError (List Product) :=
  if !db.up then Except.error GoError.StoreError else Except.ok db.products

/-- The query `SELECT product_name, product_price FROM order_app_api_products
WHERE product_id=$1` read with `QueryRow(...).Scan`. -/
def Store.QueryProduct (db : Store) (productID : Int) : Except GoError (String × Int) :=
  if !db.up then Except.error GoError.StoreError else
  match db.products.find? (fun p => p.ProductID == productID) with
  | some p => Except.ok (p.ProductName, p.ProductPrice)
  | none => Except.error GoError.ErrNoRows

/-- The query `SELECT cart_id, ... FROM order_app_api_cart WHERE user_id=$1`
read with `QueryRow(...).Scan`: the first matching row. -/
def Store.QueryCart (db : Store) (intIn : String → Option Int) (userID : String) :
    Except GoError Cart :=
  if !db.up then Except.error GoError.StoreError else
  match intIn userID with
  | none => Except.error GoError.StoreError
  | some uid =>
    match db.cart.find? (fun c => c.UserID == uid) with
    | some c => Except.ok c
    | none => Except.error GoError.ErrNoRows

/-- Modelled from the spec: the statement `INSERT INTO order_app_api_cart (...)
VALUES (...) RETURNING cart_id` on the table whose `cart_id` is a serial
primary key.  The sequence advances, the new value is the key, and the insert
fails when a row already has that key.  Returns the key and the new store. -/
def Store.InsertCart (db : Store) (c : Cart) : Except GoError (Int × Store) :=
  if !db.up then Except.error GoError.StoreError else
  let key := db.cartSeq + 1
  if db.cart.any (fun row => row.CartID == key) then Except.error GoError.StoreError
  else Except.ok (key, { db with cartSeq := key, cart := db.cart ++ [{ c with CartID := key }] })

/-- The statement `DELETE FROM order_app_api_cart WHERE cart_id=$1` run with
`Exec`: the new store. -/
def Store.DeleteCart (db : Store) (intIn : String → Option Int) (cartID : String) :
    Except GoError Store :=
  if !db.up then Except.error GoError.StoreError else
  match intIn cartID with
  | none => Except.error GoError.StoreError
  | some cid => Except.ok { db with cart := db.cart.filter (fun c => c.CartID != cid) }

/-! ## Handlers of `main.go` -/

/-- The function `Auth`: the writer after any error response, the claim, and
the returned error (its message) if any. -/
def Auth {β : Type} (cfg : Config) (now : Time) (w : ResponseWriter) (r : Request β) :
    ResponseWriter × Claims × Option String :=
  match r.Cookie "token" with
  | Except.error err =>
    if err = GoError.ErrNoCookie then
      (w.Error "Unauthorized" StatusUnauthorized, {}, some "Unauthorized")
    else
      (w.Error "Bad request" StatusBadRequest, {}, some "Bad request")
  | Except.ok cookie =>
    let tokenStr := cookie.Value
    match ParseWithClaims cfg.hmac tokenStr cfg.jwtSecret now with
    | (_, some err) =>
      if err = GoError.ErrSignatureInvalid then
        (w.Error "Unauthorized" StatusUnauthorized, {}, some "Unauthorized")
      else
        (w.Error "Bad request" StatusBadRequest, {}, some "Bad request")
    | (token, none) =>
      if !token.Valid then
        (w.Error "Unauthorized" StatusUnauthorized, {}, some "Unauthorized")
      else
        (w, { UserName := token.Claims.UserName }, none)

/-- The handler `Welcome`. -/
def Welcome {β : Type} (cfg : Config) (now : Time) (r : Request β) : ResponseWriter :=
  match Auth cfg now {} r with
  | (w, _, some _) => w
  | (w, claims, none) => w.Write (Chunk.text ("Welcome, " ++ claims.UserName ++ "!"))

/-- The handler `Login`, run at clock reading `now` (the `log.Printf` line is
left out). -/
def Login (cfg : Config) (db : Store) (now : Time) (r : Request Credentials) : ResponseWriter :=
  let w : ResponseWriter := {}
  match r.body with
  | none => w.Error "Invalid request" StatusBadRequest
  | some creds =>
    match db.QueryUserPassword creds.UserName with
    | Except.error err =>
      if err = GoError.ErrNoRows then w.Error "User not found" StatusUnauthorized
      else w.Error "Server error" StatusInternalServerError
    | Except.ok storedPassword =>
      if creds.Password ≠ storedPassword then
        w.Error "Invalid credentials" StatusUnauthorized
      else
        let expirationTime := now.Add (10 * Minute)
        let claims : Claims := { UserName := creds.UserName, ExpiresAt := expirationTime.Unix }
        let token := NewWithClaims SigningMethod.HS256 claims
        match token.SignedString cfg.hmac cfg.jwtSecret with
        | none => w.Error "Server error" StatusInternalServerError
        | some tokenString =>
          w.SetCookie { Name := "token", Value := tokenString, Expires := some expirationTime }

/-- The handler `Refresh`: `authNow` is the clock reading inside `Auth`, `now`
the later reading of the handler itself (the `log.Printf` line is left out). -/
def Refresh {β : Type} (cfg : Config) (authNow now : Time) (r : Request β) : ResponseWriter :=
  match Auth cfg authNow {} r with
  | (w, _, some _) => w
  | (w, claims, none) =>
    let expirationTime := now.Add (5 * Minute)
    let claims := { claims with ExpiresAt := expirationTime.Unix }
    let newToken := NewWithClaims SigningMethod.HS256 claims
    match newToken.SignedString cfg.hmac cfg.jwtSecret with
    | none => w.Error "Server error" StatusInternalServerError
    | some tokenString =>
      w.SetCookie { Name := "token", Value := tokenString, Expires := some expirationTime }

/-- The handler `GetProducts`. -/
def GetProducts {β : Type} (cfg : Config) (db : Store) (now : Time) (r : Request β) :
    ResponseWriter :=
  match Auth cfg now {} r with
  | (w, _, some _) => w
  | (w, claims, none) =>
    let currentUser := claims.UserName
    match db.QueryProducts with
    | Except.error _ => w.Error "Failed to execute query" StatusInternalServerError
    | Except.ok products =>
      let w := w.HeaderSet "Content-Type" "application/json"
      let w := w.Encode (JsonDoc.string currentUser)
      w.Encode (JsonDoc.products products)

/-- The handler `GetCart`. -/
def GetCart {β : Type} (cfg : Config) (db : Store) (now : Time) (r : Request β) :
    ResponseWriter :=
  match Auth cfg now {} r with
  | (w, _, some _) => w
  | (w, claims, none) =>
    let currentUser := claims.UserName
    let userID := r.Var "user_id"
    match db.QueryCart cfg.intIn userID with
    | Except.error err =>
      if err = GoError.ErrNoRows then w.Error "Cart not found" StatusNotFound
      else w.Error "Server error" StatusInternalServerError
    | Except.ok cart =>
      let w := w.HeaderSet "Content-Type" "application/json"
      let w := w.Encode (JsonDoc.string currentUser)
      w.Encode (JsonDoc.cart cart)

/-- The handler `AddToCart`: the response and the store after the call (the
`fmt.Println` line is left out). -/
def AddToCart (cfg : Config) (db : Store) (now : Time) (r : Request CartRequestBody) :
    ResponseWriter × Store :=
  match Auth cfg now {} r with
  | (w, _, some _) => (w, db)
  | (w, claims, none) =>
    let currentUser := claims.UserName
    let userID := r.Var "user_id"
    match r.body with
    | none => (w.Error "Invalid request payload" StatusBadRequest, db)
    | some cartReqBody =>
      match db.QueryProduct cartReqBody.ProductID with
      | Except.error err =>
        if err = GoError.ErrNoRows then (w.Error "Product not found" StatusNotFound, db)
        else (w.Error "Server error" StatusInternalServerError, db)
      | Except.ok (productName, productPrice) =>
        let userIDStr := (Atoi userID).1
        let cart : Cart := { UserID := userIDStr, ProductID := cartReqBody.ProductID,
                             ProductName := productName, ProductPrice := productPrice,
                             CartTotalPrice := productPrice }
        match db.InsertCart cart with
        | Except.error _ => (w.Error "Failed to insert cart" StatusInternalServerError, db)
        | Except.ok (cartID, db) =>
          let cart := { cart with CartID := cartID }
          let w := w.HeaderSet "Content-Type" "application/json"
          let w := w.Encode (JsonDoc.string currentUser)
          (w.Encode (JsonDoc.cart cart), db)

/-- The handler `DeleteFromCart`: the response and the store after the call. -/
def DeleteFromCart {β : Type} (cfg : Config) (db : Store) (now : Time) (r : Request β) :
    ResponseWriter × Store :=
  match Auth cfg now {} r with
  | (w, _, some _) => (w, db)
  | (w, claims, none) =>
    let currentUser := claims.UserName
    let cartID := r.Var "cart_id"
    match db.DeleteCart cfg.intIn cartID with
    | Except.error _ => (w.Error "Failed to delete cart" StatusInternalServerError, db)
    | Except.ok db =>
      let w := w.WriteHeader StatusOK
      (w.Encode (JsonDoc.string currentUser), db)

/-- The handler `CreatePaymentBill`: the response and the requests passed to
`coreAPI.ChargeTransaction`, in order. -/
def CreatePaymentBill (cfg : Config) (now : Time) (r : Request PaymentBill) :
    ResponseWriter × List ChargeReq :=
  match Auth cfg now {} r with
  | (w, _, some _) => (w, [])
  | (w, claims, none) =>
    let currentUser := claims.UserName
    let cartID := r.Var "cart_id"
    match r.body with
    | none => (w.Error "Invalid request payload" StatusBadRequest, [])
    | some paymentBill =>
      let cartTotalPrice := (ParseFloat paymentBill.CartTotalPrice).1
      let transactionChargeReq : ChargeReq :=
        { PaymentType := PaymentTypeQris,
          TransactionDetails :=
            { OrderID := cartID, GrossAmt := cartTotalPrice.toInt64 cfg.int64Overflow },
          CustomerDetails := { FName := currentUser },
          Items := [{ ID := cartID, Price := cartTotalPrice.toInt64 cfg.int64Overflow,
                      Qty := 1, Name := paymentBill.ProductName }] }
      match cfg.ChargeTransaction transactionChargeReq with
      | none => (w.Error "Server error" StatusInternalServerError, [transactionChargeReq])
      | some res =>
        let w := w.Encode (JsonDoc.string currentUser)
        (w.Encode (JsonDoc.gateway res), [transactionChargeReq])

/-- The handler `GetPaymentStatus`. -/
def GetPaymentStatus {β : Type} (cfg : Config) (r : Request β) : ResponseWriter :=
  let w : ResponseWriter := {}
  let cartID := r.Var "cart_id"
  let cart : Cart := {}
  match cfg.CheckTransaction cartID with
  | none => w.Error "Server error" StatusInternalServerError
  | some res =>
    let w := w.HeaderSet "Content-Type" "application/json"
    let w := w.Encode (JsonDoc.cart cart)
    w.Encode (JsonDoc.gateway res)

/-! ## Vocabulary of the statements -/

/-- What the `token` cookie of a cookie jar holds, `none` when the jar has no
cookie of that name. -/
def tokenOf (cookies : List Cookie) : Option TokenString :=
  (cookies.find? (fun c => c.Name == "token")).map (fun c => c.Value)

/-- The token `Login` and `Refresh` mint: HS256 over the claims
`{username, exp}` with the given secret. -/
def mintToken (hmac : Hmac) (secret : String) (username : String) (exp : Int) : TokenString :=
  TokenString.compact SigningMethod.HS256 { UserName := username, ExpiresAt := exp }
    (hmac SigningMethod.HS256 secret { UserName := username, ExpiresAt := exp })

/-- The status `Auth` answers with when the `token` cookie is absent (`none`)
or holds a malformed token string (`some raw`). -/
def rejectStatus (tok : Option String) : Nat :=
  match tok with
  | none => StatusUnauthorized
  | some _ => StatusBadRequest

/-- The request carries a valid session for user `u`: `Auth`, run at clock
reading `now`, writes nothing and returns the claim of `u` without error. -/
def Authenticated {β : Type} (cfg : Config) (now : Time) (r : Request β) (u : String) : Prop :=
  Auth cfg now {} r = ({}, { UserName := u }, none)

/-- The character of a decimal digit. -/
def digitChar (d : Fin 10) : Char := Char.ofNat (48 + d.val)

/-- The number a list of decimal digits writes. -/
def digitsValue (ds : List (Fin 10)) : Nat := ds.foldl (fun n d => n * 10 + d.val) 0

/-- The exponent part of a decimal numeral: the marker `e` (or `E` when `upper`
is set), an optional sign (`some false` is `+`, `some true` is `-`) and digits. -/
structure Exponent where
  upper : Bool := false
  sign : Option Bool := none
  digits : List (Fin 10)
  deriving DecidableEq, Repr

/-- A decimal numeral: an optional sign (`some false` is `+`, `some true` is
`-`), integer digits, when `fracDigits` is given a point followed by fraction
digits, and an optional exponent part (`1000.00` has the integer digits
1, 0, 0, 0 and the fraction digits 0, 0; `-1.5e3` has the sign `some true` and
the exponent digit 3). -/
structure DecimalNumeral where
  sign : Option Bool := none
  intDigits : List (Fin 10)
  fracDigits : Option (List (Fin 10)) := none
  exponent : Option Exponent := none
  deriving DecidableEq, Repr

/-- Whether an optional sign is the minus sign. -/
def isMinus (s : Option Bool) : Bool :=
  match s with
  | some true => true
  | _ => false

/-- The characters of an optional sign. -/
def signChars (s : Option Bool) : List Char :=
  match s with
  | none => []
  | some false => ['+']
  | some true => ['-']

/-- All digits of the mantissa, the point left out. -/
def DecimalNumeral.digits (n : DecimalNumeral) : List (Fin 10) :=
  n.intDigits ++ n.fracDigits.getD []

/-- The number of digits after the point. -/
def DecimalNumeral.scale (n : DecimalNumeral) : Nat := (n.fracDigits.getD []).length

/-- The characters of the fraction part: nothing, or the point and the
fraction digits. -/
def fracChars (fp : Option (List (Fin 10))) : List Char :=
  match fp with
  | none => []
  | some fs => '.' :: fs.map digitChar

/-- The characters of the exponent part: nothing, or the marker, the sign and
the digits. -/
def expChars (x : Option Exponent) : List Char :=
  match x with
  | none => []
  | some x => (if x.upper then 'E' else 'e') :: (signChars x.sign ++ x.digits.map digitChar)

/-- The characters of the numeral. -/
def DecimalNumeral.chars (n : DecimalNumeral) : List Char :=
  signChars n.sign ++ ((n.intDigits.map digitChar ++ fracChars n.fracDigits) ++ expChars n.exponent)

/-- The text of the numeral, as it stands in the request body. -/
def DecimalNumeral.text (n : DecimalNumeral) : String := String.mk n.chars

/-- The number the digits of an exponent part write, 0 without one. -/
def exponentMagnitude (x : Option Exponent) : Nat :=
  match x with
  | none => 0
  | some x => digitsValue x.digits

/-- The signed power of ten an exponent part stands for, 0 without one. -/
def exponentValue (x : Option Exponent) : Int :=
  match x with
  | none => 0
  | some x => if isMinus x.sign then -(digitsValue x.digits : Int) else (digitsValue x.digits : Int)

/-- A numeral has at least one mantissa digit and, when it has an exponent
part, at least one exponent digit. -/
def DecimalNumeral.wellFormed (n : DecimalNumeral) : Bool :=
  !n.digits.isEmpty &&
    (match n.exponent with
     | none => true
     | some x => !x.digits.isEmpty)

/-- The value `v` of the numeral: sign, mantissa and power of ten. -/
def DecimalNumeral.value (n : DecimalNumeral) : ℚ :=
  (if isMinus n.sign then -1 else 1)
    * ((digitsValue n.digits : ℚ) * (10 : ℚ) ^ (exponentValue n.exponent - (n.scale : Int)))

/-- A rational number that `float64` represents: plus or minus `m * 2^e` with
a significand `m` of at most 53 bits and `e` in the exponent range. -/
def IsFloat64 (x : ℚ) : Prop :=
  ∃ (m : Nat) (e : Int), m < 2 ^ 53 ∧ -1074 ≤ e ∧ e ≤ 971 ∧ |x| = (m : ℚ) * (2 : ℚ) ^ e

/-- A `float64` whose significand, normalised to 53 bits (or at the smallest
exponent), is even. -/
def HasEvenSignificand (x : ℚ) : Prop :=
  ∃ (m : Nat) (e : Int), m < 2 ^ 53 ∧ -1074 ≤ e ∧ e ≤ 971 ∧ (e = -1074 ∨ 2 ^ 52 ≤ m)
    ∧ m % 2 = 0 ∧ |x| = (m : ℚ) * (2 : ℚ) ^ e

/-- The magnitude from which rounding to `float64` overflows: half a unit in
the last place above the largest finite `float64`. -/
def float64OverflowBound : ℚ := (2 : ℚ) ^ (1024 : Int) - (2 : ℚ) ^ (970 : Int)

/-- The number `F` is the `float64` nearest to `v`, ties to even: `F` is a
`float64`, no `float64` is nearer to `v`, and if another one is as near then
the significand of `F` is even. -/
def IsNearestFloat64 (v F : ℚ) : Prop :=
  IsFloat64 F ∧ (∀ G : ℚ, IsFloat64 G → |v - F| ≤ |v - G|)
    ∧ (∀ G : ℚ, IsFloat64 G → G ≠ F → |v - G| = |v - F| → HasEvenSignificand F)

/-- Truncation toward zero to an integer. -/
def truncateTowardZero (x : ℚ) : Int := if 0 ≤ x then ⌊x⌋ else ⌈x⌉

/-- The rational number a finite `float64` with the given sign, significand
and exponent stands for. -/
def float64Value (neg : Bool) (m : Nat) (e : Int) : ℚ :=
  (if neg then -1 else 1) * ((m : ℚ) * (2 : ℚ) ^ e)

/-- The exponent loop of `readExpDigits` on decimal digits: the exponent is no
longer extended once it has reached 10000. -/
def stepExpDigit (e : Nat) (d : Fin 10) : Nat := if e < 10000 then e * 10 + d.val else e

/-- The exponent `readExponent` reads from an exponent part: the sign applied
to the result of the exponent loop. -/
def parsedExponent (x : Option Exponent) : Int :=
  match x with
  | none => 0
  | some x =>
    if isMinus x.sign then -((x.digits.foldl stepExpDigit 0 : Nat) : Int)
    else ((x.digits.foldl stepExpDigit 0 : Nat) : Int)

/-- The power of ten `readFloat` attaches to the mantissa of a numeral. -/
def parsedPower (n : DecimalNumeral) : Int :=
  if digitsValue n.digits ≠ 0 then parsedExponent n.exponent - (n.scale : Int) else 0

/-- The digit case of the mantissa loop of `readDigits`, for a decimal digit. -/
def stepDigit (st : Digits) (d : Fin 10) : Digits :=
  if d = 0 ∧ st.nd = 0 then { st with sawdigits := true, dp := st.dp - 1 }
  else { st with sawdigits := true, nd := st.nd + 1, mantissa := st.mantissa * 10 + d.val }

/-- The point case of the mantissa loop of `readDigits`, for the first point. -/
def afterPoint (st : Digits) : Digits := { st with sawdot := true, dp := st.nd }

/-- Whether a character is a digit of a numeral: a decimal digit, or in a
hexadecimal numeral also one of the letters `a`-`f`, `A`-`F`. -/
def isNumeralDigit (hex : Bool) (c : Char) : Bool :=
  decide ('0' ≤ c ∧ c ≤ '9')
    || (hex && (decide ('a' ≤ c ∧ c ≤ 'f') || decide ('A' ≤ c ∧ c ≤ 'F')))

/-- A text without its leading sign, if it has one. -/
def dropSign (cs : List Char) : List Char :=
  match cs with
  | '+' :: t => t
  | '-' :: t => t
  | _ => cs

/-- A mantissa: digits, possibly with underscores and at most one point, and
at least one digit. -/
def isMantissaText (hex : Bool) (m : List Char) : Bool :=
  m.all (fun c => isNumeralDigit hex c || c == '_' || c == '.')
    && decide (m.count '.' ≤ 1) && m.any (isNumeralDigit hex)

/-- An exponent, after its marker: an optional sign, a decimal digit, then
decimal digits and underscores. -/
def isExponentText (t : List Char) : Bool :=
  match dropSign t with
  | [] => false
  | d :: ds => isNumeralDigit false d && ds.all (fun c => isNumeralDigit false c || c == '_')

/-- Whether a text begins with a digit. -/
def startsWithDigit (hex : Bool) (l : List Char) : Bool :=
  match l with
  | d :: _ => isNumeralDigit hex d
  | [] => false

/-- Underscores only separate digits: every underscore stands right after a
digit (`prevOk` tells whether the text so far ends in one, or in the base
marker `0x`) and right before a digit. -/
def underscoresSeparateDigits (hex : Bool) : Bool → List Char → Bool
  | _, [] => true
  | prevOk, c :: rest =>
    if c = '_' then
      prevOk && startsWithDigit hex rest && underscoresSeparateDigits hex false rest
    else underscoresSeparateDigits hex (isNumeralDigit hex c) rest

/-- What follows a mantissa, from the exponent marker on: nothing when
`optional`, or the marker and an exponent. -/
def isExponentPart (optional : Bool) (rest : List Char) : Bool :=
  match rest with
  | [] => optional
  | _ :: t => isExponentText t

/-- An unsigned decimal numeral: a mantissa, optionally followed by `e` or `E`
and an exponent. -/
def isDecimalNumeralText (body : List Char) : Bool :=
  isMantissaText false (body.takeWhile (fun c => c != 'e' && c != 'E'))
    && isExponentPart true (body.dropWhile (fun c => c != 'e' && c != 'E'))
    && underscoresSeparateDigits false false body

/-- An unsigned hexadecimal numeral after its marker `0x`: a hexadecimal
mantissa followed by `p` or `P` and an exponent. -/
def isHexNumeralText (body : List Char) : Bool :=
  isMantissaText true (body.takeWhile (fun c => c != 'p' && c != 'P'))
    && isExponentPart false (body.dropWhile (fun c => c != 'p' && c != 'P'))
    && underscoresSeparateDigits true true body

/-- A numeral: an optionally signed floating-point literal in decimal
(`12`, `1000.00`, `.5`, `1e-3`, `1_000`) or, after `0x`, in hexadecimal with a
binary exponent (`0x1.8p3`). -/
def isNumeralText (cs : List Char) : Bool :=
  match dropSign cs with
  | '0' :: x :: c :: t =>
    if x = 'x' ∨ x = 'X' then isHexNumeralText (c :: t)
    else isDecimalNumeralText ('0' :: x :: c :: t)
  | body => isDecimalNumeralText body

/-- One of the words `inf`, `infinity` (with an optional sign) or `nan`, in any
case of the letters. -/
def isSpecialWord (cs : List Char) : Bool :=
  decide ((dropSign cs).map asciiLower = "inf".toList)
    || decide ((dropSign cs).map asciiLower = "infinity".toList)
    || decide (cs.map asciiLower = "nan".toList)

/-! ## Concrete instances used by the closed statements -/

/-- A toy keyed hash. -/
def exampleHmac : Hmac := fun _ key c => key ++ ":" ++ c.UserName

/-- A configuration with secret `s3cret`, a store that reads integers as `Atoi`
does, a gateway that accepts every call, and the amd64 result of an
unrepresentable conversion. -/
def exampleConfig : Config :=
  { jwtSecret := "s3cret", hmac := exampleHmac,
    intIn := fun s => if (Atoi s).2 = none then some (Atoi s).1 else none,
    int64Overflow := fun _ => -(2 ^ 63),
    ChargeTransaction := fun _ => some "charged",
    CheckTransaction := fun _ => some "settlement" }

/-- A cookie jar holding alice's token with the given expiry (Unix seconds). -/
def aliceCookies (exp : Int) : List Cookie :=
  [{ Name := "token", Value := mintToken exampleHmac "s3cret" "alice" exp }]

/-- A store with user alice, two products and one cart row. -/
def exampleStore : Store :=
  { users := [⟨"alice", "pw"⟩],
    products := [⟨1, "Tea", 1000⟩, ⟨2, "Coffee", 1500⟩],
    cart := [⟨1, 42, 2, "Coffee", 1500, 1500⟩],
    cartSeq := 1 }


/-- A numeral whose exponent part writes 100000: `0.`, `k` zeros and a 1, then
`e100000`.  With 99999 zeros its value is 1. -/
def longNumeral (k : Nat) : DecimalNumeral :=
  { intDigits := [0], fracDigits := some (List.replicate k 0 ++ [1]),
    exponent := some { digits := [1, 0, 0, 0, 0, 0] } }

/-! ## The number parser on decimal numerals -/

theorem digitChar_facts : ∀ d : Fin 10,
    digitVal false (digitChar d) = some d.val
    ∧ digitChar d ≠ '_' ∧ digitChar d ≠ '.' ∧ digitChar d ≠ '+' ∧ digitChar d ≠ '-'
    ∧ digitChar d ≠ 'x' ∧ digitChar d ≠ 'X'
    ∧ (digitChar d = '0' ↔ d = 0)
    ∧ asciiLower (digitChar d) ≠ 'i' ∧ asciiLower (digitChar d) ≠ 'n' := by
  decide

theorem readDigits_digit (d : Fin 10) (cs : List Char) (st : Digits) :
    readDigits false (digitChar d :: cs) st = readDigits false cs (stepDigit st d) := by
  obtain ⟨hv, h1, h2, _, _, _, _, h0, _, _⟩ := digitChar_facts d
  rw [readDigits]
  simp only [h1, h2, if_false, hv, h0]
  unfold stepDigit
  split_ifs <;> first | rfl | simp_all

theorem readDigits_digits (ds : List (Fin 10)) (cs : List Char) (st : Digits) :
    readDigits false (ds.map digitChar ++ cs) st = readDigits false cs (ds.foldl stepDigit st) := by
  induction ds generalizing st with
  | nil => rfl
  | cons d ds ih =>
    simp only [List.map_cons, List.cons_append, List.foldl_cons]
    rw [readDigits_digit, ih]

theorem foldl_stepDigit (ds : List (Fin 10)) (st : Digits)
    (hinv : st.nd = 0 → st.mantissa = 0) :
    (ds.foldl stepDigit st).sawdot = st.sawdot
    ∧ (ds.foldl stepDigit st).underscores = st.underscores
    ∧ (ds.foldl stepDigit st).sawdigits = (st.sawdigits || !ds.isEmpty)
    ∧ (ds.foldl stepDigit st).mantissa = ds.foldl (fun n d => n * 10 + d.val) st.mantissa
    ∧ (ds.foldl stepDigit st).dp - ((ds.foldl stepDigit st).nd : Int)
        = st.dp - (st.nd : Int) - (ds.length : Int)
    ∧ ((ds.foldl stepDigit st).nd = 0 → (ds.foldl stepDigit st).mantissa = 0) := by
  induction ds generalizing st with
  | nil => simpa using hinv
  | cons d ds ih =>
    simp only [List.foldl_cons]
    have hstep : (stepDigit st d).sawdot = st.sawdot
        ∧ (stepDigit st d).underscores = st.underscores
        ∧ (stepDigit st d).sawdigits = true
        ∧ (stepDigit st d).mantissa = st.mantissa * 10 + d.val
        ∧ (stepDigit st d).dp - ((stepDigit st d).nd : Int) = st.dp - (st.nd : Int) - 1
        ∧ ((stepDigit st d).nd = 0 → (stepDigit st d).mantissa = 0) := by
      unfold stepDigit
      split_ifs with h
      · obtain ⟨hd, hn⟩ := h
        refine ⟨rfl, rfl, rfl, ?_, ?_, ?_⟩
        · simp [hd, hinv hn]
        · simp only; ring
        · intro _; simpa using hinv hn
      · refine ⟨rfl, rfl, rfl, rfl, ?_, ?_⟩
        · simp only [Nat.cast_add, Nat.cast_one]; ring
        · intro h0; simp at h0
    obtain ⟨s1, s2, s3, s4, s5, s6⟩ := hstep
    obtain ⟨i1, i2, i3, i4, i5, i6⟩ := ih (stepDigit st d) s6
    refine ⟨i1.trans s1, i2.trans s2, ?_, ?_, ?_, i6⟩
    · rw [i3, s3]; simp
    · rw [i4, s4]
    · rw [i5, s5]; simp only [List.length_cons, Nat.cast_add, Nat.cast_one]; ring


theorem mem_digit_or_point (ip : List (Fin 10)) (fp : Option (List (Fin 10))) (c : Char)
    (hc : c ∈ ip.map digitChar ++ fracChars fp) :
    (∃ d, c = digitChar d) ∨ c = '.' := by
  rcases List.mem_append.mp hc with h | h
  · obtain ⟨d, _, hd⟩ := List.mem_map.mp h
    exact Or.inl ⟨d, hd.symm⟩
  · cases fp with
    | none => simp [fracChars] at h
    | some fs =>
      rcases List.mem_cons.mp h with h | h
      · exact Or.inr h
      · obtain ⟨d, _, hd⟩ := List.mem_map.mp h
        exact Or.inl ⟨d, hd.symm⟩

theorem readSign_plain (s : List Char) (h : ∀ c ∈ s, c ≠ '+' ∧ c ≠ '-') :
    readSign s = (false, s) := by
  unfold readSign
  split
  · exact absurd rfl (h '+' (List.mem_cons_self _ _)).1
  · exact absurd rfl (h '-' (List.mem_cons_self _ _)).2
  · rfl

theorem readBase_plain (s : List Char) (h : ∀ c ∈ s, c ≠ 'x' ∧ c ≠ 'X') :
    readBase s = (false, s) := by
  unfold readBase
  split
  · rename_i x c t
    have := h x (by simp)
    simp [this.1, this.2]
  · rfl

theorem special_none (s : List Char)
    (h : ∀ c ∈ s, asciiLower c ≠ 'i' ∧ asciiLower c ≠ 'n') : special s = none := by
  have key : ∀ t : List Char, (∀ c ∈ t, asciiLower c ≠ 'i' ∧ asciiLower c ≠ 'n') →
      t.map asciiLower ≠ ['i', 'n', 'f']
      ∧ t.map asciiLower ≠ ['i', 'n', 'f', 'i', 'n', 'i', 't', 'y']
      ∧ t.map asciiLower ≠ ['n', 'a', 'n'] := by
    intro t ht
    cases t with
    | nil => decide
    | cons c t =>
      have hc := ht c (List.mem_cons_self _ _)
      refine ⟨?_, ?_, ?_⟩ <;> intro heq
      · have : asciiLower c = 'i' := by
          have := congrArg List.head? heq
          simpa using this
        exact hc.1 this
      · have : asciiLower c = 'i' := by
          have := congrArg List.head? heq
          simpa using this
        exact hc.1 this
      · have : asciiLower c = 'n' := by
          have := congrArg List.head? heq
          simpa using this
        exact hc.2 this
  unfold special isInfText
  split
  · rename_i t
    have hk := key t (fun c hc => h c (List.mem_cons_of_mem _ hc))
    simp [hk.1, hk.2.1]
  · rename_i t
    have hk := key t (fun c hc => h c (List.mem_cons_of_mem _ hc))
    simp [hk.1, hk.2.1]
  · have hk := key s h
    simp [hk.1, hk.2.1, hk.2.2]


theorem digitChar_range : ∀ d : Fin 10,
    ('0' ≤ digitChar d ∧ digitChar d ≤ '9') ∧ (digitChar d).toNat - 48 = d.val
    ∧ digitChar d ≠ 'e' ∧ digitChar d ≠ 'E' := by
  decide

theorem readExpDigits_digits (ds : List (Fin 10)) (rest : List Char) (e : Nat) (u : Bool) :
    readExpDigits (ds.map digitChar ++ rest) e u
      = readExpDigits rest (ds.foldl stepExpDigit e) u := by
  induction ds generalizing e with
  | nil => rfl
  | cons d ds ih =>
    obtain ⟨_, h1, _⟩ := digitChar_facts d
    obtain ⟨h2, h3, _⟩ := digitChar_range d
    simp only [List.map_cons, List.cons_append, List.foldl_cons]
    rw [readExpDigits, if_neg h1, if_pos h2, h3, ← ih]
    rfl

theorem foldl_digits_ge (ds : List (Fin 10)) (e : Nat) :
    e ≤ ds.foldl (fun n d => n * 10 + d.val) e := by
  induction ds generalizing e with
  | nil => exact Nat.le_refl _
  | cons d ds ih =>
    simp only [List.foldl_cons]
    exact Nat.le_trans (by omega) (ih (e * 10 + d.val))

theorem foldl_stepExpDigit_small (ds : List (Fin 10)) (e : Nat)
    (h : ds.foldl (fun n d => n * 10 + d.val) e < 100000) :
    ds.foldl stepExpDigit e = ds.foldl (fun n d => n * 10 + d.val) e := by
  induction ds generalizing e with
  | nil => rfl
  | cons d ds ih =>
    simp only [List.foldl_cons] at h ⊢
    have hge := foldl_digits_ge ds (e * 10 + d.val)
    have he : e < 10000 := by omega
    have hs : stepExpDigit e d = e * 10 + d.val := by
      unfold stepExpDigit
      rw [if_pos he]
    rw [hs]
    exact ih _ h

theorem parsedExponent_eq (x : Option Exponent) (h : exponentMagnitude x < 100000) :
    parsedExponent x = exponentValue x := by
  cases x with
  | none => rfl
  | some x =>
    unfold exponentMagnitude digitsValue at h
    unfold parsedExponent exponentValue digitsValue
    simp only
    rw [foldl_stepExpDigit_small x.digits 0 h]

theorem readSign_signChars (sg : Option Bool) (body : List Char)
    (hbody : ∀ t, body ≠ '+' :: t ∧ body ≠ '-' :: t) :
    readSign (signChars sg ++ body) = (isMinus sg, body) := by
  cases sg with
  | none =>
    show readSign body = (false, body)
    unfold readSign
    split
    · exact absurd rfl (hbody _).1
    · exact absurd rfl (hbody _).2
    · rfl
  | some b =>
    cases b <;> rfl

theorem digits_head_not_sign (ds : List (Fin 10)) (rest : List Char)
    (hrest : ∀ t, rest ≠ '+' :: t ∧ rest ≠ '-' :: t) :
    ∀ t, ds.map digitChar ++ rest ≠ '+' :: t ∧ ds.map digitChar ++ rest ≠ '-' :: t := by
  intro t
  cases ds with
  | nil => exact hrest t
  | cons d ds =>
    obtain ⟨_, _, _, h3, h4, _⟩ := digitChar_facts d
    constructor
    · intro h
      simp only [List.map_cons, List.cons_append, List.cons.injEq] at h
      exact h3 h.1
    · intro h
      simp only [List.map_cons, List.cons_append, List.cons.injEq] at h
      exact h4 h.1

theorem readExponent_expChars (u : Bool) (x : Option Exponent)
    (hwf : ∀ y, x = some y → y.digits ≠ []) :
    readExponent false u (expChars x) = some (parsedExponent x, u, []) := by
  cases x with
  | none => rfl
  | some x =>
    have hne := hwf x rfl
    have hsign : readSign (signChars x.sign ++ x.digits.map digitChar)
        = (isMinus x.sign, x.digits.map digitChar) := by
      apply readSign_signChars
      have := digits_head_not_sign x.digits [] (fun t => ⟨by simp, by simp⟩)
      simpa using this
    have hmark : (if x.upper then 'E' else 'e') ∈ (if false = true then ['p', 'P'] else ['e', 'E']) := by
      cases x.upper <;> simp
    unfold expChars parsedExponent
    simp only
    rw [readExponent]
    rw [if_pos hmark, hsign]
    cases hds : x.digits with
    | nil => exact absurd hds hne
    | cons d ds =>
      obtain ⟨h2, _⟩ := digitChar_range d
      simp only [List.map_cons]
      rw [if_pos h2]
      have := readExpDigits_digits (d :: ds) [] 0 u
      simp only [List.map_cons, List.append_nil] at this
      rw [this]
      simp only [readExpDigits]

theorem readDigits_expChars (x : Option Exponent) (st : Digits) :
    readDigits false (expChars x) st = (st, expChars x) := by
  cases x with
  | none => rfl
  | some x =>
    unfold expChars
    simp only
    rw [readDigits]
    cases x.upper <;> simp [digitVal]

theorem readFloat_of_parts (s body s3 rest : List Char) (neg u : Bool) (st : Digits) (e : Int)
    (hs : s ≠ []) (hsign : readSign s = (neg, body)) (hbase : readBase body = (false, body))
    (hdig : readDigits false body {} = (st, s3)) (hsd : st.sawdigits = true)
    (hexp : readExponent false st.underscores s3 = some (e, u, rest)) :
    readFloat s = some { neg := neg, hex := false, mantissa := st.mantissa,
                         exp := if st.mantissa ≠ 0 then
                                  (if st.sawdot then st.dp else (st.nd : Int)) + e - (st.nd : Int)
                                else 0,
                         underscores := u, rest := rest } := by
  cases s with
  | nil => exact absurd rfl hs
  | cons c t =>
    simp [readFloat, hsign, hbase, hdig, hsd, hexp]

theorem readDigits_point (cs : List Char) (st : Digits) (h : st.sawdot = false) :
    readDigits false ('.' :: cs) st = readDigits false cs (afterPoint st) := by
  rw [readDigits]
  simp [h, afterPoint]

theorem readDigits_decimal (ip : List (Fin 10)) (fp : Option (List (Fin 10)))
    (x : Option Exponent) (hne : ip ++ fp.getD [] ≠ []) :
    ∃ st : Digits,
      readDigits false ((ip.map digitChar ++ fracChars fp) ++ expChars x) {} = (st, expChars x)
      ∧ st.sawdigits = true ∧ st.underscores = false
      ∧ st.mantissa = digitsValue (ip ++ fp.getD [])
      ∧ (if st.sawdot then st.dp else (st.nd : Int)) - (st.nd : Int)
          = -((fp.getD []).length : Int) := by
  obtain ⟨a1, a2, a3, a4, a5, a6⟩ := foldl_stepDigit ip {} (fun _ => rfl)
  generalize hst1 : ip.foldl stepDigit {} = st1 at a1 a2 a3 a4 a5 a6
  have a1' : st1.sawdot = false := a1
  have a2' : st1.underscores = false := a2
  have a3' : st1.sawdigits = !ip.isEmpty := by simpa using a3
  have a4' : st1.mantissa = digitsValue ip := a4
  cases fp with
  | none =>
    refine ⟨st1, ?_, ?_, a2', ?_, ?_⟩
    · show readDigits false ((ip.map digitChar ++ []) ++ expChars x) {} = (st1, expChars x)
      rw [List.append_nil, readDigits_digits, readDigits_expChars, hst1]
    · rw [a3']
      cases ip with
      | nil => simp at hne
      | cons d ds => rfl
    · rw [a4']; simp
    · simp [a1']
  | some fs =>
    obtain ⟨b1, b2, b3, b4, b5, _⟩ := foldl_stepDigit fs (afterPoint st1) a6
    generalize hst3 : fs.foldl stepDigit (afterPoint st1) = st3 at b1 b2 b3 b4 b5
    refine ⟨st3, ?_, ?_, ?_, ?_, ?_⟩
    · show readDigits false ((ip.map digitChar ++ '.' :: fs.map digitChar) ++ expChars x) {}
        = (st3, expChars x)
      rw [List.append_assoc, readDigits_digits, hst1, List.cons_append,
        readDigits_point _ _ a1', readDigits_digits, readDigits_expChars, hst3]
    · rw [b3]
      simp only [afterPoint, a3']
      cases ip with
      | nil =>
        cases fs with
        | nil => simp at hne
        | cons d ds => rfl
      | cons d ds => rfl
    · rw [b2]; exact a2'
    · rw [b4]
      simp only [afterPoint, a4', digitsValue, Option.getD_some, List.foldl_append]
    · have : st3.sawdot = true := b1
      rw [this]
      simp only [if_true, Option.getD_some]
      rw [b5]; simp [afterPoint]

theorem mem_chars (n : DecimalNumeral) (c : Char) (hc : c ∈ n.chars) :
    (∃ d, c = digitChar d) ∨ c = '.' ∨ c = 'e' ∨ c = 'E' ∨ c = '+' ∨ c = '-' := by
  have hsg : ∀ sg : Option Bool, c ∈ signChars sg → c = '+' ∨ c = '-' := by
    intro sg h
    cases sg with
    | none => simp [signChars] at h
    | some b => cases b <;> simp [signChars] at h <;> simp [h]
  unfold DecimalNumeral.chars at hc
  rcases List.mem_append.mp hc with h | h
  · rcases hsg _ h with h | h
    · exact Or.inr (Or.inr (Or.inr (Or.inr (Or.inl h))))
    · exact Or.inr (Or.inr (Or.inr (Or.inr (Or.inr h))))
  · rcases List.mem_append.mp h with h | h
    · rcases mem_digit_or_point _ _ c h with h | h
      · exact Or.inl h
      · exact Or.inr (Or.inl h)
    · cases hx : n.exponent with
      | none => rw [hx] at h; simp [expChars] at h
      | some x =>
        rw [hx] at h
        unfold expChars at h
        simp only at h
        rcases List.mem_cons.mp h with h | h
        · cases hxu : x.upper
          · rw [hxu] at h
            exact Or.inr (Or.inr (Or.inl (by simpa using h)))
          · rw [hxu] at h
            exact Or.inr (Or.inr (Or.inr (Or.inl (by simpa using h))))
        · rcases List.mem_append.mp h with h | h
          · rcases hsg _ h with h | h
            · exact Or.inr (Or.inr (Or.inr (Or.inr (Or.inl h))))
            · exact Or.inr (Or.inr (Or.inr (Or.inr (Or.inr h))))
          · obtain ⟨d, _, hd⟩ := List.mem_map.mp h
            exact Or.inl ⟨d, hd.symm⟩

theorem chars_facts (n : DecimalNumeral) :
    ∀ c ∈ n.chars, (c ≠ 'x' ∧ c ≠ 'X') ∧ (asciiLower c ≠ 'i' ∧ asciiLower c ≠ 'n') := by
  intro c hc
  rcases mem_chars n c hc with ⟨d, rfl⟩ | rfl | rfl | rfl | rfl | rfl
  · obtain ⟨_, _, _, _, _, h5, h6, _, h8, h9⟩ := digitChar_facts d
    exact ⟨⟨h5, h6⟩, ⟨h8, h9⟩⟩
  all_goals decide

theorem wellFormed_iff (n : DecimalNumeral) (hwf : n.wellFormed = true) :
    n.digits ≠ [] ∧ ∀ y, n.exponent = some y → y.digits ≠ [] := by
  unfold DecimalNumeral.wellFormed at hwf
  simp only [Bool.and_eq_true, Bool.not_eq_true', List.isEmpty_eq_false] at hwf
  refine ⟨hwf.1, ?_⟩
  intro y hy
  rw [hy] at hwf
  simpa using hwf.2

theorem readFloat_decimal (n : DecimalNumeral) (hwf : n.wellFormed = true) :
    readFloat n.chars = some { neg := isMinus n.sign, hex := false,
                               mantissa := digitsValue n.digits, exp := parsedPower n,
                               underscores := false, rest := [] } := by
  obtain ⟨hdigits, hexpwf⟩ := wellFormed_iff n hwf
  obtain ⟨st, hdig, hsd, hu, hm, hexp⟩ :=
    readDigits_decimal n.intDigits n.fracDigits n.exponent hdigits
  have hbody_head : ∀ t,
      (n.intDigits.map digitChar ++ fracChars n.fracDigits) ++ expChars n.exponent ≠ '+' :: t
      ∧ (n.intDigits.map digitChar ++ fracChars n.fracDigits) ++ expChars n.exponent ≠ '-' :: t := by
    intro t
    rw [List.append_assoc]
    apply digits_head_not_sign
    intro t
    cases hf : n.fracDigits with
    | some fs => simp [fracChars]
    | none =>
      cases hx : n.exponent with
      | none => simp [fracChars, expChars]
      | some x => cases hxu : x.upper <;> simp [fracChars, expChars, hxu]
  have hbody_ne : (n.intDigits.map digitChar ++ fracChars n.fracDigits) ++ expChars n.exponent
      ≠ [] := by
    intro h
    apply hdigits
    unfold DecimalNumeral.digits
    cases hi : n.intDigits with
    | nil =>
      cases hf : n.fracDigits with
      | none => rfl
      | some fs => rw [hi, hf] at h; simp [fracChars] at h
    | cons d ds => rw [hi] at h; simp at h
  have hsign := readSign_signChars n.sign _ hbody_head
  have hs : n.chars ≠ [] := by
    unfold DecimalNumeral.chars
    intro h
    exact hbody_ne (List.append_eq_nil.mp h).2
  have hbase : readBase ((n.intDigits.map digitChar ++ fracChars n.fracDigits)
      ++ expChars n.exponent) = (false, (n.intDigits.map digitChar ++ fracChars n.fracDigits)
      ++ expChars n.exponent) := by
    apply readBase_plain
    intro c hc
    exact (chars_facts n c (by
      unfold DecimalNumeral.chars
      exact List.mem_append_right _ hc)).1
  have hre := readExponent_expChars st.underscores n.exponent hexpwf
  have h := readFloat_of_parts n.chars _ _ _ (isMinus n.sign) _ st _ hs hsign hbase hdig hsd hre
  rw [h, hm, hu]
  unfold parsedPower
  have : (if st.sawdot then st.dp else (st.nd : Int)) + parsedExponent n.exponent - (st.nd : Int)
      = parsedExponent n.exponent - (n.scale : Int) := by
    unfold DecimalNumeral.scale
    linarith
  rw [this]
  rfl

theorem parseFloat64_decimal (n : DecimalNumeral) (hwf : n.wellFormed = true) :
    parseFloat64 n.chars
      = ((roundFloat64 (isMinus n.sign) (digitsValue n.digits * 10 ^ (parsedPower n).toNat)
            (10 ^ (-parsedPower n).toNat)).1,
         if (roundFloat64 (isMinus n.sign) (digitsValue n.digits * 10 ^ (parsedPower n).toNat)
            (10 ^ (-parsedPower n).toNat)).2
         then some GoError.ErrRange else none) := by
  have hsp : special n.chars = none :=
    special_none _ (fun c hc => (chars_facts n c hc).2)
  unfold parseFloat64
  rw [hsp, readFloat_decimal n hwf]
  simp

/-! ## Exactness of the `float64` rounding on small integers -/

theorem log2Fuel_eq (fuel n : Nat) (h : n ≤ fuel) : log2Fuel fuel n = Nat.log2 n := by
  induction fuel generalizing n with
  | zero =>
    have : n = 0 := Nat.le_zero.mp h
    subst this
    simp [log2Fuel]
  | succ fuel ih =>
    rw [log2Fuel, Nat.log2]
    by_cases h2 : n < 2
    · simp [h2, Nat.not_le.mpr h2]
    · have hge : n ≥ 2 := Nat.le_of_not_lt h2
      have hdiv : n / 2 ≤ fuel := by omega
      simp [h2, hge, ih (n / 2) hdiv]

theorem ilog2_eq (n : Nat) : ilog2 n = Nat.log2 n := log2Fuel_eq n n (Nat.le_refl n)

theorem floorLog2_mul (n D : Nat) (hn : 0 < n) (hD : 0 < D) :
    floorLog2 (n * D) D = (Nat.log2 n : Int) := by
  have hn0 : n ≠ 0 := Nat.pos_iff_ne_zero.mp hn
  have hD0 : D ≠ 0 := Nat.pos_iff_ne_zero.mp hD
  have hnD0 : n * D ≠ 0 := Nat.mul_ne_zero hn0 hD0
  have hL1 : 2 ^ Nat.log2 n ≤ n := Nat.log2_self_le hn0
  have hL2 : n < 2 ^ (Nat.log2 n + 1) := Nat.lt_log2_self
  have hb1 : 2 ^ Nat.log2 D ≤ D := Nat.log2_self_le hD0
  have hb2 : D < 2 ^ (Nat.log2 D + 1) := Nat.lt_log2_self
  have ha_lo : Nat.log2 n + Nat.log2 D ≤ Nat.log2 (n * D) := by
    rw [Nat.le_log2 hnD0, Nat.pow_add]
    exact Nat.mul_le_mul hL1 hb1
  have ha_hi : Nat.log2 (n * D) < Nat.log2 n + Nat.log2 D + 2 := by
    rw [Nat.log2_lt hnD0]
    calc n * D < 2 ^ (Nat.log2 n + 1) * 2 ^ (Nat.log2 D + 1) :=
          Nat.mul_lt_mul'' hL2 hb2
      _ = 2 ^ (Nat.log2 n + Nat.log2 D + 2) := by rw [← Nat.pow_add]; congr 1; omega
  unfold floorLog2
  simp only [ilog2_eq]
  rcases Nat.lt_or_ge (Nat.log2 (n * D)) (Nat.log2 n + Nat.log2 D + 1) with h | h
  · have ha : Nat.log2 (n * D) = Nat.log2 n + Nat.log2 D := by omega
    have hk : ((Nat.log2 (n * D) : Int) - (Nat.log2 D : Int)) = (Nat.log2 n : Int) := by
      rw [ha]; push_cast; ring
    rw [hk]
    have hc : D * 2 ^ ((Nat.log2 n : Int)).toNat ≤ n * D * 2 ^ (-(Nat.log2 n : Int)).toNat := by
      have h1 : ((Nat.log2 n : Int)).toNat = Nat.log2 n := Int.toNat_natCast _
      have h2 : (-(Nat.log2 n : Int)).toNat = 0 := by
        apply Int.toNat_eq_zero.mpr; omega
      rw [h1, h2, Nat.pow_zero, Nat.mul_one, Nat.mul_comm n D]
      exact Nat.mul_le_mul_left D hL1
    rw [if_pos hc]
  · have ha : Nat.log2 (n * D) = Nat.log2 n + Nat.log2 D + 1 := by omega
    have hk : ((Nat.log2 (n * D) : Int) - (Nat.log2 D : Int)) = ((Nat.log2 n + 1 : Nat) : Int) := by
      rw [ha]; push_cast; ring
    rw [hk]
    have hc : ¬ D * 2 ^ (((Nat.log2 n + 1 : Nat) : Int)).toNat
        ≤ n * D * 2 ^ (-((Nat.log2 n + 1 : Nat) : Int)).toNat := by
      have h1 : (((Nat.log2 n + 1 : Nat) : Int)).toNat = Nat.log2 n + 1 := Int.toNat_natCast _
      have h2 : (-((Nat.log2 n + 1 : Nat) : Int)).toNat = 0 := by
        apply Int.toNat_eq_zero.mpr; omega
      rw [h1, h2, Nat.pow_zero, Nat.mul_one, Nat.mul_comm n D, Nat.not_le]
      exact Nat.mul_lt_mul_of_pos_left hL2 hD
    simp only [hc, if_false]
    push_cast
    ring

theorem roundFloat64_exact (neg : Bool) (n D : Nat) (hn : 0 < n) (hn53 : n < 2 ^ 53)
    (hD : 0 < D) :
    roundFloat64 neg (n * D) D
      = (Float64.finite neg (n * 2 ^ (52 - Nat.log2 n)) ((Nat.log2 n : Int) - 52), false) := by
  have hn0 : n ≠ 0 := Nat.pos_iff_ne_zero.mp hn
  have hL : Nat.log2 n < 53 := (Nat.log2_lt hn0).mpr hn53
  have hnD0 : n * D ≠ 0 := Nat.mul_ne_zero hn0 (Nat.pos_iff_ne_zero.mp hD)
  unfold roundFloat64
  rw [floorLog2_mul n D hn hD]
  have he : max ((Nat.log2 n : Int) - 52) (-1074) = (Nat.log2 n : Int) - 52 := by
    apply max_eq_left; omega
  have h1 : (-((Nat.log2 n : Int) - 52)).toNat = 52 - Nat.log2 n := by omega
  have h2 : ((Nat.log2 n : Int) - 52).toNat = 0 := by omega
  simp only [hnD0, if_false, he, h1, h2, Nat.pow_zero, Nat.mul_one]
  have hq : n * D * 2 ^ (52 - Nat.log2 n) / D = n * 2 ^ (52 - Nat.log2 n) := by
    rw [Nat.mul_right_comm, Nat.mul_div_cancel _ hD]
  have hr : n * D * 2 ^ (52 - Nat.log2 n) % D = 0 := by
    rw [Nat.mul_right_comm]; exact Nat.mul_mod_left _ _
  rw [hq, hr]
  have hD2 : ¬ D < 2 * 0 := by simp
  have hD3 : ¬ (2 * 0 = D ∧ n * 2 ^ (52 - Nat.log2 n) % 2 = 1) := by
    intro h; omega
  have ho1 : ¬ (971 : Int) < (Nat.log2 n : Int) - 52 := by omega
  have ho2 : ¬ ((Nat.log2 n : Int) - 52 = 971) := by omega
  have hor : ¬ (D < 2 * 0 ∨ (2 * 0 = D ∧ n * 2 ^ (52 - Nat.log2 n) % 2 = 1)) := by
    intro h; rcases h with h | h
    · exact hD2 h
    · exact hD3 h
  have hov : ¬ ((971 : Int) < (Nat.log2 n : Int) - 52
      ∨ ((Nat.log2 n : Int) - 52 = 971 ∧ 2 ^ 53 ≤ n * 2 ^ (52 - Nat.log2 n))) := by
    intro h; rcases h with h | h
    · exact ho1 h
    · exact ho2 h.1
  rw [if_neg hor, if_neg hov]

theorem toInt64_roundFloat64_exact (overflow : Float64 → Int) (neg : Bool) (n D : Nat)
    (hn53 : n < 2 ^ 53) (hD : 0 < D) :
    (roundFloat64 neg (n * D) D).1.toInt64 overflow = if neg then -(n : Int) else (n : Int) := by
  rcases Nat.eq_zero_or_pos n with h0 | hpos
  · subst h0
    cases neg <;> simp [roundFloat64, Float64.toInt64]
  · rw [roundFloat64_exact neg n D hpos hn53 hD]
    have hn0 : n ≠ 0 := Nat.pos_iff_ne_zero.mp hpos
    have hL : Nat.log2 n < 53 := (Nat.log2_lt hn0).mpr hn53
    have h1 : (-((Nat.log2 n : Int) - 52)).toNat = 52 - Nat.log2 n := by omega
    have h2 : ((Nat.log2 n : Int) - 52).toNat = 0 := by omega
    unfold Float64.toInt64
    simp only [h1, h2, Nat.pow_zero, Nat.mul_one]
    rw [Nat.mul_div_cancel _ (Nat.pos_pow_of_pos _ (by decide))]
    have hb : (n : Int) < 2 ^ 53 := by exact_mod_cast hn53
    cases neg
    · have : -(2 ^ 63 : Int) ≤ (n : Int) ∧ (n : Int) < 2 ^ 63 := by
        constructor <;> omega
      simp only [Bool.false_eq_true, if_false]
      rw [if_pos this]
    · have : -(2 ^ 63 : Int) ≤ -(n : Int) ∧ -(n : Int) < 2 ^ 63 := by
        constructor <;> omega
      simp only [if_true]
      rw [if_pos this]


/-! ## The `float64` rounding is to nearest, ties to even -/

theorem two_zpow_split (k : Int) :
    (2 : ℚ) ^ k = ((2 ^ k.toNat : Nat) : ℚ) / ((2 ^ (-k).toNat : Nat) : ℚ) := by
  rcases le_total 0 k with h | h
  · have h1 : (-k).toNat = 0 := by omega
    have h2 : ((k.toNat : Nat) : Int) = k := Int.toNat_of_nonneg h
    rw [h1]
    simp only [pow_zero, Nat.cast_one, div_one, Nat.cast_pow, Nat.cast_ofNat]
    rw [← zpow_natCast, h2]
  · have h1 : k.toNat = 0 := by omega
    have h2 : (((-k).toNat : Nat) : Int) = -k := Int.toNat_of_nonneg (by omega)
    rw [h1]
    simp only [pow_zero, Nat.cast_one, Nat.cast_pow, Nat.cast_ofNat, one_div]
    rw [← zpow_natCast, h2, zpow_neg, inv_inv]

theorem log2_bounds_rat (n : Nat) (hn : 0 < n) :
    (2 : ℚ) ^ (Nat.log2 n : Int) ≤ (n : ℚ) ∧ (n : ℚ) < (2 : ℚ) ^ ((Nat.log2 n : Int) + 1) := by
  have hn0 : n ≠ 0 := Nat.pos_iff_ne_zero.mp hn
  have h1 : 2 ^ Nat.log2 n ≤ n := Nat.log2_self_le hn0
  have h2 : n < 2 ^ (Nat.log2 n + 1) := Nat.lt_log2_self
  constructor
  · rw [zpow_natCast]; exact_mod_cast h1
  · have : ((Nat.log2 n : Int) + 1) = ((Nat.log2 n + 1 : Nat) : Int) := by push_cast; ring
    rw [this, zpow_natCast]; exact_mod_cast h2

theorem floorLog2_spec (num den : Nat) (hnum : 0 < num) (hden : 0 < den) :
    (2 : ℚ) ^ floorLog2 num den ≤ (num : ℚ) / den
    ∧ (num : ℚ) / den < (2 : ℚ) ^ (floorLog2 num den + 1) := by
  obtain ⟨ha1, ha2⟩ := log2_bounds_rat num hnum
  obtain ⟨hb1, hb2⟩ := log2_bounds_rat den hden
  have hdq : (0 : ℚ) < den := by exact_mod_cast hden
  have hnq : (0 : ℚ) < num := by exact_mod_cast hnum
  have h2 : (0 : ℚ) < 2 := by norm_num
  have h2ne : (2 : ℚ) ≠ 0 := by norm_num
  have hup : (num : ℚ) / den < (2 : ℚ) ^ ((Nat.log2 num : Int) - (Nat.log2 den : Int) + 1) := by
    have e : ((Nat.log2 num : Int) - (Nat.log2 den : Int) + 1)
        = ((Nat.log2 num : Int) + 1) - (Nat.log2 den : Int) := by ring
    rw [e, zpow_sub₀ h2ne, div_lt_div_iff₀ hdq (zpow_pos h2 _)]
    calc (num : ℚ) * 2 ^ (Nat.log2 den : Int) ≤ num * den :=
          mul_le_mul_of_nonneg_left hb1 hnq.le
      _ < 2 ^ ((Nat.log2 num : Int) + 1) * den := mul_lt_mul_of_pos_right ha2 hdq
  have hlo : (2 : ℚ) ^ ((Nat.log2 num : Int) - (Nat.log2 den : Int) - 1) ≤ (num : ℚ) / den := by
    have e : ((Nat.log2 num : Int) - (Nat.log2 den : Int) - 1)
        = (Nat.log2 num : Int) - ((Nat.log2 den : Int) + 1) := by ring
    rw [e, zpow_sub₀ h2ne, div_le_div_iff₀ (zpow_pos h2 _) hdq]
    calc (2 : ℚ) ^ (Nat.log2 num : Int) * den ≤ num * den :=
          mul_le_mul_of_nonneg_right ha1 hdq.le
      _ ≤ num * 2 ^ ((Nat.log2 den : Int) + 1) := mul_le_mul_of_nonneg_left hb2.le hnq.le
  unfold floorLog2
  simp only [ilog2_eq]
  have hA : (0 : ℚ) < ((2 ^ ((Nat.log2 num : Int) - (Nat.log2 den : Int)).toNat : Nat) : ℚ) := by
    exact_mod_cast Nat.pos_pow_of_pos _ (by decide)
  have hB : (0 : ℚ) < ((2 ^ (-((Nat.log2 num : Int) - (Nat.log2 den : Int))).toNat : Nat) : ℚ) := by
    exact_mod_cast Nat.pos_pow_of_pos _ (by decide)
  have hiff : (den * 2 ^ ((Nat.log2 num : Int) - (Nat.log2 den : Int)).toNat
        ≤ num * 2 ^ (-((Nat.log2 num : Int) - (Nat.log2 den : Int))).toNat)
      ↔ (2 : ℚ) ^ ((Nat.log2 num : Int) - (Nat.log2 den : Int)) ≤ (num : ℚ) / den := by
    rw [two_zpow_split, div_le_div_iff₀ hB hdq]
    constructor
    · intro h
      have : ((den * 2 ^ ((Nat.log2 num : Int) - (Nat.log2 den : Int)).toNat : Nat) : ℚ)
          ≤ ((num * 2 ^ (-((Nat.log2 num : Int) - (Nat.log2 den : Int))).toNat : Nat) : ℚ) := by
        exact_mod_cast h
      rw [Nat.cast_mul, Nat.cast_mul] at this
      linarith
    · intro h
      have : ((den * 2 ^ ((Nat.log2 num : Int) - (Nat.log2 den : Int)).toNat : Nat) : ℚ)
          ≤ ((num * 2 ^ (-((Nat.log2 num : Int) - (Nat.log2 den : Int))).toNat : Nat) : ℚ) := by
        rw [Nat.cast_mul, Nat.cast_mul]
        linarith
      exact_mod_cast this
  by_cases hc : den * 2 ^ ((Nat.log2 num : Int) - (Nat.log2 den : Int)).toNat
      ≤ num * 2 ^ (-((Nat.log2 num : Int) - (Nat.log2 den : Int))).toNat
  · rw [if_pos hc]
    exact ⟨hiff.mp hc, hup⟩
  · rw [if_neg hc]
    refine ⟨hlo, ?_⟩
    have : ((Nat.log2 num : Int) - (Nat.log2 den : Int) - 1 + 1)
        = (Nat.log2 num : Int) - (Nat.log2 den : Int) := by ring
    rw [this]
    exact not_le.mp (fun h => hc (hiff.mpr h))

/-- The integer nearest to `n/d`, ties to even, as `roundFloat64` computes it. -/
theorem round_half_even (n d : Nat) (hd : 0 < d) :
    |(n : ℚ) / d - ((if d < 2 * (n % d) ∨ (2 * (n % d) = d ∧ n / d % 2 = 1)
        then n / d + 1 else n / d : Nat) : ℚ)| ≤ 1 / 2
    ∧ (|(n : ℚ) / d - ((if d < 2 * (n % d) ∨ (2 * (n % d) = d ∧ n / d % 2 = 1)
        then n / d + 1 else n / d : Nat) : ℚ)| = 1 / 2 →
        (if d < 2 * (n % d) ∨ (2 * (n % d) = d ∧ n / d % 2 = 1)
          then n / d + 1 else n / d) % 2 = 0) := by
  have hdq : (0 : ℚ) < d := by exact_mod_cast hd
  have hsplit : (n : ℚ) / d = (n / d : Nat) + ((n % d : Nat) : ℚ) / d := by
    have h := Nat.div_add_mod n d
    have hq : ((d * (n / d) + n % d : Nat) : ℚ) = (n : ℚ) := by rw [h]
    rw [← hq]; push_cast; field_simp; ring
  have hrlt : n % d < d := Nat.mod_lt _ hd
  have hr0 : (0 : ℚ) ≤ ((n % d : Nat) : ℚ) / d := div_nonneg (Nat.cast_nonneg _) hdq.le
  by_cases hup : d < 2 * (n % d) ∨ (2 * (n % d) = d ∧ n / d % 2 = 1)
  · rw [if_pos hup]
    have hle : d ≤ 2 * (n % d) := by
      rcases hup with h | h
      · exact Nat.le_of_lt h
      · exact Nat.le_of_eq h.1.symm
    have hleq : (d : ℚ) ≤ 2 * ((n % d : Nat) : ℚ) := by exact_mod_cast hle
    have hfrac : (1 : ℚ) / 2 ≤ ((n % d : Nat) : ℚ) / d := by
      rw [div_le_div_iff₀ (by norm_num) hdq]; linarith
    have hfrac1 : ((n % d : Nat) : ℚ) / d < 1 := by
      rw [div_lt_one hdq]; exact_mod_cast hrlt
    have hval : (n : ℚ) / d - ((n / d + 1 : Nat) : ℚ) = ((n % d : Nat) : ℚ) / d - 1 := by
      rw [hsplit]; push_cast; ring
    rw [hval]
    have hneg : ((n % d : Nat) : ℚ) / d - 1 ≤ 0 := by linarith
    rw [abs_of_nonpos hneg]
    refine ⟨by linarith, fun htie => ?_⟩
    have hhalf : ((n % d : Nat) : ℚ) / d = 1 / 2 := by linarith
    have h2r : 2 * (n % d) = d := by
      have : 2 * ((n % d : Nat) : ℚ) = (d : ℚ) := by
        rw [div_eq_iff (ne_of_gt hdq)] at hhalf; linarith
      exact_mod_cast this
    rcases hup with h | h
    · omega
    · omega
  · rw [if_neg hup]
    have hle : 2 * (n % d) ≤ d := by
      by_contra h
      exact hup (Or.inl (Nat.lt_of_not_le h))
    have hleq : 2 * ((n % d : Nat) : ℚ) ≤ (d : ℚ) := by exact_mod_cast hle
    have hfrac : ((n % d : Nat) : ℚ) / d ≤ 1 / 2 := by
      rw [div_le_div_iff₀ hdq (by norm_num)]; linarith
    have hval : (n : ℚ) / d - ((n / d : Nat) : ℚ) = ((n % d : Nat) : ℚ) / d := by
      rw [hsplit]; ring
    rw [hval, abs_of_nonneg hr0]
    refine ⟨hfrac, fun htie => ?_⟩
    have h2r : 2 * (n % d) = d := by
      have : 2 * ((n % d : Nat) : ℚ) = (d : ℚ) := by
        rw [div_eq_iff (ne_of_gt hdq)] at htie; linarith
      exact_mod_cast this
    by_contra hodd
    exact hup (Or.inr ⟨h2r, by omega⟩)

theorem roundFloat64_unfold (neg : Bool) (num den : Nat) (hnum : 0 < num) :
    roundFloat64 neg num den
      = if 971 < max (floorLog2 num den - 52) (-1074)
            ∨ (max (floorLog2 num den - 52) (-1074) = 971
              ∧ 2 ^ 53 ≤ (if den * 2 ^ (max (floorLog2 num den - 52) (-1074)).toNat
                    < 2 * (num * 2 ^ (-(max (floorLog2 num den - 52) (-1074))).toNat
                      % (den * 2 ^ (max (floorLog2 num den - 52) (-1074)).toNat))
                  ∨ (2 * (num * 2 ^ (-(max (floorLog2 num den - 52) (-1074))).toNat
                      % (den * 2 ^ (max (floorLog2 num den - 52) (-1074)).toNat))
                      = den * 2 ^ (max (floorLog2 num den - 52) (-1074)).toNat
                    ∧ num * 2 ^ (-(max (floorLog2 num den - 52) (-1074))).toNat
                      / (den * 2 ^ (max (floorLog2 num den - 52) (-1074)).toNat) % 2 = 1)
                then num * 2 ^ (-(max (floorLog2 num den - 52) (-1074))).toNat
                      / (den * 2 ^ (max (floorLog2 num den - 52) (-1074)).toNat) + 1
                else num * 2 ^ (-(max (floorLog2 num den - 52) (-1074))).toNat
                      / (den * 2 ^ (max (floorLog2 num den - 52) (-1074)).toNat)))
        then (Float64.inf neg, true)
        else (Float64.finite neg
          (if den * 2 ^ (max (floorLog2 num den - 52) (-1074)).toNat
                < 2 * (num * 2 ^ (-(max (floorLog2 num den - 52) (-1074))).toNat
                  % (den * 2 ^ (max (floorLog2 num den - 52) (-1074)).toNat))
              ∨ (2 * (num * 2 ^ (-(max (floorLog2 num den - 52) (-1074))).toNat
                  % (den * 2 ^ (max (floorLog2 num den - 52) (-1074)).toNat))
                  = den * 2 ^ (max (floorLog2 num den - 52) (-1074)).toNat
                ∧ num * 2 ^ (-(max (floorLog2 num den - 52) (-1074))).toNat
                  / (den * 2 ^ (max (floorLog2 num den - 52) (-1074)).toNat) % 2 = 1)
            then num * 2 ^ (-(max (floorLog2 num den - 52) (-1074))).toNat
                  / (den * 2 ^ (max (floorLog2 num den - 52) (-1074)).toNat) + 1
            else num * 2 ^ (-(max (floorLog2 num den - 52) (-1074))).toNat
                  / (den * 2 ^ (max (floorLog2 num den - 52) (-1074)).toNat))
          (max (floorLog2 num den - 52) (-1074)), false) := by
  unfold roundFloat64
  rw [if_neg (Nat.pos_iff_ne_zero.mp hnum)]

/-- The rounding of `roundFloat64` is IEEE 754 round-to-nearest, ties to even:
for a positive `num/den` the result is either a finite `q * 2^e` with `q` of at
most 53 bits (`q = 2^53` standing for the next power of two), `e` in the
exponent range of `float64`, `q` normalised unless `e` is the smallest
exponent, at most half a unit in the last place away from `num/den` and with
even `q` when exactly half a unit away, `num/den` being at least `2^52 * 2^e`
unless `e` is the smallest exponent; or it is an infinity, and `num/den` is at
least the rounding boundary `2^1024 - 2^970`. -/
theorem roundFloat64_spec (neg : Bool) (num den : Nat) (hnum : 0 < num) (hden : 0 < den) :
    (∃ (q : Nat) (e : Int), roundFloat64 neg num den = (Float64.finite neg q e, false)
        ∧ -1074 ≤ e ∧ e ≤ 971 ∧ q ≤ 2 ^ 53 ∧ (e = 971 → q < 2 ^ 53)
        ∧ (-1074 < e → 2 ^ 52 ≤ q)
        ∧ |(num : ℚ) / den - q * (2 : ℚ) ^ e| ≤ (2 : ℚ) ^ e / 2
        ∧ (|(num : ℚ) / den - q * (2 : ℚ) ^ e| = (2 : ℚ) ^ e / 2 → q % 2 = 0)
        ∧ (-1074 < e → (2 : ℚ) ^ (52 : Int) * (2 : ℚ) ^ e ≤ (num : ℚ) / den))
    ∨ (roundFloat64 neg num den = (Float64.inf neg, true)
        ∧ (2 : ℚ) ^ (1024 : Int) - (2 : ℚ) ^ (970 : Int) ≤ (num : ℚ) / den) := by
  obtain ⟨hk1, hk2⟩ := floorLog2_spec num den hnum hden
  rw [roundFloat64_unfold neg num den hnum]
  generalize hk : floorLog2 num den = k at hk1 hk2 ⊢
  generalize he : max (k - 52) (-1074) = e
  have he1 : k - 52 ≤ e := by rw [← he]; exact le_max_left _ _
  have he2 : -1074 ≤ e := by rw [← he]; exact le_max_right _ _
  have he3 : -1074 < e → e = k - 52 := by
    intro h
    rcases max_choice (k - 52) (-1074) with h' | h'
    · rw [← he, h']
    · rw [← he, h'] at h; exact absurd h (lt_irrefl _)
  have hdpos : 0 < den * 2 ^ e.toNat := Nat.mul_pos hden (Nat.pos_pow_of_pos _ (by decide))
  obtain ⟨hr1, hr2⟩ := round_half_even (num * 2 ^ (-e).toNat) (den * 2 ^ e.toNat) hdpos
  generalize hq : (if den * 2 ^ e.toNat < 2 * (num * 2 ^ (-e).toNat % (den * 2 ^ e.toNat))
        ∨ (2 * (num * 2 ^ (-e).toNat % (den * 2 ^ e.toNat)) = den * 2 ^ e.toNat
          ∧ num * 2 ^ (-e).toNat / (den * 2 ^ e.toNat) % 2 = 1)
      then num * 2 ^ (-e).toNat / (den * 2 ^ e.toNat) + 1
      else num * 2 ^ (-e).toNat / (den * 2 ^ e.toNat)) = q at hr1 hr2 ⊢
  have h2 : (0 : ℚ) < 2 := by norm_num
  have h2ne : (2 : ℚ) ≠ 0 := by norm_num
  have hEpos : (0 : ℚ) < (2 : ℚ) ^ e := zpow_pos h2 e
  have hdq : (0 : ℚ) < den := by exact_mod_cast hden
  have hx : ((num * 2 ^ (-e).toNat : Nat) : ℚ) / ((den * 2 ^ e.toNat : Nat) : ℚ)
      = (num : ℚ) / den / (2 : ℚ) ^ e := by
    rw [two_zpow_split e]
    have hA : ((2 ^ e.toNat : Nat) : ℚ) ≠ 0 := by
      exact_mod_cast (Nat.pos_pow_of_pos _ (by decide) : 0 < 2 ^ e.toNat).ne'
    have hB : ((2 ^ (-e).toNat : Nat) : ℚ) ≠ 0 := by
      exact_mod_cast (Nat.pos_pow_of_pos _ (by decide) : 0 < 2 ^ (-e).toNat).ne'
    rw [Nat.cast_mul, Nat.cast_mul]
    field_simp
  rw [hx] at hr1 hr2
  -- the scaled value lies below 2^53, and at or above 2^52 when normalised
  have hxhi : (num : ℚ) / den / (2 : ℚ) ^ e < (2 : ℚ) ^ (53 : Int) := by
    rw [div_lt_iff₀ hEpos, ← zpow_add₀ h2ne]
    exact lt_of_lt_of_le hk2 (zpow_le_zpow_right₀ (by norm_num) (by omega))
  have hxlo : -1074 < e → (2 : ℚ) ^ (52 : Int) ≤ (num : ℚ) / den / (2 : ℚ) ^ e := by
    intro h
    rw [le_div_iff₀ hEpos, ← zpow_add₀ h2ne]
    have : (52 : Int) + e = k := by rw [he3 h]; ring
    rw [this]; exact hk1
  have habs := abs_le.mp hr1
  have hq53 : q ≤ 2 ^ 53 := by
    have : (q : ℚ) < (2 : ℚ) ^ (53 : Int) + 1 := by linarith [habs.1]
    have h' : (q : ℚ) < ((2 ^ 53 + 1 : Nat) : ℚ) := by
      have e53 : ((2 ^ 53 + 1 : Nat) : ℚ) = (2 : ℚ) ^ (53 : Int) + 1 := by norm_num
      rw [e53]; exact this
    have : q < 2 ^ 53 + 1 := by exact_mod_cast h'
    omega
  have hq52 : -1074 < e → 2 ^ 52 ≤ q := by
    intro h
    have hlo := hxlo h
    have : (2 : ℚ) ^ (52 : Int) - 1 < (q : ℚ) := by linarith [habs.2]
    have h' : ((2 ^ 52 - 1 : Nat) : ℚ) < (q : ℚ) := by
      have e52 : ((2 ^ 52 - 1 : Nat) : ℚ) = (2 : ℚ) ^ (52 : Int) - 1 := by norm_num
      rw [e52]; exact this
    have : 2 ^ 52 - 1 < q := by exact_mod_cast h'
    omega
  have hval : (num : ℚ) / den - q * (2 : ℚ) ^ e
      = ((num : ℚ) / den / (2 : ℚ) ^ e - q) * (2 : ℚ) ^ e := by
    field_simp
    ring
  by_cases hov : 971 < e ∨ (e = 971 ∧ 2 ^ 53 ≤ q)
  · right
    rw [if_pos hov]
    refine ⟨rfl, ?_⟩
    rcases hov with h | ⟨h, hq2⟩
    · have hk' : (1024 : Int) ≤ k := by have := he3 (by omega); omega
      have : (2 : ℚ) ^ (1024 : Int) ≤ (2 : ℚ) ^ k := zpow_le_zpow_right₀ (by norm_num) hk'
      have h970 : (0 : ℚ) < (2 : ℚ) ^ (970 : Int) := zpow_pos h2 _
      linarith
    · have hqq : (2 : ℚ) ^ (53 : Int) ≤ (q : ℚ) := by
        have : ((2 ^ 53 : Nat) : ℚ) ≤ (q : ℚ) := by exact_mod_cast hq2
        have e53 : ((2 ^ 53 : Nat) : ℚ) = (2 : ℚ) ^ (53 : Int) := by norm_num
        rw [e53] at this; exact this
      have hxge : (2 : ℚ) ^ (53 : Int) - 1 / 2 ≤ (num : ℚ) / den / (2 : ℚ) ^ e := by
        linarith [habs.2]
      rw [le_div_iff₀ hEpos, h] at hxge
      have : ((2 : ℚ) ^ (53 : Int) - 1 / 2) * (2 : ℚ) ^ (971 : Int)
          = (2 : ℚ) ^ (1024 : Int) - (2 : ℚ) ^ (970 : Int) := by
        have a : (2 : ℚ) ^ (1024 : Int) = (2 : ℚ) ^ (53 : Int) * (2 : ℚ) ^ (971 : Int) := by
          rw [← zpow_add₀ h2ne]; norm_num
        have b : (2 : ℚ) ^ (971 : Int) = 2 * (2 : ℚ) ^ (970 : Int) := by
          rw [show (971 : Int) = 1 + 970 from rfl, zpow_add₀ h2ne, zpow_one]
        rw [a, b]; ring
      rw [this] at hxge; exact hxge
  · left
    rw [if_neg hov]
    refine ⟨q, e, rfl, he2, ?_, hq53, ?_, hq52, ?_, ?_, ?_⟩
    · by_contra h
      exact hov (Or.inl (not_le.mp h))
    · intro h
      by_contra hq2
      exact hov (Or.inr ⟨h, not_lt.mp hq2⟩)
    · rw [hval, abs_mul, abs_of_pos hEpos]
      calc |(num : ℚ) / den / (2 : ℚ) ^ e - q| * (2 : ℚ) ^ e
            ≤ 1 / 2 * (2 : ℚ) ^ e := mul_le_mul_of_nonneg_right hr1 hEpos.le
        _ = (2 : ℚ) ^ e / 2 := by ring
    · intro htie
      apply hr2
      rw [hval, abs_mul, abs_of_pos hEpos] at htie
      have : |(num : ℚ) / den / (2 : ℚ) ^ e - q| * (2 : ℚ) ^ e = 1 / 2 * (2 : ℚ) ^ e := by
        rw [htie]; ring
      exact mul_right_cancel₀ (ne_of_gt hEpos) this
    · intro h
      exact (le_div_iff₀ hEpos).mp (hxlo h)

/-! ## The nearest `float64` and truncation, from their definitions -/

theorem isFloat64_neg (x : ℚ) (h : IsFloat64 x) : IsFloat64 (-x) := by
  obtain ⟨m, e, h1, h2, h3, h4⟩ := h
  exact ⟨m, e, h1, h2, h3, by rw [abs_neg]; exact h4⟩

theorem hasEvenSignificand_neg (x : ℚ) (h : HasEvenSignificand x) : HasEvenSignificand (-x) := by
  obtain ⟨m, e, h1, h2, h3, h4, h5, h6⟩ := h
  exact ⟨m, e, h1, h2, h3, h4, h5, by rw [abs_neg]; exact h6⟩

theorem isNearestFloat64_neg (v F : ℚ) (h : IsNearestFloat64 v F) :
    IsNearestFloat64 (-v) (-F) := by
  obtain ⟨h1, h2, h3⟩ := h
  have e1 : ∀ G : ℚ, |(-v) - G| = |v - (-G)| := by
    intro G
    rw [← abs_neg]
    congr 1
    ring
  have e2 : |(-v) - (-F)| = |v - F| := by
    rw [e1, neg_neg]
  refine ⟨isFloat64_neg F h1, ?_, ?_⟩
  · intro G hG
    rw [e2, e1]
    exact h2 (-G) (isFloat64_neg G hG)
  · intro G hG hne htie
    rw [e2, e1] at htie
    apply hasEvenSignificand_neg
    apply h3 (-G) (isFloat64_neg G hG) _ htie
    intro hGF
    apply hne
    rw [← hGF, neg_neg]

theorem isNearestFloat64_zero : IsNearestFloat64 0 0 := by
  refine ⟨⟨0, 0, by norm_num, by norm_num, by norm_num, by simp⟩, ?_, ?_⟩
  · intro G _
    simp
  · intro G _ hne htie
    exfalso
    apply hne
    simpa using htie

theorem isFloat64_of_parts (q : Nat) (e : Int) (he1 : -1074 ≤ e) (he2 : e ≤ 971)
    (hq : q ≤ 2 ^ 53) (hq971 : e = 971 → q < 2 ^ 53) :
    IsFloat64 ((q : ℚ) * (2 : ℚ) ^ e) := by
  have hnn : (0 : ℚ) ≤ (q : ℚ) * (2 : ℚ) ^ e :=
    mul_nonneg (Nat.cast_nonneg _) (zpow_nonneg (by norm_num) _)
  rcases Nat.lt_or_ge q (2 ^ 53) with h | h
  · exact ⟨q, e, h, he1, he2, abs_of_nonneg hnn⟩
  · have hq' : q = 2 ^ 53 := Nat.le_antisymm hq h
    have he : e ≠ 971 := fun h971 => absurd (hq971 h971) (by omega)
    refine ⟨2 ^ 52, e + 1, by norm_num, by omega, by omega, ?_⟩
    rw [abs_of_nonneg hnn, hq', zpow_add₀ (by norm_num : (2 : ℚ) ≠ 0), zpow_one]
    push_cast
    ring

theorem hasEvenSignificand_of_parts (q : Nat) (e : Int) (he1 : -1074 ≤ e) (he2 : e ≤ 971)
    (hq : q ≤ 2 ^ 53) (hq971 : e = 971 → q < 2 ^ 53) (hq52 : -1074 < e → 2 ^ 52 ≤ q)
    (heven : q % 2 = 0) :
    HasEvenSignificand ((q : ℚ) * (2 : ℚ) ^ e) := by
  have hnn : (0 : ℚ) ≤ (q : ℚ) * (2 : ℚ) ^ e :=
    mul_nonneg (Nat.cast_nonneg _) (zpow_nonneg (by norm_num) _)
  rcases Nat.lt_or_ge q (2 ^ 53) with h | h
  · refine ⟨q, e, h, he1, he2, ?_, heven, abs_of_nonneg hnn⟩
    rcases eq_or_lt_of_le he1 with h1 | h1
    · exact Or.inl h1.symm
    · exact Or.inr (hq52 h1)
  · have hq' : q = 2 ^ 53 := Nat.le_antisymm hq h
    have he : e ≠ 971 := fun h971 => absurd (hq971 h971) (by omega)
    refine ⟨2 ^ 52, e + 1, by norm_num, by omega, by omega, Or.inr (Nat.le_refl _),
      by norm_num, ?_⟩
    rw [abs_of_nonneg hnn, hq', zpow_add₀ (by norm_num : (2 : ℚ) ≠ 0), zpow_one]
    push_cast
    ring

/-- Every `float64` other than `q * 2^e` is at least half a unit in the last
place away from a number that `q * 2^e` approximates to within half a unit. -/
theorem float64_far (v : ℚ) (q : Nat) (e : Int)
    (hnear : |v - (q : ℚ) * (2 : ℚ) ^ e| ≤ (2 : ℚ) ^ e / 2)
    (hlo : -1074 < e → (2 : ℚ) ^ (52 : Int) * (2 : ℚ) ^ e ≤ v)
    (G : ℚ) (hG : IsFloat64 G) (hne : G ≠ (q : ℚ) * (2 : ℚ) ^ e) :
    (2 : ℚ) ^ e / 2 ≤ |v - G| := by
  obtain ⟨m, e', hm, he'1, he'2, hGabs⟩ := hG
  have h2ne : (2 : ℚ) ≠ 0 := by norm_num
  have hP : (0 : ℚ) < (2 : ℚ) ^ e := zpow_pos (by norm_num) e
  by_cases hee : e ≤ e'
  · -- `G` is an integer multiple of `2^e`
    have hk : (2 : ℚ) ^ e' = (((2 ^ (e' - e).toNat : Nat) : ℚ)) * (2 : ℚ) ^ e := by
      have h1 : e' = ((e' - e).toNat : Int) + e := by
        rw [Int.toNat_of_nonneg (by omega)]; ring
      conv_lhs => rw [h1]
      rw [zpow_add₀ h2ne, zpow_natCast]
      push_cast
      ring
    have hj : ∃ j : Int, G = (j : ℚ) * (2 : ℚ) ^ e := by
      rcases le_total 0 G with h0 | h0
      · refine ⟨((m * 2 ^ (e' - e).toNat : Nat) : Int), ?_⟩
        rw [abs_of_nonneg h0, hk] at hGabs
        rw [hGabs]
        push_cast
        ring
      · refine ⟨-((m * 2 ^ (e' - e).toNat : Nat) : Int), ?_⟩
        rw [abs_of_nonpos h0, hk] at hGabs
        have : G = -((m : ℚ) * (((2 ^ (e' - e).toNat : Nat) : ℚ) * (2 : ℚ) ^ e)) := by
          rw [← hGabs]; ring
        rw [this]
        push_cast
        ring
    obtain ⟨j, hj⟩ := hj
    have hjq : j ≠ (q : Int) := by
      intro h
      apply hne
      rw [hj, h]
      norm_cast
    have h1 : (1 : ℚ) ≤ |(j : ℚ) - (q : ℚ)| := by
      have : (1 : Int) ≤ |j - (q : Int)| := Int.one_le_abs (sub_ne_zero.mpr hjq)
      have h' : ((1 : Int) : ℚ) ≤ ((|j - (q : Int)| : Int) : ℚ) := by exact_mod_cast this
      simpa using h'
    have h2 : ((j : ℚ) - (q : ℚ)) * (2 : ℚ) ^ e
        = (v - (q : ℚ) * (2 : ℚ) ^ e) - (v - G) := by
      rw [hj]; ring
    have h3 : |((j : ℚ) - (q : ℚ)) * (2 : ℚ) ^ e| ≤ |v - (q : ℚ) * (2 : ℚ) ^ e| + |v - G| := by
      rw [h2]; exact abs_sub _ _
    rw [abs_mul, abs_of_pos hP] at h3
    have h4 : (2 : ℚ) ^ e ≤ |(j : ℚ) - (q : ℚ)| * (2 : ℚ) ^ e := by
      calc (2 : ℚ) ^ e = 1 * (2 : ℚ) ^ e := (one_mul _).symm
        _ ≤ |(j : ℚ) - (q : ℚ)| * (2 : ℚ) ^ e := mul_le_mul_of_nonneg_right h1 hP.le
    linarith
  · -- `G` lies below the binade of `v`
    have hlt : e' ≤ e - 1 := by omega
    have hv := hlo (by omega)
    have hm' : (m : ℚ) ≤ (2 : ℚ) ^ (53 : Int) - 1 := by
      have : m ≤ 2 ^ 53 - 1 := by omega
      have h' : (m : ℚ) ≤ ((2 ^ 53 - 1 : Nat) : ℚ) := by exact_mod_cast this
      have e53 : ((2 ^ 53 - 1 : Nat) : ℚ) = (2 : ℚ) ^ (53 : Int) - 1 := by norm_num
      rw [e53] at h'; exact h'
    have hpow : (2 : ℚ) ^ e' ≤ (2 : ℚ) ^ e / 2 := by
      have : (2 : ℚ) ^ e' ≤ (2 : ℚ) ^ (e - 1) := zpow_le_zpow_right₀ (by norm_num) hlt
      rw [zpow_sub_one₀ h2ne] at this
      simpa [div_eq_mul_inv] using this
    have hGle : |G| ≤ ((2 : ℚ) ^ (53 : Int) - 1) * ((2 : ℚ) ^ e / 2) := by
      rw [hGabs]
      exact mul_le_mul hm' hpow (zpow_nonneg (by norm_num) _) (by norm_num)
    have h5 : v - G ≤ |v - G| := le_abs_self _
    have h6 : G ≤ |G| := le_abs_self _
    have e52 : (2 : ℚ) ^ (53 : Int) = 2 * (2 : ℚ) ^ (52 : Int) := by norm_num
    rw [e52] at hGle
    nlinarith

/-- A number that `q * 2^e` approximates to half a unit in the last place, with
`q` normalised as `roundFloat64` normalises it, has `q * 2^e` as its nearest
`float64`, ties to even. -/
theorem nearest_of_spec (v : ℚ) (q : Nat) (e : Int) (he1 : -1074 ≤ e) (he2 : e ≤ 971)
    (hq : q ≤ 2 ^ 53) (hq971 : e = 971 → q < 2 ^ 53) (hq52 : -1074 < e → 2 ^ 52 ≤ q)
    (hnear : |v - (q : ℚ) * (2 : ℚ) ^ e| ≤ (2 : ℚ) ^ e / 2)
    (htie : |v - (q : ℚ) * (2 : ℚ) ^ e| = (2 : ℚ) ^ e / 2 → q % 2 = 0)
    (hlo : -1074 < e → (2 : ℚ) ^ (52 : Int) * (2 : ℚ) ^ e ≤ v) :
    IsNearestFloat64 v ((q : ℚ) * (2 : ℚ) ^ e) := by
  refine ⟨isFloat64_of_parts q e he1 he2 hq hq971, ?_, ?_⟩
  · intro G hG
    by_cases hGF : G = (q : ℚ) * (2 : ℚ) ^ e
    · rw [hGF]
    · exact le_trans hnear (float64_far v q e hnear hlo G hG hGF)
  · intro G hG hGF heq
    have hfar := float64_far v q e hnear hlo G hG hGF
    rw [heq] at hfar
    exact hasEvenSignificand_of_parts q e he1 he2 hq hq971 hq52 (htie (le_antisymm hnear hfar))

/-- A number that rounds to a finite `float64` lies below the overflow bound. -/
theorem finite_below_bound (v : ℚ) (q : Nat) (e : Int) (he2 : e ≤ 971)
    (hq : q ≤ 2 ^ 53) (hq971 : e = 971 → q < 2 ^ 53)
    (hnear : |v - (q : ℚ) * (2 : ℚ) ^ e| ≤ (2 : ℚ) ^ e / 2)
    (htie : |v - (q : ℚ) * (2 : ℚ) ^ e| = (2 : ℚ) ^ e / 2 → q % 2 = 0) :
    v < float64OverflowBound := by
  have h2ne : (2 : ℚ) ≠ 0 := by norm_num
  have hA : (0 : ℚ) < (2 : ℚ) ^ (970 : Int) := zpow_pos (by norm_num) _
  have hT : float64OverflowBound = ((2 : ℚ) ^ (54 : Int) - 1) * (2 : ℚ) ^ (970 : Int) := by
    unfold float64OverflowBound
    have : (2 : ℚ) ^ (1024 : Int) = (2 : ℚ) ^ (54 : Int) * (2 : ℚ) ^ (970 : Int) := by
      rw [← zpow_add₀ h2ne]; norm_num
    rw [this]; ring
  have hP : (0 : ℚ) < (2 : ℚ) ^ e := zpow_pos (by norm_num) e
  have hqq : (q : ℚ) ≤ (2 : ℚ) ^ (53 : Int) := by
    have h' : (q : ℚ) ≤ ((2 ^ 53 : Nat) : ℚ) := by exact_mod_cast hq
    have e53 : ((2 ^ 53 : Nat) : ℚ) = (2 : ℚ) ^ (53 : Int) := by norm_num
    rw [e53] at h'; exact h'
  have hup := (abs_le.mp hnear).2
  have e54 : (2 : ℚ) ^ (54 : Int) = 2 * (2 : ℚ) ^ (53 : Int) := by norm_num
  have h53 : (0 : ℚ) < (2 : ℚ) ^ (53 : Int) := zpow_pos (by norm_num) _
  rw [hT, e54]
  rcases eq_or_lt_of_le he2 with h971 | hlt
  · -- the largest exponent
    have hP' : (2 : ℚ) ^ e = 2 * (2 : ℚ) ^ (970 : Int) := by
      rw [h971, show (971 : Int) = 1 + 970 from rfl, zpow_add₀ h2ne, zpow_one]
    have hq1 : q ≤ 2 ^ 53 - 1 := by have := hq971 h971; omega
    have hqq1 : (q : ℚ) ≤ (2 : ℚ) ^ (53 : Int) - 1 := by
      have h' : (q : ℚ) ≤ ((2 ^ 53 - 1 : Nat) : ℚ) := by exact_mod_cast hq1
      have e53 : ((2 ^ 53 - 1 : Nat) : ℚ) = (2 : ℚ) ^ (53 : Int) - 1 := by norm_num
      rw [e53] at h'; exact h'
    by_contra hge
    have hge' := not_lt.mp hge
    rw [hP'] at hup hnear htie
    have hmul : (q : ℚ) * (2 * (2 : ℚ) ^ (970 : Int))
        ≤ ((2 : ℚ) ^ (53 : Int) - 1) * (2 * (2 : ℚ) ^ (970 : Int)) :=
      mul_le_mul_of_nonneg_right hqq1 (by positivity)
    have hveq : v - (q : ℚ) * (2 * (2 : ℚ) ^ (970 : Int)) = 2 * (2 : ℚ) ^ (970 : Int) / 2 := by
      linarith
    have heven := htie (by rw [hveq]; exact abs_of_nonneg (by positivity))
    have hqeq : (q : ℚ) * (2 * (2 : ℚ) ^ (970 : Int))
        = ((2 : ℚ) ^ (53 : Int) - 1) * (2 * (2 : ℚ) ^ (970 : Int)) := by
      linarith
    have hqv : (q : ℚ) = (2 : ℚ) ^ (53 : Int) - 1 :=
      mul_right_cancel₀ (by positivity) hqeq
    have hqn : q = 2 ^ 53 - 1 := by
      have e53 : ((2 ^ 53 - 1 : Nat) : ℚ) = (2 : ℚ) ^ (53 : Int) - 1 := by norm_num
      rw [← e53] at hqv
      exact_mod_cast hqv
    rw [hqn] at heven
    exact absurd heven (by norm_num)
  · have hle : (2 : ℚ) ^ e ≤ (2 : ℚ) ^ (970 : Int) :=
      zpow_le_zpow_right₀ (by norm_num) (by omega)
    have h1 : (q : ℚ) * (2 : ℚ) ^ e ≤ (2 : ℚ) ^ (53 : Int) * (2 : ℚ) ^ (970 : Int) :=
      mul_le_mul hqq hle hP.le h53.le
    have h53' : (2 : ℚ) ≤ (2 : ℚ) ^ (53 : Int) := by norm_num
    nlinarith

theorem zpow_split (b : Nat) (hb : 0 < b) (k : Int) :
    ((b : ℚ)) ^ k = ((b ^ k.toNat : Nat) : ℚ) / ((b ^ (-k).toNat : Nat) : ℚ) := by
  have hb0 : (b : ℚ) ≠ 0 := by exact_mod_cast hb.ne'
  rcases le_total 0 k with h | h
  · have h1 : (-k).toNat = 0 := by omega
    have h2 : ((k.toNat : Nat) : Int) = k := Int.toNat_of_nonneg h
    rw [h1]
    simp only [pow_zero, Nat.cast_one, div_one, Nat.cast_pow]
    rw [← zpow_natCast, h2]
  · have h1 : k.toNat = 0 := by omega
    have h2 : (((-k).toNat : Nat) : Int) = -k := Int.toNat_of_nonneg (by omega)
    rw [h1]
    simp only [pow_zero, Nat.cast_one, Nat.cast_pow, one_div]
    rw [← zpow_natCast, h2, zpow_neg, inv_inv]

/-- The conversion `int64(f)` of a finite `float64` is the truncation toward
zero of its value when that fits `int64`, and the implementation-dependent
result otherwise. -/
theorem toInt64_finite (overflow : Float64 → Int) (neg : Bool) (m : Nat) (e : Int) :
    (Float64.finite neg m e).toInt64 overflow
      = if -(2 ^ 63) ≤ truncateTowardZero (float64Value neg m e)
            ∧ truncateTowardZero (float64Value neg m e) < 2 ^ 63
        then truncateTowardZero (float64Value neg m e)
        else overflow (Float64.finite neg m e) := by
  have hx : (m : ℚ) * (2 : ℚ) ^ e
      = ((m * 2 ^ e.toNat : Nat) : ℚ) / ((2 ^ (-e).toNat : Nat) : ℚ) := by
    have := zpow_split 2 (by norm_num) e
    simp only [Nat.cast_ofNat] at this
    rw [this]
    push_cast
    ring
  have hfloor : ⌊(m : ℚ) * (2 : ℚ) ^ e⌋ = ((m * 2 ^ e.toNat / 2 ^ (-e).toNat : Nat) : Int) := by
    rw [hx, Rat.floor_natCast_div_natCast]
    norm_cast
  have hnn : (0 : ℚ) ≤ (m : ℚ) * (2 : ℚ) ^ e :=
    mul_nonneg (Nat.cast_nonneg _) (zpow_nonneg (by norm_num) _)
  have htr : truncateTowardZero (float64Value neg m e)
      = if neg then -((m * 2 ^ e.toNat / 2 ^ (-e).toNat : Nat) : Int)
        else ((m * 2 ^ e.toNat / 2 ^ (-e).toNat : Nat) : Int) := by
    unfold truncateTowardZero float64Value
    cases neg with
    | false =>
      simp only [Bool.false_eq_true, if_false, one_mul]
      rw [if_pos hnn, hfloor]
    | true =>
      simp only [if_true, neg_one_mul]
      by_cases h0 : (m : ℚ) * (2 : ℚ) ^ e = 0
      · have hf := hfloor
        rw [h0] at hf ⊢
        simp only [neg_zero, le_refl, if_true]
        rw [hf]
        have : ((m * 2 ^ e.toNat / 2 ^ (-e).toNat : Nat) : Int) = 0 := by
          rw [← hf]; simp
        rw [this]; rfl
      · have hpos : 0 < (m : ℚ) * (2 : ℚ) ^ e := lt_of_le_of_ne hnn (Ne.symm h0)
        have : ¬ (0 ≤ -((m : ℚ) * (2 : ℚ) ^ e)) := by linarith
        rw [if_neg this, Int.ceil_neg, hfloor]
  rw [htr]
  unfold Float64.toInt64
  simp only

theorem isFloat64_zero : IsFloat64 0 :=
  ⟨0, 0, by norm_num, by norm_num, by norm_num, by simp⟩

/-- Two distinct nearest `float64` of one number have the number midway and no
`float64` between them. -/
theorem no_float64_between (v F G : ℚ) (hN : IsNearestFloat64 v F)
    (hN' : IsNearestFloat64 v G) (hlt : F < G) :
    (|v - G| = |v - F|) ∧ ∀ H : ℚ, IsFloat64 H → ¬ (F < H ∧ H < G) := by
  have h1 := hN.2.1 G hN'.1
  have h2 := hN'.2.1 F hN.1
  have heq : |v - G| = |v - F| := le_antisymm h2 h1
  refine ⟨heq, ?_⟩
  have hmid : v - F = -(v - G) := by
    rcases abs_eq_abs.mp heq with h | h
    · exfalso; linarith
    · linarith
  intro H hH hb
  have h3 := hN.2.1 H hH
  have hd : |v - F| = v - F := abs_of_nonneg (by linarith)
  have h4 : |v - H| < v - F := by
    rw [abs_lt]
    constructor <;> linarith [hb.1, hb.2]
  rw [hd] at h3
  linarith

theorem unique_nonneg (v F G : ℚ) (hN : IsNearestFloat64 v F) (hN' : IsNearestFloat64 v G)
    (h0 : 0 ≤ F) (hlt : F < G) : False := by
  obtain ⟨heq, hbetween⟩ := no_float64_between v F G hN hN' hlt
  obtain ⟨m, e, hm, he1, he2, hnorm, heven, hF⟩ :=
    hN.2.2 G hN'.1 (ne_of_gt hlt) heq
  obtain ⟨m', e', hm', he1', he2', hnorm', heven', hG⟩ :=
    hN'.2.2 F hN.1 (ne_of_lt hlt) heq.symm
  rw [abs_of_nonneg h0] at hF
  rw [abs_of_nonneg (le_trans h0 hlt.le)] at hG
  have h2ne : (2 : ℚ) ≠ 0 := by norm_num
  have hP : (0 : ℚ) < (2 : ℚ) ^ e := zpow_pos (by norm_num) e
  -- the next `float64` above `F`
  have hm1 : m + 1 < 2 ^ 53 := by omega
  have hnext : IsFloat64 (((m + 1 : Nat) : ℚ) * (2 : ℚ) ^ e) :=
    ⟨m + 1, e, hm1, he1, he2,
      abs_of_nonneg (mul_nonneg (Nat.cast_nonneg _) hP.le)⟩
  have hFlt : F < ((m + 1 : Nat) : ℚ) * (2 : ℚ) ^ e := by
    rw [hF]
    push_cast
    nlinarith
  have hGle : G ≤ ((m + 1 : Nat) : ℚ) * (2 : ℚ) ^ e := by
    by_contra h
    exact hbetween _ hnext ⟨hFlt, not_le.mp h⟩
  rw [hF, hG] at hlt
  rw [hG] at hGle
  by_cases hee : e ≤ e'
  · have hk : (2 : ℚ) ^ e' = (((2 ^ (e' - e).toNat : Nat) : ℚ)) * (2 : ℚ) ^ e := by
      have h1 : e' = ((e' - e).toNat : Int) + e := by
        rw [Int.toNat_of_nonneg (by omega)]; ring
      conv_lhs => rw [h1]
      rw [zpow_add₀ h2ne, zpow_natCast]
      push_cast
      ring
    rw [hk, ← mul_assoc] at hlt hGle
    have hlt' : (m : ℚ) < (m' : ℚ) * ((2 ^ (e' - e).toNat : Nat) : ℚ) :=
      lt_of_mul_lt_mul_right hlt hP.le
    have hle' : (m' : ℚ) * ((2 ^ (e' - e).toNat : Nat) : ℚ) ≤ ((m + 1 : Nat) : ℚ) :=
      le_of_mul_le_mul_right hGle hP
    have hltn : m < m' * 2 ^ (e' - e).toNat := by exact_mod_cast hlt'
    have hlen : m' * 2 ^ (e' - e).toNat ≤ m + 1 := by exact_mod_cast hle'
    have hpar : (m' * 2 ^ (e' - e).toNat) % 2 = 0 := by
      rw [Nat.mul_mod, heven']
      simp
    omega
  · have hlt1 : e' ≤ e - 1 := by omega
    have hm52 : 2 ^ 52 ≤ m := by
      rcases hnorm with h | h
      · omega
      · exact h
    have hmq : (2 : ℚ) ^ (52 : Int) ≤ (m : ℚ) := by
      have h' : ((2 ^ 52 : Nat) : ℚ) ≤ (m : ℚ) := by exact_mod_cast hm52
      have e52 : ((2 ^ 52 : Nat) : ℚ) = (2 : ℚ) ^ (52 : Int) := by norm_num
      rw [e52] at h'; exact h'
    have hm'q : (m' : ℚ) ≤ (2 : ℚ) ^ (53 : Int) := by
      have h' : (m' : ℚ) ≤ ((2 ^ 53 : Nat) : ℚ) := by exact_mod_cast hm'.le
      have e53 : ((2 ^ 53 : Nat) : ℚ) = (2 : ℚ) ^ (53 : Int) := by norm_num
      rw [e53] at h'; exact h'
    have hpow : (2 : ℚ) ^ e' ≤ (2 : ℚ) ^ e / 2 := by
      have : (2 : ℚ) ^ e' ≤ (2 : ℚ) ^ (e - 1) := zpow_le_zpow_right₀ (by norm_num) hlt1
      rw [zpow_sub_one₀ h2ne] at this
      simpa [div_eq_mul_inv] using this
    have hP' : (0 : ℚ) < (2 : ℚ) ^ e' := zpow_pos (by norm_num) e'
    have hup : (m' : ℚ) * (2 : ℚ) ^ e' ≤ (2 : ℚ) ^ (53 : Int) * ((2 : ℚ) ^ e / 2) :=
      mul_le_mul hm'q hpow hP'.le (by positivity)
    have hdn : (2 : ℚ) ^ (52 : Int) * (2 : ℚ) ^ e ≤ (m : ℚ) * (2 : ℚ) ^ e :=
      mul_le_mul_of_nonneg_right hmq hP.le
    have e53 : (2 : ℚ) ^ (53 : Int) = 2 * (2 : ℚ) ^ (52 : Int) := by norm_num
    rw [e53] at hup
    nlinarith

/-- The nearest `float64`, ties to even, is unique. -/
theorem isNearestFloat64_unique (v F G : ℚ) (hN : IsNearestFloat64 v F)
    (hN' : IsNearestFloat64 v G) : F = G := by
  have key : ∀ (w A B : ℚ), IsNearestFloat64 w A → IsNearestFloat64 w B → A < B → False := by
    intro w A B hA hB hlt
    rcases le_or_lt 0 A with h0 | h0
    · exact unique_nonneg w A B hA hB h0 hlt
    · rcases le_or_lt B 0 with h1 | h1
      · exact unique_nonneg (-w) (-B) (-A) (isNearestFloat64_neg _ _ hB)
          (isNearestFloat64_neg _ _ hA) (by linarith) (by linarith)
      · exact (no_float64_between w A B hA hB hlt).2 0 isFloat64_zero ⟨h0, h1⟩
  rcases lt_trichotomy F G with h | h | h
  · exact absurd (key v F G hN hN' h) id
  · exact h
  · exact absurd (key v G F hN' hN h) id

/-- The rounding `roundFloat64` against the definition of the nearest
`float64`: below the overflow bound the result is finite and is the `float64`
nearest to the number rounded, ties to even; from the bound on it is the
infinity of the sign. -/
theorem roundFloat64_nearest (neg : Bool) (num den : Nat) (hden : 0 < den) :
    (|(if neg then -1 else 1) * ((num : ℚ) / den)| < float64OverflowBound
      ∧ ∃ (q : Nat) (e : Int), roundFloat64 neg num den = (Float64.finite neg q e, false)
          ∧ IsNearestFloat64 ((if neg then -1 else 1) * ((num : ℚ) / den)) (float64Value neg q e))
    ∨ (float64OverflowBound ≤ |(if neg then -1 else 1) * ((num : ℚ) / den)|
      ∧ roundFloat64 neg num den = (Float64.inf neg, true)) := by
  have hdq : (0 : ℚ) < den := by exact_mod_cast hden
  have hsign : ∀ x : ℚ, |(if neg then -1 else 1) * x| = |x| := by
    intro x
    cases neg <;> simp
  have hbound : (0 : ℚ) < float64OverflowBound := by
    unfold float64OverflowBound
    have : (2 : ℚ) ^ (970 : Int) < (2 : ℚ) ^ (1024 : Int) :=
      zpow_lt_zpow_right₀ (by norm_num) (by norm_num)
    linarith
  rcases Nat.eq_zero_or_pos num with h0 | hnum
  · left
    subst h0
    refine ⟨by simpa using hbound, 0, 0, by simp [roundFloat64], ?_⟩
    have : float64Value neg 0 0 = 0 := by simp [float64Value]
    rw [this]
    simpa using isNearestFloat64_zero
  · have hvpos : (0 : ℚ) < (num : ℚ) / den := div_pos (by exact_mod_cast hnum) hdq
    rcases roundFloat64_spec neg num den hnum hden with
      ⟨q, e, hr, he1, he2, hq, hq971, hq52, hnear, htie, hlo⟩ | ⟨hr, hge⟩
    · left
      refine ⟨?_, q, e, hr, ?_⟩
      · rw [hsign, abs_of_pos hvpos]
        exact finite_below_bound _ q e he2 hq hq971 hnear htie
      · have hN := nearest_of_spec _ q e he1 he2 hq hq971 hq52 hnear htie hlo
        unfold float64Value
        cases neg with
        | false => simpa using hN
        | true =>
          have := isNearestFloat64_neg _ _ hN
          simpa using this
    · right
      refine ⟨?_, hr⟩
      rw [hsign, abs_of_pos hvpos]
      exact hge

/-! ## Lemmas on `Auth` -/

theorem Auth_eq {β : Type} (cfg : Config) (now : Time) (w : ResponseWriter) (r : Request β) :
    Auth cfg now w r =
      match tokenOf r.cookies with
      | none => (w.Error "Unauthorized" StatusUnauthorized, {}, some "Unauthorized")
      | some tokenStr =>
        match ParseWithClaims cfg.hmac tokenStr cfg.jwtSecret now with
        | (_, some _) => (w.Error "Bad request" StatusBadRequest, {}, some "Bad request")
        | (token, none) => (w, { UserName := token.Claims.UserName }, none) := by
  unfold Auth Request.Cookie tokenOf
  cases hfind : r.cookies.find? (fun c => c.Name == "token") with
  | none => simp
  | some c =>
    simp only [Option.map_some']
    cases htok : c.Value with
    | malformed raw => simp [ParseWithClaims]
    | compact alg claims signature =>
      simp only [ParseWithClaims]
      split_ifs <;> simp

theorem Auth_absent {β : Type} (cfg : Config) (now : Time) (w : ResponseWriter) (r : Request β)
    (h : tokenOf r.cookies = none) :
    Auth cfg now w r = (w.Error "Unauthorized" StatusUnauthorized, {}, some "Unauthorized") := by
  rw [Auth_eq, h]

theorem Auth_malformed {β : Type} (cfg : Config) (now : Time) (w : ResponseWriter) (r : Request β)
    (raw : String) (h : tokenOf r.cookies = some (TokenString.malformed raw)) :
    Auth cfg now w r = (w.Error "Bad request" StatusBadRequest, {}, some "Bad request") := by
  rw [Auth_eq, h]; simp [ParseWithClaims]

theorem Error_Status (msg : String) (code : Nat) :
    (({} : ResponseWriter).Error msg code).Status = code := by
  simp [ResponseWriter.Error, ResponseWriter.HeaderSet, ResponseWriter.WriteHeader,
    ResponseWriter.Write, ResponseWriter.Status]

theorem Auth_parse_error {β : Type} (cfg : Config) (now : Time) (w : ResponseWriter)
    (r : Request β) (tokenStr : TokenString) (token : Token) (err : GoError)
    (h : tokenOf r.cookies = some tokenStr)
    (hp : ParseWithClaims cfg.hmac tokenStr cfg.jwtSecret now = (token, some err)) :
    Auth cfg now w r = (w.Error "Bad request" StatusBadRequest, {}, some "Bad request") := by
  rw [Auth_eq, h]; simp [hp]

theorem Auth_minted_valid {β : Type} (cfg : Config) (now : Time) (w : ResponseWriter)
    (r : Request β) (u : String) (e : Int)
    (h : tokenOf r.cookies = some (mintToken cfg.hmac cfg.jwtSecret u e))
    (hnow : now.Unix ≤ e) :
    Auth cfg now w r = (w, { UserName := u }, none) := by
  rw [Auth_eq, h]
  simp [mintToken, ParseWithClaims, Claims.Valid, verifyExp, verifyIat, verifyNbf,
    SigningMethod.Verify, hnow]

theorem Auth_minted_expired {β : Type} (cfg : Config) (now : Time) (w : ResponseWriter)
    (r : Request β) (u : String) (e : Int)
    (h : tokenOf r.cookies = some (mintToken cfg.hmac cfg.jwtSecret u e))
    (he : e ≠ 0) (hnow : e < now.Unix) :
    Auth cfg now w r = (w.Error "Bad request" StatusBadRequest, {}, some "Bad request") := by
  rw [Auth_eq, h]
  have hn : ¬ now.Unix ≤ e := not_le.mpr hnow
  simp [mintToken, ParseWithClaims, Claims.Valid, verifyExp, verifyIat, verifyNbf,
    SigningMethod.Verify, he, hn, ValidationErrorExpired]

theorem Auth_bad_signature {β : Type} (cfg : Config) (now : Time) (w : ResponseWriter)
    (r : Request β) (alg : SigningMethod) (c : Claims) (sig : String)
    (h : tokenOf r.cookies = some (TokenString.compact alg c sig))
    (hsig : alg.Verify cfg.hmac c sig cfg.jwtSecret = false) :
    Auth cfg now w r = (w.Error "Bad request" StatusBadRequest, {}, some "Bad request") := by
  rw [Auth_eq, h]
  simp [ParseWithClaims, hsig, ValidationErrorSignatureInvalid]

/-! ## C1: protected handlers without a well-formed token -/

/-- C1, as stated, fails: `Welcome` answers a request whose `token` cookie
holds a malformed token string with 400, not with 401. -/
theorem C1_malformed_cookie_gets_400 :
    (Welcome exampleConfig ⟨0⟩
        ({ cookies := [{ Name := "token", Value := TokenString.malformed "garbage" }] } :
          Request Unit)).Status = StatusBadRequest
    ∧ (Welcome exampleConfig ⟨0⟩
        ({ cookies := [{ Name := "token", Value := TokenString.malformed "garbage" }] } :
          Request Unit)).Status ≠ StatusUnauthorized := by
  decide

/-- C1 amended: when the `token` cookie is absent, each of Welcome, Refresh,
GetProducts, GetCart, AddToCart, DeleteFromCart and CreatePaymentBill responds
401; when it holds a malformed token string, each responds 400.  In both cases
the store is left as it was and no Charge call is made. -/
theorem C1_handlers_reject_absent_or_malformed
    (cfg : Config) (db : Store) (now now2 : Time) (cookies : List Cookie)
    (vars : List (String × String)) (b : Option Unit) (bc : Option CartRequestBody)
    (bp : Option PaymentBill) (tok : Option String)
    (h : tokenOf cookies = tok.map TokenString.malformed) :
    (Welcome cfg now ⟨cookies, vars, b⟩).Status = rejectStatus tok
    ∧ (Refresh cfg now now2 ⟨cookies, vars, b⟩).Status = rejectStatus tok
    ∧ (GetProducts cfg db now ⟨cookies, vars, b⟩).Status = rejectStatus tok
    ∧ (GetCart cfg db now ⟨cookies, vars, b⟩).Status = rejectStatus tok
    ∧ (AddToCart cfg db now ⟨cookies, vars, bc⟩).1.Status = rejectStatus tok
    ∧ (AddToCart cfg db now ⟨cookies, vars, bc⟩).2 = db
    ∧ (DeleteFromCart cfg db now ⟨cookies, vars, b⟩).1.Status = rejectStatus tok
    ∧ (DeleteFromCart cfg db now ⟨cookies, vars, b⟩).2 = db
    ∧ (CreatePaymentBill cfg now ⟨cookies, vars, bp⟩).1.Status = rejectStatus tok
    ∧ (CreatePaymentBill cfg now ⟨cookies, vars, bp⟩).2 = [] := by
  cases tok with
  | none =>
    have ha : ∀ (β : Type) (r : Request β), r.cookies = cookies →
        Auth cfg now {} r = (({} : ResponseWriter).Error "Unauthorized" StatusUnauthorized, {},
          some "Unauthorized") := fun β r hr => Auth_absent cfg now {} r (by rw [hr]; exact h)
    simp [Welcome, Refresh, GetProducts, GetCart, AddToCart, DeleteFromCart, CreatePaymentBill,
      ha, Error_Status, rejectStatus]
  | some raw =>
    have ha : ∀ (β : Type) (r : Request β), r.cookies = cookies →
        Auth cfg now {} r = (({} : ResponseWriter).Error "Bad request" StatusBadRequest, {},
          some "Bad request") := fun β r hr => Auth_malformed cfg now {} r raw (by rw [hr]; exact h)
    simp [Welcome, Refresh, GetProducts, GetCart, AddToCart, DeleteFromCart, CreatePaymentBill,
      ha, Error_Status, rejectStatus]

/-- C1 amended, at concrete requests: no cookie gives 401 everywhere, a
malformed cookie 400 everywhere. -/
theorem C1_handlers_reject_absent_or_malformed_witness :
    (tokenOf [] = (none : Option String).map TokenString.malformed
      ∧ (Welcome exampleConfig ⟨0⟩ (⟨[], [], none⟩ : Request Unit)).Status = StatusUnauthorized)
    ∧ (tokenOf [{ Name := "token", Value := TokenString.malformed "garbage" }]
          = (some "garbage").map TokenString.malformed
      ∧ (GetCart exampleConfig exampleStore ⟨0⟩
          (⟨[{ Name := "token", Value := TokenString.malformed "garbage" }], [], none⟩ :
            Request Unit)).Status = StatusBadRequest) :=
  ⟨⟨by decide,
    (C1_handlers_reject_absent_or_malformed exampleConfig exampleStore ⟨0⟩ ⟨0⟩ [] [] none none
      none none (by decide)).1⟩,
   ⟨by decide,
    (C1_handlers_reject_absent_or_malformed exampleConfig exampleStore ⟨0⟩ ⟨0⟩
      [{ Name := "token", Value := TokenString.malformed "garbage" }] [] none none none
      (some "garbage") (by decide)).2.2.2.1⟩⟩

/-! ## C2: a minted token over time -/

/-- C2, at the failing input: alice's token with expiry 1600, checked at second
1599, is accepted with user name alice; checked at second 1601 it is rejected
with 400 "Bad request", not with 401. -/
theorem C2_expired_token_gets_400 :
    Auth exampleConfig ⟨1599 * 1000000000⟩ {} ({ cookies := aliceCookies (1000 + 600) } : Request Unit)
      = ({}, { UserName := "alice" }, none)
    ∧ Auth exampleConfig ⟨1601 * 1000000000⟩ {} ({ cookies := aliceCookies (1000 + 600) } : Request Unit)
      = (({} : ResponseWriter).Error "Bad request" StatusBadRequest, {}, some "Bad request")
    ∧ (Auth exampleConfig ⟨1601 * 1000000000⟩ {}
        ({ cookies := aliceCookies (1000 + 600) } : Request Unit)).1.Status ≠ StatusUnauthorized := by
  decide

/-! ## C3: the status of each `Auth` failure -/

/-- C3, as stated, fails: `Auth` answers a request without a `token` cookie
with 401 "Unauthorized", not with 400. -/
theorem C3_missing_cookie_gets_401 :
    Auth exampleConfig ⟨0⟩ {} ({ cookies := [] } : Request Unit)
      = (({} : ResponseWriter).Error "Unauthorized" StatusUnauthorized, {}, some "Unauthorized")
    ∧ (Auth exampleConfig ⟨0⟩ {} ({ cookies := [] } : Request Unit)).1.Status
      ≠ StatusBadRequest := by
  decide

/-- C3 amended: `Auth` maps a request with no `token` cookie to Unauthorized
(401) and a malformed token string to BadRequest (400); in both cases it
returns an error and an empty claim. -/
theorem C3_Auth_absent_401_malformed_400 {β : Type}
    (cfg : Config) (now : Time) (r : Request β) (tok : Option String)
    (h : tokenOf r.cookies = tok.map TokenString.malformed) :
    (Auth cfg now {} r).1.Status = rejectStatus tok
    ∧ (Auth cfg now {} r).2.1 = {}
    ∧ (Auth cfg now {} r).2.2 =
        some (match tok with
          | none => "Unauthorized"
          | some _ => "Bad request") := by
  cases tok with
  | none => rw [Auth_absent cfg now {} r h]; simp [Error_Status, rejectStatus]
  | some raw => rw [Auth_malformed cfg now {} r raw h]; simp [Error_Status, rejectStatus]

/-- C3 amended, at a request whose cookie holds the malformed string `garbage`. -/
theorem C3_Auth_absent_401_malformed_400_witness :
    tokenOf [{ Name := "token", Value := TokenString.malformed "garbage" }]
        = (some "garbage").map TokenString.malformed
    ∧ (Auth exampleConfig ⟨0⟩ {}
        (⟨[{ Name := "token", Value := TokenString.malformed "garbage" }], [], none⟩ :
          Request Unit)).1.Status = StatusBadRequest :=
  ⟨by decide,
   (C3_Auth_absent_401_malformed_400 exampleConfig ⟨0⟩
      (⟨[{ Name := "token", Value := TokenString.malformed "garbage" }], [], none⟩ : Request Unit)
      (some "garbage") (by decide)).1⟩

/-! ## C5: the charge request of `CreatePaymentBill` -/

theorem CreatePaymentBill_calls (cfg : Config) (now : Time) (r : Request PaymentBill)
    (u : String) (bill : PaymentBill)
    (hauth : Authenticated cfg now r u) (hbody : r.body = some bill) :
    (CreatePaymentBill cfg now r).2
      = [{ PaymentType := PaymentTypeQris,
           TransactionDetails :=
             { OrderID := r.Var "cart_id",
               GrossAmt := (ParseFloat bill.CartTotalPrice).1.toInt64 cfg.int64Overflow },
           CustomerDetails := { FName := u },
           Items := [{ ID := r.Var "cart_id",
                       Price := (ParseFloat bill.CartTotalPrice).1.toInt64 cfg.int64Overflow,
                       Qty := 1, Name := bill.ProductName }] }] := by
  unfold Authenticated at hauth
  cases hg : cfg.ChargeTransaction
      { PaymentType := PaymentTypeQris,
        TransactionDetails :=
          { OrderID := r.Var "cart_id",
            GrossAmt := (ParseFloat bill.CartTotalPrice).1.toInt64 cfg.int64Overflow },
        CustomerDetails := { FName := u },
        Items := [{ ID := r.Var "cart_id",
                    Price := (ParseFloat bill.CartTotalPrice).1.toInt64 cfg.int64Overflow,
                    Qty := 1, Name := bill.ProductName }] } <;>
    simp [CreatePaymentBill, hauth, hbody, hg]

theorem ParseFloat_text (n : DecimalNumeral) (hwf : n.wellFormed = true) :
    (ParseFloat n.text).1
      = (roundFloat64 (isMinus n.sign) (digitsValue n.digits * 10 ^ (parsedPower n).toNat)
            (10 ^ (-parsedPower n).toNat)).1 := by
  unfold ParseFloat DecimalNumeral.text
  show (parseFloat64 n.chars).1 = _
  rw [parseFloat64_decimal n hwf]

/-- The number `readFloat` hands to the rounding is the value of the numeral,
when the exponent part writes less than 100000. -/
theorem value_eq_parsed (n : DecimalNumeral) (hexp : exponentMagnitude n.exponent < 100000) :
    n.value = (if isMinus n.sign then -1 else 1)
      * (((digitsValue n.digits * 10 ^ (parsedPower n).toNat : Nat) : ℚ)
          / ((10 ^ (-parsedPower n).toNat : Nat) : ℚ)) := by
  unfold DecimalNumeral.value
  congr 1
  unfold parsedPower
  rw [parsedExponent_eq n.exponent hexp]
  by_cases h0 : digitsValue n.digits = 0
  · simp [h0]
  · rw [if_pos h0]
    have := zpow_split 10 (by norm_num) (exponentValue n.exponent - (n.scale : Int))
    simp only [Nat.cast_ofNat] at this
    rw [this]
    push_cast
    ring

theorem truncateTowardZero_intCast (k : Int) : truncateTowardZero (k : ℚ) = k := by
  unfold truncateTowardZero
  split_ifs
  · exact Int.floor_intCast k
  · exact Int.ceil_intCast k

theorem isFloat64_intCast (k : Int) (hk : |k| < 2 ^ 53) : IsFloat64 (k : ℚ) := by
  refine ⟨k.natAbs, 0, ?_, by norm_num, by norm_num, ?_⟩
  · have : (k.natAbs : Int) < 2 ^ 53 := by rw [Int.natCast_natAbs]; exact hk
    exact_mod_cast this
  · rw [zpow_zero, mul_one, Nat.cast_natAbs, Int.cast_abs]

/-- The nearest `float64` of a number that is a `float64` is the number. -/
theorem nearest_of_isFloat64 (v F : ℚ) (hv : IsFloat64 v) (hN : IsNearestFloat64 v F) :
    F = v := by
  have h := hN.2.1 v hv
  rw [sub_self, abs_zero] at h
  have h0 : |v - F| = 0 := le_antisymm h (abs_nonneg _)
  have := abs_eq_zero.mp h0
  linarith

theorem bound_above_two_pow_53 : (2 : ℚ) ^ (53 : Int) ≤ float64OverflowBound := by
  have h2ne : (2 : ℚ) ≠ 0 := by norm_num
  have hA : (1 : ℚ) ≤ (2 : ℚ) ^ (970 : Int) := one_le_zpow₀ (by norm_num) (by norm_num)
  have hT : float64OverflowBound = ((2 : ℚ) ^ (54 : Int) - 1) * (2 : ℚ) ^ (970 : Int) := by
    unfold float64OverflowBound
    have : (2 : ℚ) ^ (1024 : Int) = (2 : ℚ) ^ (54 : Int) * (2 : ℚ) ^ (970 : Int) := by
      rw [← zpow_add₀ h2ne]; norm_num
    rw [this]; ring
  rw [hT]
  have e54 : (2 : ℚ) ^ (54 : Int) = 2 * (2 : ℚ) ^ (53 : Int) := by norm_num
  have h53 : (1 : ℚ) ≤ (2 : ℚ) ^ (53 : Int) := one_le_zpow₀ (by norm_num) (by norm_num)
  rw [e54]
  nlinarith

/-- C5 amended: for an authenticated `CreatePaymentBill` request with path
cart_id `C`, session user `u` and a well-formed body whose `cart_total_price`
is a decimal numeral (optional sign, digits with an optional point, optional
exponent part writing less than 100000) with value `v`, the handler makes
exactly one Charge call; its request has payment type QRIS, order_id `C`,
customer first name `u` and exactly one line item with id `C`, qty 1 and the
body's product name; the gross amount and the item price are the same integer
`g`.  When `|v|` is below the overflow bound `2^1024 - 2^970`, `g` is the
`float64` nearest to `v` (ties to even) truncated toward zero if that integer
fits `int64`, and else the implementation-dependent result of converting that
`float64`; from the bound on, `g` is the implementation-dependent result of
converting the infinity of the sign of `v`.  In particular `g` is `v` itself
whenever `v` is an integer of absolute value below 2^53. -/
theorem C5_CreatePaymentBill_charge_request (cfg : Config) (now : Time)
    (r : Request PaymentBill) (u : String) (bill : PaymentBill) (n : DecimalNumeral)
    (hauth : Authenticated cfg now r u) (hbody : r.body = some bill)
    (hwf : n.wellFormed = true) (hexp : exponentMagnitude n.exponent < 100000)
    (hprice : bill.CartTotalPrice = n.text) :
    ∃ g : Int,
      (CreatePaymentBill cfg now r).2
          = [{ PaymentType := PaymentTypeQris,
               TransactionDetails := { OrderID := r.Var "cart_id", GrossAmt := g },
               CustomerDetails := { FName := u },
               Items := [{ ID := r.Var "cart_id", Price := g, Qty := 1,
                           Name := bill.ProductName }] }]
      ∧ ((|n.value| < float64OverflowBound
            ∧ ∃ (F : ℚ) (m : Nat) (e : Int), IsNearestFloat64 n.value F
                ∧ F = float64Value (isMinus n.sign) m e
                ∧ g = if -(2 ^ 63) ≤ truncateTowardZero F ∧ truncateTowardZero F < 2 ^ 63
                      then truncateTowardZero F
                      else cfg.int64Overflow (Float64.finite (isMinus n.sign) m e))
          ∨ (float64OverflowBound ≤ |n.value|
            ∧ g = cfg.int64Overflow (Float64.inf (isMinus n.sign))))
      ∧ (∀ k : Int, n.value = (k : ℚ) → |k| < 2 ^ 53 → g = k) := by
  have hmid : (|n.value| < float64OverflowBound
        ∧ ∃ (F : ℚ) (m : Nat) (e : Int), IsNearestFloat64 n.value F
            ∧ F = float64Value (isMinus n.sign) m e
            ∧ (ParseFloat bill.CartTotalPrice).1.toInt64 cfg.int64Overflow
                = if -(2 ^ 63) ≤ truncateTowardZero F ∧ truncateTowardZero F < 2 ^ 63
                  then truncateTowardZero F
                  else cfg.int64Overflow (Float64.finite (isMinus n.sign) m e))
      ∨ (float64OverflowBound ≤ |n.value|
        ∧ (ParseFloat bill.CartTotalPrice).1.toInt64 cfg.int64Overflow
            = cfg.int64Overflow (Float64.inf (isMinus n.sign))) := by
    rw [hprice, ParseFloat_text n hwf, value_eq_parsed n hexp]
    rcases roundFloat64_nearest (isMinus n.sign)
        (digitsValue n.digits * 10 ^ (parsedPower n).toNat) (10 ^ (-parsedPower n).toNat)
        (Nat.pos_pow_of_pos _ (by decide)) with ⟨hlt, q, e, hr, hN⟩ | ⟨hge, hr⟩
    · left
      refine ⟨hlt, float64Value (isMinus n.sign) q e, q, e, hN, rfl, ?_⟩
      rw [hr]
      exact toInt64_finite cfg.int64Overflow (isMinus n.sign) q e
    · right
      refine ⟨hge, ?_⟩
      rw [hr]
      rfl
  refine ⟨(ParseFloat bill.CartTotalPrice).1.toInt64 cfg.int64Overflow,
    CreatePaymentBill_calls cfg now r u bill hauth hbody, hmid, ?_⟩
  intro k hv hk
  have hkq : |(k : ℚ)| < (2 : ℚ) ^ (53 : Int) := by
    have : ((|k| : Int) : ℚ) < ((2 ^ 53 : Int) : ℚ) := by exact_mod_cast hk
    rw [Int.cast_abs] at this
    norm_num at this ⊢
    exact this
  rcases hmid with ⟨_, F, m, e, hN, _, hg⟩ | ⟨hge, _⟩
  · rw [hv] at hN
    have hF := nearest_of_isFloat64 _ F (isFloat64_intCast k hk) hN
    rw [hg, hF, truncateTowardZero_intCast]
    have hr := abs_lt.mp hk
    rw [if_pos ⟨by omega, by omega⟩]
  · rw [hv] at hge
    have := bound_above_two_pow_53
    linarith

theorem toInt64_roundFloat64_small (overflow : Float64 → Int) (num den : Nat) (hden : 0 < den)
    (h : 2 * num < den) :
    (roundFloat64 false num den).1.toInt64 overflow = 0 := by
  have hdq : (0 : ℚ) < den := by exact_mod_cast hden
  have hv0 : (0 : ℚ) ≤ (num : ℚ) / den := div_nonneg (Nat.cast_nonneg _) hdq.le
  have hv : (num : ℚ) / den < 1 / 2 := by
    rw [div_lt_div_iff₀ hdq (by norm_num)]
    have : ((2 * num : Nat) : ℚ) < (den : ℚ) := by exact_mod_cast h
    push_cast at this
    linarith
  rcases roundFloat64_nearest false num den hden with ⟨_, q, e, hr, hN⟩ | ⟨hge, _⟩
  · simp only [Bool.false_eq_true, if_false, one_mul] at hN
    have hF0 : (0 : ℚ) ≤ float64Value false q e := by
      unfold float64Value
      simp only [Bool.false_eq_true, if_false, one_mul]
      exact mul_nonneg (Nat.cast_nonneg _) (zpow_nonneg (by norm_num) _)
    have h0 := hN.2.1 0 ⟨0, 0, by norm_num, by norm_num, by norm_num, by simp⟩
    rw [sub_zero, abs_of_nonneg hv0] at h0
    have hF1 : float64Value false q e < 1 := by
      have := (abs_le.mp h0).1
      linarith
    have htr : truncateTowardZero (float64Value false q e) = 0 := by
      unfold truncateTowardZero
      rw [if_pos hF0, Int.floor_eq_zero_iff]
      exact ⟨hF0, hF1⟩
    rw [hr, toInt64_finite, htr]
    simp
  · simp only [Bool.false_eq_true, if_false, one_mul] at hge
    rw [abs_of_nonneg hv0] at hge
    have := bound_above_two_pow_53
    have h53 : (1 : ℚ) ≤ (2 : ℚ) ^ (53 : Int) := one_le_zpow₀ (by norm_num) (by norm_num)
    linarith

theorem foldl_digits_zeros (k : Nat) (ds : List (Fin 10)) :
    digitsValue (List.replicate k 0 ++ ds) = digitsValue ds := by
  unfold digitsValue
  induction k with
  | zero => rfl
  | succ k ih =>
    rw [List.replicate_succ, List.cons_append, List.foldl_cons]
    exact ih

theorem longNumeral_facts (k : Nat) :
    (longNumeral k).wellFormed = true
    ∧ isMinus (longNumeral k).sign = false
    ∧ digitsValue (longNumeral k).digits = 1
    ∧ (longNumeral k).scale = k + 1
    ∧ exponentValue (longNumeral k).exponent = 100000
    ∧ parsedExponent (longNumeral k).exponent = 10000 := by
  refine ⟨rfl, rfl, ?_, ?_, ?_, ?_⟩
  · show digitsValue ([0] ++ (List.replicate k 0 ++ [1])) = 1
    have h0 : ([0] : List (Fin 10)) = List.replicate 1 0 := rfl
    rw [h0, foldl_digits_zeros, foldl_digits_zeros]
    rfl
  · show (List.replicate k 0 ++ [1] : List (Fin 10)).length = k + 1
    rw [List.length_append, List.length_replicate]
    rfl
  · show exponentValue (some { digits := [1, 0, 0, 0, 0, 0] }) = 100000
    decide
  · show parsedExponent (some { digits := [1, 0, 0, 0, 0, 0] }) = 10000
    decide

theorem longNumeral_value (k : Nat) :
    (longNumeral k).value = (10 : ℚ) ^ ((100000 : Int) - ((k + 1 : Nat) : Int)) := by
  obtain ⟨_, h1, h2, h3, h4, _⟩ := longNumeral_facts k
  unfold DecimalNumeral.value
  rw [h1, h2, h3, h4]
  simp

theorem longNumeral_charged (overflow : Float64 → Int) (k : Nat) (hk : 10000 ≤ k) :
    (ParseFloat (longNumeral k).text).1.toInt64 overflow = 0 := by
  obtain ⟨hwf, h1, h2, h3, _, h5⟩ := longNumeral_facts k
  rw [ParseFloat_text _ hwf, h1]
  have hp : parsedPower (longNumeral k) = (10000 : Int) - ((k + 1 : Nat) : Int) := by
    unfold parsedPower
    rw [h2, h3, h5, if_pos (by decide)]
  rw [hp, h2]
  have e1 : ((10000 : Int) - ((k + 1 : Nat) : Int)).toNat = 0 := by omega
  have e2 : (-((10000 : Int) - ((k + 1 : Nat) : Int))).toNat = k + 1 - 10000 := by omega
  rw [e1, e2]
  apply toInt64_roundFloat64_small
  · exact Nat.pos_pow_of_pos _ (by decide)
  · have : 10 ^ 1 ≤ 10 ^ (k + 1 - 10000) := Nat.pow_le_pow_right (by decide) (by omega)
    omega

/-- C5, as stated, fails.  The numeral `9007199254740993` has the integer value
9007199254740993, but the Charge request carries gross amount and item price
9007199254740992, the nearest `float64`.  The numeral `9223372036854775807`
has a value that fits `int64`, but its nearest `float64` is 2^63, which does
not: the amount charged is the result of the out-of-range conversion,
-9223372036854775808 with the conversion of amd64.  And the numeral `0.`,
99999 zeros, `1e100000` has the value 1, but the parser reads at most the
exponent 10000 and the amount charged is 0. -/
theorem C5_float64_rounds_the_price :
    ((({ intDigits := [9, 0, 0, 7, 1, 9, 9, 2, 5, 4, 7, 4, 0, 9, 9, 3] } : DecimalNumeral).text
        = "9007199254740993")
      ∧ (({ intDigits := [9, 0, 0, 7, 1, 9, 9, 2, 5, 4, 7, 4, 0, 9, 9, 3] } : DecimalNumeral).value
        = 9007199254740993)
      ∧ (CreatePaymentBill exampleConfig ⟨0⟩
          { cookies := aliceCookies 1600, vars := [("cart_id", "7")],
            body := some ⟨"9007199254740993", "", "Tea"⟩ }).2
          = [⟨"qris", ⟨"7", 9007199254740992⟩, ⟨"alice"⟩,
              [⟨"7", 9007199254740992, 1, "Tea"⟩]⟩])
    ∧ ((({ intDigits := [9, 2, 2, 3, 3, 7, 2, 0, 3, 6, 8, 5, 4, 7, 7, 5, 8, 0, 7] }
          : DecimalNumeral).text = "9223372036854775807")
      ∧ (({ intDigits := [9, 2, 2, 3, 3, 7, 2, 0, 3, 6, 8, 5, 4, 7, 7, 5, 8, 0, 7] }
          : DecimalNumeral).value = 9223372036854775807)
      ∧ (CreatePaymentBill exampleConfig ⟨0⟩
          { cookies := aliceCookies 1600, vars := [("cart_id", "7")],
            body := some ⟨"9223372036854775807", "", "Tea"⟩ }).2
          = [⟨"qris", ⟨"7", -9223372036854775808⟩, ⟨"alice"⟩,
              [⟨"7", -9223372036854775808, 1, "Tea"⟩]⟩])
    ∧ ((longNumeral 99999).wellFormed = true
      ∧ (longNumeral 99999).value = 1
      ∧ (CreatePaymentBill exampleConfig ⟨0⟩
          { cookies := aliceCookies 1600, vars := [("cart_id", "7")],
            body := some ⟨(longNumeral 99999).text, "", "Tea"⟩ }).2
          = [⟨"qris", ⟨"7", 0⟩, ⟨"alice"⟩, [⟨"7", 0, 1, "Tea"⟩]⟩]) := by
  refine ⟨⟨by decide, ?_, by decide⟩, ⟨by decide, ?_, by decide⟩, ⟨rfl, ?_, ?_⟩⟩
  · have h : digitsValue [9, 0, 0, 7, 1, 9, 9, 2, 5, 4, 7, 4, 0, 9, 9, 3] = 9007199254740993 := by
      decide
    simp [DecimalNumeral.value, DecimalNumeral.digits, DecimalNumeral.scale, exponentValue,
      isMinus, h]
  · have h : digitsValue [9, 2, 2, 3, 3, 7, 2, 0, 3, 6, 8, 5, 4, 7, 7, 5, 8, 0, 7]
        = 9223372036854775807 := by
      decide
    simp [DecimalNumeral.value, DecimalNumeral.digits, DecimalNumeral.scale, exponentValue,
      isMinus, h]
  · rw [longNumeral_value]
    norm_num
  · have hauth : Authenticated exampleConfig ⟨0⟩
        ({ cookies := aliceCookies 1600, vars := [("cart_id", "7")],
           body := some ⟨(longNumeral 99999).text, "", "Tea"⟩ } : Request PaymentBill)
        "alice" := by
      unfold Authenticated; decide
    rw [CreatePaymentBill_calls exampleConfig ⟨0⟩ _ "alice" ⟨(longNumeral 99999).text, "", "Tea"⟩
      hauth rfl]
    rw [longNumeral_charged exampleConfig.int64Overflow 99999 (by decide)]
    rfl

/-- C5 amended, at the request of the spec: price `1000.00`, cart_id `7`, user
alice, product Tea give one Charge call with order_id `7`, gross amount 1000
and the item `{7, 1000, 1, Tea}`; the price `+1.5e3` gives the amount 1500 and
the price `-2.5` the amount -2. -/
theorem C5_CreatePaymentBill_charge_request_witness :
    (Authenticated exampleConfig ⟨0⟩
        ({ cookies := aliceCookies 1600, vars := [("cart_id", "7")],
           body := some ⟨"1000.00", "", "Tea"⟩ } : Request PaymentBill) "alice"
      ∧ ("1000.00"
          = ({ intDigits := [1, 0, 0, 0], fracDigits := some [0, 0] } : DecimalNumeral).text)
      ∧ (CreatePaymentBill exampleConfig ⟨0⟩
          { cookies := aliceCookies 1600, vars := [("cart_id", "7")],
            body := some ⟨"1000.00", "", "Tea"⟩ }).2
          = [⟨"qris", ⟨"7", 1000⟩, ⟨"alice"⟩, [⟨"7", 1000, 1, "Tea"⟩]⟩])
    ∧ (("+1.5e3"
          = ({ sign := some false, intDigits := [1], fracDigits := some [5],
               exponent := some { digits := [3] } } : DecimalNumeral).text)
      ∧ (CreatePaymentBill exampleConfig ⟨0⟩
          { cookies := aliceCookies 1600, vars := [("cart_id", "7")],
            body := some ⟨"+1.5e3", "", "Tea"⟩ }).2
          = [⟨"qris", ⟨"7", 1500⟩, ⟨"alice"⟩, [⟨"7", 1500, 1, "Tea"⟩]⟩])
    ∧ (("-2.5"
          = ({ sign := some true, intDigits := [2], fracDigits := some [5] }
              : DecimalNumeral).text)
      ∧ (CreatePaymentBill exampleConfig ⟨0⟩
          { cookies := aliceCookies 1600, vars := [("cart_id", "7")],
            body := some ⟨"-2.5", "", "Tea"⟩ }).2
          = [⟨"qris", ⟨"7", -2⟩, ⟨"alice"⟩, [⟨"7", -2, 1, "Tea"⟩]⟩]) := by
  refine ⟨⟨by unfold Authenticated; decide, by decide, ?_⟩, ⟨by decide, ?_⟩, ⟨by decide, ?_⟩⟩
  · obtain ⟨g, hcalls, _, hint⟩ := C5_CreatePaymentBill_charge_request exampleConfig ⟨0⟩
      { cookies := aliceCookies 1600, vars := [("cart_id", "7")],
        body := some ⟨"1000.00", "", "Tea"⟩ } "alice" ⟨"1000.00", "", "Tea"⟩
      { intDigits := [1, 0, 0, 0], fracDigits := some [0, 0] }
      (by unfold Authenticated; decide) rfl (by decide) (by decide) (by decide)
    have hv : ({ intDigits := [1, 0, 0, 0], fracDigits := some [0, 0] } : DecimalNumeral).value
        = ((1000 : Int) : ℚ) := by
      have h : digitsValue [1, 0, 0, 0, 0, 0] = 100000 := by decide
      simp [DecimalNumeral.value, DecimalNumeral.digits, DecimalNumeral.scale, exponentValue,
        isMinus, h]
      norm_num
    rw [hcalls, hint 1000 hv (by norm_num)]
    rfl
  · obtain ⟨g, hcalls, _, hint⟩ := C5_CreatePaymentBill_charge_request exampleConfig ⟨0⟩
      { cookies := aliceCookies 1600, vars := [("cart_id", "7")],
        body := some ⟨"+1.5e3", "", "Tea"⟩ } "alice" ⟨"+1.5e3", "", "Tea"⟩
      { sign := some false, intDigits := [1], fracDigits := some [5],
        exponent := some { digits := [3] } }
      (by unfold Authenticated; decide) rfl (by decide) (by decide) (by decide)
    have hv : ({ sign := some false, intDigits := [1], fracDigits := some [5],
                 exponent := some { digits := [3] } } : DecimalNumeral).value
        = ((1500 : Int) : ℚ) := by
      have h : digitsValue [1, 5] = 15 := by decide
      have h3 : digitsValue [3] = 3 := by decide
      simp [DecimalNumeral.value, DecimalNumeral.digits, DecimalNumeral.scale, exponentValue,
        isMinus, h, h3]
      norm_num
    rw [hcalls, hint 1500 hv (by norm_num)]
    rfl
  · obtain ⟨g, hcalls, hmid, _⟩ := C5_CreatePaymentBill_charge_request exampleConfig ⟨0⟩
      { cookies := aliceCookies 1600, vars := [("cart_id", "7")],
        body := some ⟨"-2.5", "", "Tea"⟩ } "alice" ⟨"-2.5", "", "Tea"⟩
      { sign := some true, intDigits := [2], fracDigits := some [5] }
      (by unfold Authenticated; decide) rfl (by decide) (by decide) (by decide)
    have hv : ({ sign := some true, intDigits := [2], fracDigits := some [5] }
        : DecimalNumeral).value = -(5 / 2 : ℚ) := by
      have h : digitsValue [2, 5] = 25 := by decide
      simp [DecimalNumeral.value, DecimalNumeral.digits, DecimalNumeral.scale, exponentValue,
        isMinus, h]
      norm_num
    have hfl : IsFloat64 (-(5 / 2 : ℚ)) :=
      ⟨5, -1, by norm_num, by norm_num, by norm_num, by norm_num [abs_of_nonneg]⟩
    have htr : truncateTowardZero (-(5 / 2 : ℚ)) = -2 := by
      unfold truncateTowardZero
      rw [if_neg (by norm_num), Int.ceil_eq_iff]
      norm_num
    have hg : g = -2 := by
      rw [hv] at hmid
      rcases hmid with ⟨_, F, m, e, hN, _, hg⟩ | ⟨hge, _⟩
      · rw [nearest_of_isFloat64 _ F hfl hN, htr] at hg
        rw [hg, if_pos ⟨by norm_num, by norm_num⟩]
      · exfalso
        have := bound_above_two_pow_53
        have h53 : (8 : ℚ) ≤ (2 : ℚ) ^ (53 : Int) := by norm_num
        rw [abs_neg, abs_of_nonneg (by norm_num)] at hge
        linarith
    rw [hcalls, hg]
    rfl

/-! ## C6: the outcomes of `Login` -/

theorem Unix_add_minutes (now : Time) (k : Int) :
    (now.Add (k * Minute)).Unix = now.Unix + k * 60 := by
  unfold Time.Add Time.Unix Minute Second
  have h : now.nanos + k * (60 * 1000000000) = now.nanos + (k * 60) * 1000000000 := by ring
  rw [h]
  exact Int.add_mul_ediv_right _ _ (by decide)

/-- C6: for a well-formed body `{username, password}`, `Login` responds 401
without a cookie when the store has no row for the user or the stored password
differs; 500 without a cookie when the lookup fails with a store error; and
when the stored password equals the given one it sets exactly one cookie,
named `token`, holding the HS256 token for that user with `exp` = now + 10
minutes (600 seconds after the current second), `Expires` being that same
instant, and writes no body. -/
theorem C6_Login_outcomes (cfg : Config) (db : Store) (now : Time) (r : Request Credentials)
    (username password : String) (hbody : r.body = some ⟨username, password⟩) :
    (db.up = true → db.users.find? (fun u => u.user_name == username) = none →
        (Login cfg db now r).Status = StatusUnauthorized ∧ (Login cfg db now r).setCookies = [])
    ∧ (∀ row : User, db.up = true →
        db.users.find? (fun u => u.user_name == username) = some row →
        row.user_password ≠ password →
        (Login cfg db now r).Status = StatusUnauthorized ∧ (Login cfg db now r).setCookies = [])
    ∧ (db.up = false →
        (Login cfg db now r).Status = StatusInternalServerError
        ∧ (Login cfg db now r).setCookies = [])
    ∧ (∀ row : User, db.up = true →
        db.users.find? (fun u => u.user_name == username) = some row →
        row.user_password = password →
        (Login cfg db now r).setCookies =
            [{ Name := "token",
               Value := mintToken cfg.hmac cfg.jwtSecret username (now.Add (10 * Minute)).Unix,
               Expires := some (now.Add (10 * Minute)) }]
        ∧ (now.Add (10 * Minute)).Unix = now.Unix + 600
        ∧ (Login cfg db now r).body = []
        ∧ (Login cfg db now r).Status = StatusOK) := by
  refine ⟨?_, ?_, ?_, ?_⟩
  · intro hup hnone
    simp [Login, hbody, Store.QueryUserPassword, hup, hnone, ResponseWriter.Error,
      ResponseWriter.HeaderSet, ResponseWriter.WriteHeader, ResponseWriter.Write,
      ResponseWriter.Status]
  · intro row hup hrow hne
    have hne' : ¬ password = row.user_password := fun h => hne h.symm
    simp [Login, hbody, Store.QueryUserPassword, hup, hrow, hne', ResponseWriter.Error,
      ResponseWriter.HeaderSet, ResponseWriter.WriteHeader, ResponseWriter.Write,
      ResponseWriter.Status]
  · intro hup
    simp [Login, hbody, Store.QueryUserPassword, hup, ResponseWriter.Error,
      ResponseWriter.HeaderSet, ResponseWriter.WriteHeader, ResponseWriter.Write,
      ResponseWriter.Status]
  · intro row hup hrow heq
    have h600 := Unix_add_minutes now 10
    refine ⟨?_, by simpa using h600, ?_, ?_⟩ <;>
      simp [Login, hbody, Store.QueryUserPassword, hup, hrow, heq, NewWithClaims,
        Token.SignedString, ResponseWriter.SetCookie, ResponseWriter.Status, mintToken,
        StatusOK]

/-- C6 at the login of alice with her password: one `token` cookie expiring
ten minutes after the clock reading. -/
theorem C6_Login_outcomes_witness :
    (({ body := some ⟨"alice", "pw"⟩ } : Request Credentials).body = some ⟨"alice", "pw"⟩)
    ∧ (Login exampleConfig exampleStore ⟨5 * 1000000000⟩ { body := some ⟨"alice", "pw"⟩ }).setCookies
        = [{ Name := "token", Value := mintToken exampleHmac "s3cret" "alice" 605,
             Expires := some ⟨605 * 1000000000⟩ }] :=
  ⟨rfl,
   ((C6_Login_outcomes exampleConfig exampleStore ⟨5 * 1000000000⟩
      { body := some ⟨"alice", "pw"⟩ } "alice" "pw" rfl).2.2.2 ⟨"alice", "pw"⟩
      (by decide) (by decide) (by decide)).1⟩

/-! ## C7: `Refresh` -/

/-- C7: for a request carrying a valid token for `u` (whatever its age and
remaining lifetime), `Refresh` sets exactly one cookie, named `token`, holding
the HS256 token for `u` with `exp` = now + 5 minutes (300 seconds after the
current second), `Expires` being that same instant, and writes no body. -/
theorem C7_Refresh_mints_five_minute_token {β : Type} (cfg : Config) (authNow now : Time)
    (r : Request β) (u : String) (h : Authenticated cfg authNow r u) :
    (Refresh cfg authNow now r).setCookies =
        [{ Name := "token",
           Value := mintToken cfg.hmac cfg.jwtSecret u (now.Add (5 * Minute)).Unix,
           Expires := some (now.Add (5 * Minute)) }]
    ∧ (now.Add (5 * Minute)).Unix = now.Unix + 300
    ∧ (Refresh cfg authNow now r).body = []
    ∧ (Refresh cfg authNow now r).Status = StatusOK := by
  unfold Authenticated at h
  have h300 := Unix_add_minutes now 5
  refine ⟨?_, by simpa using h300, ?_, ?_⟩ <;>
    simp [Refresh, h, NewWithClaims, Token.SignedString, ResponseWriter.SetCookie,
      ResponseWriter.Status, mintToken, StatusOK]

/-- C7 for alice's token expiring at second 1600, refreshed at second 5: the new
token expires at second 305. -/
theorem C7_Refresh_mints_five_minute_token_witness :
    Authenticated exampleConfig ⟨5 * 1000000000⟩
        ({ cookies := aliceCookies 1600 } : Request Unit) "alice"
    ∧ (Refresh exampleConfig ⟨5 * 1000000000⟩ ⟨5 * 1000000000⟩
        ({ cookies := aliceCookies 1600 } : Request Unit)).setCookies
        = [{ Name := "token", Value := mintToken exampleHmac "s3cret" "alice" 305,
             Expires := some ⟨305 * 1000000000⟩ }] :=
  ⟨by unfold Authenticated; decide,
   (C7_Refresh_mints_five_minute_token exampleConfig ⟨5 * 1000000000⟩ ⟨5 * 1000000000⟩
      ({ cookies := aliceCookies 1600 } : Request Unit) "alice"
      (by unfold Authenticated; decide)).1⟩

/-! ## C4: `AddToCart` snapshots the product and returns a fresh key -/

theorem find_product_of_mem (products : List Product) (I : Int) (N : String) (P : Int)
    (hmem : (⟨I, N, P⟩ : Product) ∈ products)
    (huniq : ∀ p ∈ products, p.ProductID = I → p = ⟨I, N, P⟩) :
    products.find? (fun p => p.ProductID == I) = some ⟨I, N, P⟩ := by
  induction products with
  | nil => simp at hmem
  | cons p ps ih =>
    by_cases hp : p.ProductID = I
    · have := huniq p (List.mem_cons_self _ _) hp
      simp [List.find?, this]
    · have hne : (⟨I, N, P⟩ : Product) ≠ p := fun h => hp (by rw [← h])
      have hmem' : (⟨I, N, P⟩ : Product) ∈ ps := by
        rcases List.mem_cons.mp hmem with h | h
        · exact absurd h hne
        · exact h
      have := ih hmem' (fun q hq => huniq q (List.mem_cons_of_mem _ hq))
      have hb : (p.ProductID == I) = false := by simpa using hp
      simp [List.find?, hb, this]

/-- C4: for an authenticated `AddToCart` request whose path `user_id` denotes
`U` and whose body names product `I`, when the store holds product `I` with
name `N` and price `P` and the request succeeds (status 200), the store gains
exactly one row, that row and the returned Cart are the same record with
user_id `U`, product_id `I`, product_name `N`, product_price `P` and
cart_total_price `P`, and their cart_id is the key the store assigned (the next
value of the sequence), different from the cart_id of every row present before
the call. -/
theorem C4_AddToCart_snapshot_and_fresh_key (cfg : Config) (db : Store) (now : Time)
    (r : Request CartRequestBody) (u : String) (U I P : Int) (N : String)
    (hauth : Authenticated cfg now r u)
    (hU : Atoi (r.Var "user_id") = (U, none))
    (hbody : r.body = some ⟨I⟩)
    (hmem : (⟨I, N, P⟩ : Product) ∈ db.products)
    (huniq : ∀ p ∈ db.products, p.ProductID = I → p = ⟨I, N, P⟩)
    (hok : (AddToCart cfg db now r).1.Status = StatusOK) :
    (AddToCart cfg db now r).1.Docs
        = [JsonDoc.string u, JsonDoc.cart ⟨db.cartSeq + 1, U, I, N, P, P⟩]
    ∧ (AddToCart cfg db now r).2.cart = db.cart ++ [⟨db.cartSeq + 1, U, I, N, P, P⟩]
    ∧ ∀ row ∈ db.cart, row.CartID ≠ db.cartSeq + 1 := by
  unfold Authenticated at hauth
  have hfind := find_product_of_mem db.products I N P hmem huniq
  by_cases hup : db.up = true
  · by_cases hdup : db.cart.any (fun row => row.CartID == db.cartSeq + 1) = true
    · exfalso
      revert hok
      simp [AddToCart, hauth, hbody, Store.QueryProduct, hup, hfind, hU, Store.InsertCart,
        hdup, ResponseWriter.Error, ResponseWriter.HeaderSet, ResponseWriter.WriteHeader,
        ResponseWriter.Write, ResponseWriter.Status, StatusOK, StatusInternalServerError]
    · refine ⟨?_, ?_, ?_⟩
      · simp [AddToCart, hauth, hbody, Store.QueryProduct, hup, hfind, hU, Store.InsertCart,
          hdup, ResponseWriter.HeaderSet, ResponseWriter.WriteHeader, ResponseWriter.Encode,
          ResponseWriter.Write, ResponseWriter.Docs]
      · simp [AddToCart, hauth, hbody, Store.QueryProduct, hup, hfind, hU, Store.InsertCart,
          hdup]
      · intro row hrow heq
        apply hdup
        rw [List.any_eq_true]
        exact ⟨row, hrow, by simp [heq]⟩
  · exfalso
    revert hok
    simp [AddToCart, hauth, hbody, Store.QueryProduct, hup, ResponseWriter.Error,
      ResponseWriter.HeaderSet, ResponseWriter.WriteHeader, ResponseWriter.Write,
      ResponseWriter.Status, StatusOK, StatusInternalServerError]

/-- C4 for `POST /cart/add/42` with body `{"product_id":1}` against the product
(1, Tea, 1000): the new row has key 2, the only earlier row has key 1. -/
theorem C4_AddToCart_snapshot_and_fresh_key_witness :
    (AddToCart exampleConfig exampleStore ⟨0⟩
        { cookies := aliceCookies 1600, vars := [("user_id", "42")], body := some ⟨1⟩ }).1.Docs
        = [JsonDoc.string "alice", JsonDoc.cart ⟨2, 42, 1, "Tea", 1000, 1000⟩]
    ∧ (AddToCart exampleConfig exampleStore ⟨0⟩
        { cookies := aliceCookies 1600, vars := [("user_id", "42")], body := some ⟨1⟩ }).2.cart
        = [⟨1, 42, 2, "Coffee", 1500, 1500⟩, ⟨2, 42, 1, "Tea", 1000, 1000⟩] :=
  have h := C4_AddToCart_snapshot_and_fresh_key exampleConfig exampleStore ⟨0⟩
    { cookies := aliceCookies 1600, vars := [("user_id", "42")], body := some ⟨1⟩ }
    "alice" 42 1 1000 "Tea" (by unfold Authenticated; decide) (by decide) rfl (by decide)
    (by decide) (by decide)
  ⟨h.1, h.2.1⟩

/-! ## C8: deleting twice -/

/-- C8: two consecutive authenticated `DeleteFromCart` calls with the same
`cart_id`, the store reachable and accepting the id, both respond 200; after
the first call the store holds the former rows except those with that cart_id,
and the second call leaves the store as the first one left it. -/
theorem C8_DeleteFromCart_twice {β : Type} (cfg : Config) (db : Store) (now1 now2 : Time)
    (r1 r2 : Request β) (u1 u2 C : String) (c : Int)
    (h1 : Authenticated cfg now1 r1 u1) (h2 : Authenticated cfg now2 r2 u2)
    (hC1 : r1.Var "cart_id" = C) (hC2 : r2.Var "cart_id" = C)
    (hup : db.up = true) (hc : cfg.intIn C = some c) :
    (DeleteFromCart cfg db now1 r1).1.Status = StatusOK
    ∧ (DeleteFromCart cfg (DeleteFromCart cfg db now1 r1).2 now2 r2).1.Status = StatusOK
    ∧ (DeleteFromCart cfg db now1 r1).2.cart = db.cart.filter (fun row => row.CartID != c)
    ∧ (∀ row ∈ (DeleteFromCart cfg db now1 r1).2.cart, row.CartID ≠ c)
    ∧ (DeleteFromCart cfg (DeleteFromCart cfg db now1 r1).2 now2 r2).2
        = (DeleteFromCart cfg db now1 r1).2 := by
  unfold Authenticated at h1 h2
  have e1 : DeleteFromCart cfg db now1 r1
      = ((({} : ResponseWriter).WriteHeader StatusOK).Encode (JsonDoc.string u1),
         { db with cart := db.cart.filter (fun row => row.CartID != c) }) := by
    simp [DeleteFromCart, h1, hC1, Store.DeleteCart, hup, hc]
  have e2 : DeleteFromCart cfg { db with cart := db.cart.filter (fun row => row.CartID != c) }
        now2 r2
      = ((({} : ResponseWriter).WriteHeader StatusOK).Encode (JsonDoc.string u2),
         { db with cart := db.cart.filter (fun row => row.CartID != c) }) := by
    simp [DeleteFromCart, h2, hC2, Store.DeleteCart, hup, hc, List.filter_filter]
  rw [e1]
  simp only [e2]
  have hs : ∀ v : String, ((({} : ResponseWriter).WriteHeader StatusOK).Encode
      (JsonDoc.string v)).Status = StatusOK := fun v => by
    simp [ResponseWriter.WriteHeader, ResponseWriter.Encode, ResponseWriter.Write,
      ResponseWriter.Status]
  refine ⟨hs u1, hs u2, trivial, ?_, trivial⟩
  intro row hrow
  simpa using (List.mem_filter.mp hrow).2

/-- C8 for `DELETE /cart/delete/1` sent twice against the store whose only cart
row has key 1. -/
theorem C8_DeleteFromCart_twice_witness :
    (DeleteFromCart exampleConfig exampleStore ⟨0⟩
        ({ cookies := aliceCookies 1600, vars := [("cart_id", "1")] } : Request Unit)).2.cart = []
    ∧ (DeleteFromCart exampleConfig
        (DeleteFromCart exampleConfig exampleStore ⟨0⟩
          ({ cookies := aliceCookies 1600, vars := [("cart_id", "1")] } : Request Unit)).2 ⟨0⟩
        ({ cookies := aliceCookies 1600, vars := [("cart_id", "1")] } : Request Unit)).1.Status
        = StatusOK :=
  have h := C8_DeleteFromCart_twice exampleConfig exampleStore ⟨0⟩ ⟨0⟩
    ({ cookies := aliceCookies 1600, vars := [("cart_id", "1")] } : Request Unit)
    ({ cookies := aliceCookies 1600, vars := [("cart_id", "1")] } : Request Unit)
    "alice" "alice" "1" 1 (by unfold Authenticated; decide) (by unfold Authenticated; decide)
    (by decide) (by decide) (by decide) (by decide)
  ⟨h.2.2.1, h.2.1⟩

/-! ## C9: the documents of a success body -/

/-- C9, as stated, fails: the success body of `DeleteFromCart` is one JSON
document (the user name), and the first document of `GetPaymentStatus` is an
empty cart object, not a user name. -/
theorem C9_DeleteFromCart_writes_one_document :
    (DeleteFromCart exampleConfig exampleStore ⟨0⟩
        ({ cookies := aliceCookies 1600, vars := [("cart_id", "1")] } : Request Unit)).1.Status
        = StatusOK
    ∧ (DeleteFromCart exampleConfig exampleStore ⟨0⟩
        ({ cookies := aliceCookies 1600, vars := [("cart_id", "1")] } : Request Unit)).1.body
        = [Chunk.json (JsonDoc.string "alice")]
    ∧ (GetPaymentStatus exampleConfig
        ({ cookies := aliceCookies 1600, vars := [("cart_id", "1")] } : Request Unit)).body
        = [Chunk.json (JsonDoc.cart {}), Chunk.json (JsonDoc.gateway "settlement")] := by
  decide

/-- C9 amended: for an authenticated user `u`, the success body (status 200) of
GetProducts, GetCart, AddToCart and CreatePaymentBill is exactly two JSON
documents, the user name and then the payload; the success body of
DeleteFromCart is the single document holding the user name; and for every
request `r0` whatever, with or without a cookie, the success body of
GetPaymentStatus is exactly two JSON documents, an empty cart object followed
by the response the gateway gave for the path's cart_id. -/
theorem C9_success_body_documents {β γ : Type} (cfg : Config) (db : Store) (now : Time)
    (r : Request β) (rc : Request CartRequestBody) (rp : Request PaymentBill)
    (r0 : Request γ) (u : String)
    (h : Authenticated cfg now r u) (hc : Authenticated cfg now rc u)
    (hp : Authenticated cfg now rp u) :
    ((GetProducts cfg db now r).Status = StatusOK →
        (GetProducts cfg db now r).body
          = [Chunk.json (JsonDoc.string u), Chunk.json (JsonDoc.products db.products)])
    ∧ ((GetCart cfg db now r).Status = StatusOK →
        ∃ cart ∈ db.cart, (GetCart cfg db now r).body
          = [Chunk.json (JsonDoc.string u), Chunk.json (JsonDoc.cart cart)])
    ∧ ((AddToCart cfg db now rc).1.Status = StatusOK →
        ∃ cart ∈ (AddToCart cfg db now rc).2.cart, (AddToCart cfg db now rc).1.body
          = [Chunk.json (JsonDoc.string u), Chunk.json (JsonDoc.cart cart)])
    ∧ ((CreatePaymentBill cfg now rp).1.Status = StatusOK →
        ∃ res, (CreatePaymentBill cfg now rp).1.body
          = [Chunk.json (JsonDoc.string u), Chunk.json (JsonDoc.gateway res)])
    ∧ ((DeleteFromCart cfg db now r).1.Status = StatusOK →
        (DeleteFromCart cfg db now r).1.body = [Chunk.json (JsonDoc.string u)])
    ∧ ((GetPaymentStatus cfg r0).Status = StatusOK →
        ∃ res, cfg.CheckTransaction (r0.Var "cart_id") = some res
          ∧ (GetPaymentStatus cfg r0).body
            = [Chunk.json (JsonDoc.cart {}), Chunk.json (JsonDoc.gateway res)]) := by
  unfold Authenticated at h hc hp
  refine ⟨?_, ?_, ?_, ?_, ?_, ?_⟩
  · by_cases hup : db.up = true <;>
      simp [GetProducts, h, Store.QueryProducts, hup, ResponseWriter.Error,
        ResponseWriter.HeaderSet, ResponseWriter.WriteHeader, ResponseWriter.Write,
        ResponseWriter.Encode, ResponseWriter.Status, StatusOK, StatusInternalServerError]
  · by_cases hup : db.up = true
    · cases hi : cfg.intIn (r.Var "user_id") with
      | none =>
        simp [GetCart, h, Store.QueryCart, hup, hi, ResponseWriter.Error,
          ResponseWriter.HeaderSet, ResponseWriter.WriteHeader, ResponseWriter.Write,
          ResponseWriter.Status, StatusOK, StatusInternalServerError]
      | some uid =>
        cases hf : db.cart.find? (fun c => c.UserID == uid) with
        | none =>
          simp [GetCart, h, Store.QueryCart, hup, hi, hf, ResponseWriter.Error,
            ResponseWriter.HeaderSet, ResponseWriter.WriteHeader, ResponseWriter.Write,
            ResponseWriter.Status, StatusOK, StatusNotFound]
        | some cart =>
          intro _
          refine ⟨cart, List.mem_of_find?_eq_some hf, ?_⟩
          simp [GetCart, h, Store.QueryCart, hup, hi, hf, ResponseWriter.HeaderSet,
            ResponseWriter.WriteHeader, ResponseWriter.Write, ResponseWriter.Encode]
    · simp [GetCart, h, Store.QueryCart, hup, ResponseWriter.Error,
        ResponseWriter.HeaderSet, ResponseWriter.WriteHeader, ResponseWriter.Write,
        ResponseWriter.Status, StatusOK, StatusInternalServerError]
  · cases hb : rc.body with
    | none =>
      simp [AddToCart, hc, hb, ResponseWriter.Error, ResponseWriter.HeaderSet,
        ResponseWriter.WriteHeader, ResponseWriter.Write, ResponseWriter.Status, StatusOK,
        StatusBadRequest]
    | some body =>
      by_cases hup : db.up = true
      · cases hf : db.products.find? (fun p => p.ProductID == body.ProductID) with
        | none =>
          simp [AddToCart, hc, hb, Store.QueryProduct, hup, hf, ResponseWriter.Error,
            ResponseWriter.HeaderSet, ResponseWriter.WriteHeader, ResponseWriter.Write,
            ResponseWriter.Status, StatusOK, StatusNotFound]
        | some prod =>
          by_cases hdup : db.cart.any (fun row => row.CartID == db.cartSeq + 1) = true
          · simp [AddToCart, hc, hb, Store.QueryProduct, hup, hf, Store.InsertCart, hdup,
              ResponseWriter.Error, ResponseWriter.HeaderSet, ResponseWriter.WriteHeader,
              ResponseWriter.Write, ResponseWriter.Status, StatusOK, StatusInternalServerError]
          · intro _
            refine ⟨⟨db.cartSeq + 1, (Atoi (rc.Var "user_id")).1, body.ProductID,
              prod.ProductName, prod.ProductPrice, prod.ProductPrice⟩, ?_, ?_⟩ <;>
            simp [AddToCart, hc, hb, Store.QueryProduct, hup, hf, Store.InsertCart, hdup,
              ResponseWriter.HeaderSet, ResponseWriter.WriteHeader, ResponseWriter.Write,
              ResponseWriter.Encode]
      · simp [AddToCart, hc, hb, Store.QueryProduct, hup, ResponseWriter.Error,
          ResponseWriter.HeaderSet, ResponseWriter.WriteHeader, ResponseWriter.Write,
          ResponseWriter.Status, StatusOK, StatusInternalServerError]
  · cases hb : rp.body with
    | none =>
      simp [CreatePaymentBill, hp, hb, ResponseWriter.Error, ResponseWriter.HeaderSet,
        ResponseWriter.WriteHeader, ResponseWriter.Write, ResponseWriter.Status, StatusOK,
        StatusBadRequest]
    | some bill =>
      cases hg : cfg.ChargeTransaction
          { PaymentType := PaymentTypeQris,
            TransactionDetails :=
              { OrderID := rp.Var "cart_id",
                GrossAmt := (ParseFloat bill.CartTotalPrice).1.toInt64 cfg.int64Overflow },
            CustomerDetails := { FName := u },
            Items := [{ ID := rp.Var "cart_id",
                        Price := (ParseFloat bill.CartTotalPrice).1.toInt64 cfg.int64Overflow,
                        Qty := 1, Name := bill.ProductName }] } with
      | none =>
        simp [CreatePaymentBill, hp, hb, hg, ResponseWriter.Error, ResponseWriter.HeaderSet,
          ResponseWriter.WriteHeader, ResponseWriter.Write, ResponseWriter.Status, StatusOK,
          StatusInternalServerError]
      | some res =>
        intro _
        refine ⟨res, ?_⟩
        simp [CreatePaymentBill, hp, hb, hg, ResponseWriter.WriteHeader, ResponseWriter.Write,
          ResponseWriter.Encode]
  · by_cases hup : db.up = true
    · cases hi : cfg.intIn (r.Var "cart_id") with
      | none =>
        simp [DeleteFromCart, h, Store.DeleteCart, hup, hi, ResponseWriter.Error,
          ResponseWriter.HeaderSet, ResponseWriter.WriteHeader, ResponseWriter.Write,
          ResponseWriter.Status, StatusOK, StatusInternalServerError]
      | some cid =>
        simp [DeleteFromCart, h, Store.DeleteCart, hup, hi, ResponseWriter.WriteHeader,
          ResponseWriter.Write, ResponseWriter.Encode]
    · simp [DeleteFromCart, h, Store.DeleteCart, hup, ResponseWriter.Error,
        ResponseWriter.HeaderSet, ResponseWriter.WriteHeader, ResponseWriter.Write,
        ResponseWriter.Status, StatusOK, StatusInternalServerError]
  · cases hg : cfg.CheckTransaction (r0.Var "cart_id") with
    | none =>
      simp [GetPaymentStatus, hg, ResponseWriter.Error, ResponseWriter.HeaderSet,
        ResponseWriter.WriteHeader, ResponseWriter.Write, ResponseWriter.Status, StatusOK,
        StatusInternalServerError]
    | some res =>
      intro _
      refine ⟨res, rfl, ?_⟩
      simp [GetPaymentStatus, hg, ResponseWriter.HeaderSet, ResponseWriter.WriteHeader,
        ResponseWriter.Write, ResponseWriter.Encode]

/-- C9 amended, at concrete requests: the products listing for alice is her
name and then the two products; her delete request is answered with her name
alone; a status request without any cookie is answered with an empty cart
object and then the gateway's response. -/
theorem C9_success_body_documents_witness :
    (GetProducts exampleConfig exampleStore ⟨0⟩
        ({ cookies := aliceCookies 1600, vars := [("cart_id", "1")] } : Request Unit)).body
      = [Chunk.json (JsonDoc.string "alice"),
         Chunk.json (JsonDoc.products [⟨1, "Tea", 1000⟩, ⟨2, "Coffee", 1500⟩])]
    ∧ (DeleteFromCart exampleConfig exampleStore ⟨0⟩
        ({ cookies := aliceCookies 1600, vars := [("cart_id", "1")] } : Request Unit)).1.body
      = [Chunk.json (JsonDoc.string "alice")]
    ∧ ∃ res, exampleConfig.CheckTransaction "7" = some res
      ∧ (GetPaymentStatus exampleConfig
          ({ cookies := [], vars := [("cart_id", "7")] } : Request Unit)).body
        = [Chunk.json (JsonDoc.cart {}), Chunk.json (JsonDoc.gateway res)] :=
  have h := C9_success_body_documents exampleConfig exampleStore ⟨0⟩
      ({ cookies := aliceCookies 1600, vars := [("cart_id", "1")] } : Request Unit)
      { cookies := aliceCookies 1600 } { cookies := aliceCookies 1600 }
      ({ cookies := [], vars := [("cart_id", "7")] } : Request Unit) "alice"
      (by unfold Authenticated; decide) (by unfold Authenticated; decide)
      (by unfold Authenticated; decide)
  ⟨h.1 (by decide), h.2.2.2.2.1 (by decide), h.2.2.2.2.2 (by decide)⟩

/-! ## C10: a price that does not parse -/

/-! A text that `readFloat` accepts as a whole is a numeral. -/

/-! ## The number parser accepts numerals only -/

theorem digitVal_isSome (hex : Bool) (c : Char) :
    (digitVal hex c).isSome = isNumeralDigit hex c := by
  unfold digitVal isNumeralDigit
  cases hex <;> split_ifs <;> simp_all

theorem isNumeralDigit_ne (hex : Bool) (c : Char) (h : isNumeralDigit hex c = true) :
    c ≠ '_' ∧ c ≠ '.' ∧ c ≠ 'p' ∧ c ≠ 'P' ∧ (hex = false → c ≠ 'e' ∧ c ≠ 'E') := by
  refine ⟨?_, ?_, ?_, ?_, ?_⟩
  · rintro rfl; revert h; cases hex <;> decide
  · rintro rfl; revert h; cases hex <;> decide
  · rintro rfl; revert h; cases hex <;> decide
  · rintro rfl; revert h; cases hex <;> decide
  · intro hh; subst hh
    constructor <;> (rintro rfl; revert h; decide)

theorem readSign_snd (cs : List Char) : (readSign cs).2 = dropSign cs := by
  unfold readSign dropSign
  split <;> rfl

theorem dropSign_mem (cs : List Char) (c : Char) (h : c ∈ dropSign cs) : c ∈ cs := by
  unfold dropSign at h
  split at h
  · exact List.mem_cons_of_mem _ h
  · exact List.mem_cons_of_mem _ h
  · exact h

theorem mem_dropSign (cs : List Char) (c : Char) (h : c ∈ cs) (hc : c = '_') :
    c ∈ dropSign cs := by
  subst hc
  unfold dropSign
  split
  · rcases List.mem_cons.mp h with h | h
    · exact absurd h (by decide)
    · exact h
  · rcases List.mem_cons.mp h with h | h
    · exact absurd h (by decide)
    · exact h
  · exact h

theorem readDigits_spec (hex : Bool) (s : List Char) (st0 : Digits) :
    ∃ mant : List Char, s = mant ++ (readDigits hex s st0).2
      ∧ (∀ c ∈ mant, isNumeralDigit hex c = true ∨ c = '_' ∨ c = '.')
      ∧ (st0.sawdot = true → ∀ c ∈ mant, c ≠ '.')
      ∧ mant.count '.' ≤ 1
      ∧ (readDigits hex s st0).1.sawdigits = (st0.sawdigits || mant.any (isNumeralDigit hex))
      ∧ (st0.underscores = true → (readDigits hex s st0).1.underscores = true)
      ∧ (∀ c ∈ mant, c = '_' → (readDigits hex s st0).1.underscores = true) := by
  induction s generalizing st0 with
  | nil =>
    refine ⟨[], ?_⟩
    simp [readDigits]
  | cons c cs ih =>
    rw [readDigits]
    by_cases hu : c = '_'
    · simp only [hu, if_true]
      obtain ⟨m, h1, h2, h3, h4, h5, h6, h7⟩ := ih { st0 with underscores := true }
      refine ⟨'_' :: m, ?_, ?_, ?_, ?_, ?_, ?_, ?_⟩
      · rw [List.cons_append, ← h1]
      · intro c' hc'
        rcases List.mem_cons.mp hc' with h | h
        · exact Or.inr (Or.inl h)
        · exact h2 c' h
      · intro hd c' hc'
        rcases List.mem_cons.mp hc' with h | h
        · rw [h]; decide
        · exact h3 hd c' h
      · rw [List.count_cons_of_ne (by decide)]; exact h4
      · rw [h5]
        have : isNumeralDigit hex '_' = false := by cases hex <;> decide
        simp [this]
      · intro _; exact h6 rfl
      · intro c' _ _; exact h6 rfl
    · simp only [hu, if_false]
      by_cases hd : c = '.'
      · simp only [hd, if_true]
        by_cases hs : st0.sawdot = true
        · simp only [hs, if_true]
          refine ⟨[], ?_⟩
          simp
        · have hs' : st0.sawdot = false := by simpa using hs
          simp only [hs', Bool.false_eq_true, if_false]
          obtain ⟨m, h1, h2, h3, h4, h5, h6, h7⟩ :=
            ih { st0 with sawdot := true, dp := (st0.nd : Int) }
          have hno : ∀ c ∈ m, c ≠ '.' := h3 rfl
          refine ⟨'.' :: m, ?_, ?_, ?_, ?_, ?_, ?_, ?_⟩
          · rw [List.cons_append, ← h1]
          · intro c' hc'
            rcases List.mem_cons.mp hc' with h | h
            · exact Or.inr (Or.inr h)
            · exact h2 c' h
          · intro hd'; simp at hd'
          · rw [List.count_cons_self, List.count_eq_zero.mpr (fun hmem => hno _ hmem rfl)]
          · rw [h5]
            have : isNumeralDigit hex '.' = false := by cases hex <;> decide
            simp [this]
          · exact h6
          · intro c' hc' hc'u
            rcases List.mem_cons.mp hc' with h | h
            · rw [h] at hc'u; exact absurd hc'u (by decide)
            · exact h7 c' h hc'u
      · simp only [hd, if_false]
        cases hv : digitVal hex c with
        | none =>
          refine ⟨[], ?_⟩
          simp
        | some v =>
          have hdig : isNumeralDigit hex c = true := by
            rw [← digitVal_isSome, hv]; rfl
          simp only []
          have step : ∀ st1 : Digits, st1.sawdigits = true → st1.sawdot = st0.sawdot →
              st1.underscores = st0.underscores →
              ∃ mant : List Char, c :: cs = mant ++ (readDigits hex cs st1).2
                ∧ (∀ c ∈ mant, isNumeralDigit hex c = true ∨ c = '_' ∨ c = '.')
                ∧ (st0.sawdot = true → ∀ c ∈ mant, c ≠ '.')
                ∧ mant.count '.' ≤ 1
                ∧ (readDigits hex cs st1).1.sawdigits
                    = (st0.sawdigits || mant.any (isNumeralDigit hex))
                ∧ (st0.underscores = true → (readDigits hex cs st1).1.underscores = true)
                ∧ (∀ c ∈ mant, c = '_' → (readDigits hex cs st1).1.underscores = true) := by
            intro st1 e1 e2 e3
            obtain ⟨m, h1, h2, h3, h4, h5, h6, h7⟩ := ih st1
            refine ⟨c :: m, ?_, ?_, ?_, ?_, ?_, ?_, ?_⟩
            · rw [List.cons_append, ← h1]
            · intro c' hc'
              rcases List.mem_cons.mp hc' with h | h
              · rw [h]; exact Or.inl hdig
              · exact h2 c' h
            · intro hd' c' hc'
              rcases List.mem_cons.mp hc' with h | h
              · rw [h]; exact hd
              · exact h3 (by rw [e2]; exact hd') c' h
            · rw [List.count_cons_of_ne (fun h => hd h.symm)]; exact h4
            · rw [h5, e1]; simp [hdig]
            · intro hu0; exact h6 (by rw [e3]; exact hu0)
            · intro c' hc' hc'u
              rcases List.mem_cons.mp hc' with h | h
              · rw [h] at hc'u; exact absurd hc'u hu
              · exact h7 c' h hc'u
          split_ifs <;> exact step _ rfl rfl rfl

theorem readExpDigits_spec (s : List Char) (e : Nat) (u : Bool) :
    ∃ ds : List Char, s = ds ++ (readExpDigits s e u).2.2
      ∧ (∀ c ∈ ds, isNumeralDigit false c = true ∨ c = '_')
      ∧ (u = true → (readExpDigits s e u).2.1 = true)
      ∧ (∀ c ∈ ds, c = '_' → (readExpDigits s e u).2.1 = true) := by
  induction s generalizing e u with
  | nil => exact ⟨[], by simp [readExpDigits]⟩
  | cons c cs ih =>
    rw [readExpDigits]
    by_cases hu : c = '_'
    · simp only [hu, if_true]
      obtain ⟨ds, h1, h2, h3, h4⟩ := ih e true
      refine ⟨'_' :: ds, ?_, ?_, ?_, ?_⟩
      · rw [List.cons_append, ← h1]
      · intro c' hc'
        rcases List.mem_cons.mp hc' with h | h
        · exact Or.inr h
        · exact h2 c' h
      · intro _; exact h3 rfl
      · intro _ _ _; exact h3 rfl
    · simp only [hu, if_false]
      by_cases hd : '0' ≤ c ∧ c ≤ '9'
      · simp only [hd, and_self, if_true]
        obtain ⟨ds, h1, h2, h3, h4⟩ := ih (if e < 10000 then e * 10 + (c.toNat - 48) else e) u
        refine ⟨c :: ds, ?_, ?_, h3, ?_⟩
        · rw [List.cons_append, ← h1]
        · intro c' hc'
          rcases List.mem_cons.mp hc' with h | h
          · rw [h]; left; simp [isNumeralDigit, hd]
          · exact h2 c' h
        · intro c' hc' hc'u
          rcases List.mem_cons.mp hc' with h | h
          · rw [h] at hc'u; exact absurd hc'u hu
          · exact h4 c' h hc'u
      · simp only [hd, if_false]
        exact ⟨[], by simp⟩

theorem readExponent_spec (hex u : Bool) (s3 : List Char) (e : Int) (u' : Bool)
    (h : readExponent hex u s3 = some (e, u', [])) :
    (u = true → u' = true) ∧ (∀ c ∈ s3, c = '_' → u' = true)
    ∧ ((s3 = [] ∧ hex = false)
      ∨ ∃ (mark : Char) (t : List Char), s3 = mark :: t
          ∧ (if hex then mark = 'p' ∨ mark = 'P' else mark = 'e' ∨ mark = 'E')
          ∧ isExponentText t = true) := by
  unfold readExponent at h
  cases s3 with
  | nil =>
    cases hex with
    | true => simp at h
    | false =>
      simp only [Bool.false_eq_true, if_false, Option.some.injEq, Prod.mk.injEq] at h
      obtain ⟨_, hu, _⟩ := h
      exact ⟨fun hh => by rw [← hu]; exact hh, fun c hc => absurd hc (List.not_mem_nil _),
        Or.inl ⟨rfl, rfl⟩⟩
  | cons c s4 =>
    simp only at h
    by_cases hm : c ∈ (if hex = true then ['p', 'P'] else ['e', 'E'])
    · rw [if_pos hm] at h
      have hs5 : (readSign s4).2 = dropSign s4 := readSign_snd s4
      cases hrs : readSign s4 with
      | mk esign s5 =>
        rw [hrs] at h hs5
        simp only at h hs5
        cases s5 with
        | nil => simp at h
        | cons d ds' =>
          simp only at h
          by_cases hd : '0' ≤ d ∧ d ≤ '9'
          · rw [if_pos hd] at h
            obtain ⟨ds, h1, h2, h3, h4⟩ := readExpDigits_spec (d :: ds') 0 u
            cases hre : readExpDigits (d :: ds') 0 u with
            | mk e1 r1 =>
              cases r1 with
              | mk u1 rest1 =>
                rw [hre] at h h1 h3 h4
                simp only [Option.some.injEq, Prod.mk.injEq] at h
                obtain ⟨_, hu1, hrest⟩ := h
                subst hu1 hrest
                simp only [List.append_nil] at h1
                refine ⟨h3, ?_, Or.inr ⟨c, s4, rfl, ?_, ?_⟩⟩
                · intro c' hc' hc'u
                  rcases List.mem_cons.mp hc' with hh | hh
                  · exfalso
                    rw [hh] at hc'u
                    rw [hc'u] at hm
                    revert hm; cases hex <;> decide
                  · have : c' ∈ dropSign s4 := mem_dropSign s4 c' hh hc'u
                    rw [← hs5, h1] at this
                    exact h4 c' this hc'u
                · cases hex <;> simpa using hm
                · unfold isExponentText
                  rw [← hs5]
                  simp only [Bool.and_eq_true, List.all_eq_true]
                  refine ⟨by simp [isNumeralDigit, hd], ?_⟩
                  intro c' hc'
                  have : c' ∈ ds := by rw [← h1]; exact List.mem_cons_of_mem _ hc'
                  rcases h2 c' this with hh | hh
                  · simp [hh]
                  · simp [hh]
          · rw [if_neg hd] at h; simp at h
    · rw [if_neg hm] at h
      cases hex with
      | true => simp at h
      | false => simp at h

theorem underscoresSeparateDigits_cons (hex prevOk : Bool) (c : Char) (rest : List Char) :
    underscoresSeparateDigits hex prevOk (c :: rest)
      = if c = '_' then
          prevOk && startsWithDigit hex rest && underscoresSeparateDigits hex false rest
        else underscoresSeparateDigits hex (isNumeralDigit hex c) rest := by
  rfl

theorem underscoresSeparateDigits_of_none (hex prevOk : Bool) (l : List Char)
    (h : ∀ c ∈ l, c ≠ '_') : underscoresSeparateDigits hex prevOk l = true := by
  induction l generalizing prevOk with
  | nil => rfl
  | cons c cs ih =>
    rw [underscoresSeparateDigits_cons, if_neg (h c (List.mem_cons_self _ _))]
    exact ih _ (fun c' hc' => h c' (List.mem_cons_of_mem _ hc'))

theorem underscoreScan_separate (hex : Bool) (l : List Char) (saw : Char)
    (h : underscoreScan hex l saw = true) :
    underscoresSeparateDigits hex (saw == '0') l = true := by
  induction l generalizing saw with
  | nil => rfl
  | cons c cs ih =>
    rw [underscoreScan] at h
    by_cases hdig : isNumeralDigit hex c = true
    · have hne := (isNumeralDigit_ne hex c hdig).1
      rw [digitVal_isSome, if_pos hdig] at h
      rw [underscoresSeparateDigits_cons, if_neg hne, hdig]
      exact ih '0' h
    · have hdig' : isNumeralDigit hex c = false := by simpa using hdig
      rw [digitVal_isSome, hdig'] at h
      simp only [Bool.false_eq_true, if_false] at h
      by_cases hu : c = '_'
      · rw [if_pos hu] at h
        by_cases hsaw : saw = '0'
        · subst hsaw
          simp only [bne_self_eq_false, Bool.false_eq_true, if_false] at h
          rw [underscoresSeparateDigits_cons, if_pos hu]
          have hrest := ih '_' h
          have hnext : startsWithDigit hex cs = true := by
            cases cs with
            | nil => simp [underscoreScan] at h
            | cons d ds =>
              rw [underscoreScan] at h
              by_cases hd : isNumeralDigit hex d = true
              · exact hd
              · have hd' : isNumeralDigit hex d = false := by simpa using hd
                rw [digitVal_isSome, hd'] at h
                simp only [Bool.false_eq_true, if_false] at h
                by_cases hdu : d = '_'
                · rw [if_pos hdu] at h; simp at h
                · rw [if_neg hdu] at h; simp at h
          rw [hnext]
          simpa using hrest
        · have : (saw != '0') = true := by simpa using hsaw
          rw [this] at h; simp at h
      · rw [if_neg hu] at h
        by_cases hsaw : saw = '_'
        · rw [if_pos hsaw] at h; simp at h
        · rw [if_neg hsaw] at h
          rw [underscoresSeparateDigits_cons, if_neg hu, hdig']
          exact ih '!' h

theorem underscoreOK_eq (cs : List Char) :
    underscoreOK cs =
      (match dropSign cs with
        | '0' :: b :: t =>
          if b = 'x' ∨ b = 'X' then underscoreScan true t '0'
          else if b = 'b' ∨ b = 'B' ∨ b = 'o' ∨ b = 'O' then underscoreScan false t '0'
          else underscoreScan false (dropSign cs) '^'
        | _ => underscoreScan false (dropSign cs) '^') := by
  have hs : (match cs with
      | '-' :: t => t
      | '+' :: t => t
      | _ => cs) = dropSign cs := by
    unfold dropSign
    split <;> split <;> simp_all
  unfold underscoreOK
  simp only [hs]

theorem takeWhile_dropWhile_split (p : Char → Bool) (mant s3 : List Char)
    (hm : ∀ c ∈ mant, p c = true)
    (hs : s3 = [] ∨ ∃ c t, s3 = c :: t ∧ p c = false) :
    (mant ++ s3).takeWhile p = mant ∧ (mant ++ s3).dropWhile p = s3 := by
  induction mant with
  | nil =>
    rcases hs with rfl | ⟨c, t, rfl, hc⟩
    · simp
    · simp [List.takeWhile, List.dropWhile, hc]
  | cons c cs ih =>
    have hc := hm c (List.mem_cons_self _ _)
    obtain ⟨i1, i2⟩ := ih (fun c' hc' => hm c' (List.mem_cons_of_mem _ hc'))
    simp [List.takeWhile, List.dropWhile, hc, i1, i2]

theorem underscoreOK_decimal (cs : List Char)
    (hsec : ∀ b t, dropSign cs = '0' :: b :: t →
      ¬ (b = 'x' ∨ b = 'X') ∧ ¬ (b = 'b' ∨ b = 'B' ∨ b = 'o' ∨ b = 'O')) :
    underscoreOK cs = underscoreScan false (dropSign cs) '^' := by
  rw [underscoreOK_eq]
  split
  · rename_i b t heq
    obtain ⟨h1, h2⟩ := hsec b t heq
    rw [if_neg h1, if_neg h2]
  · rfl

theorem underscoreOK_hex (cs : List Char) (x : Char) (t : List Char)
    (h : dropSign cs = '0' :: x :: t) (hx : x = 'x' ∨ x = 'X') :
    underscoreOK cs = underscoreScan true t '0' := by
  rw [underscoreOK_eq, h]
  simp only
  rw [if_pos hx]

theorem readFloat_some (cs : List Char) (rf : ReadFloat) (h : readFloat cs = some rf) :
    ∃ (e : Int),
      (readDigits (readBase (dropSign cs)).1 (readBase (dropSign cs)).2 {}).1.sawdigits = true
      ∧ readExponent (readBase (dropSign cs)).1
          (readDigits (readBase (dropSign cs)).1 (readBase (dropSign cs)).2 {}).1.underscores
          (readDigits (readBase (dropSign cs)).1 (readBase (dropSign cs)).2 {}).2
        = some (e, rf.underscores, rf.rest) := by
  unfold readFloat at h
  cases cs with
  | nil => simp at h
  | cons c t =>
    simp only at h
    rw [← readSign_snd]
    cases hrs : readSign (c :: t) with
    | mk neg s1 =>
      rw [hrs] at h
      simp only at h ⊢
      cases hrb : readBase s1 with
      | mk hex s2 =>
        rw [hrb] at h
        simp only at h ⊢
        cases hrd : readDigits hex s2 {} with
        | mk st s3 =>
          rw [hrd] at h
          simp only at h ⊢
          by_cases hsd : st.sawdigits = true
          · simp only [hsd, Bool.not_true, Bool.false_eq_true, if_false] at h
            cases hre : readExponent hex st.underscores s3 with
            | none => rw [hre] at h; simp at h
            | some x =>
              obtain ⟨e, u, rest⟩ := x
              rw [hre] at h
              simp only [Option.some.injEq] at h
              subst h
              exact ⟨e, hsd, rfl⟩
          · have : st.sawdigits = false := by simpa using hsd
            simp [this] at h

theorem readBase_cases (s1 : List Char) :
    (readBase s1 = (false, s1)
      ∧ ∀ x c t, s1 = '0' :: x :: c :: t → ¬ (x = 'x' ∨ x = 'X'))
    ∨ ∃ x c t, s1 = '0' :: x :: c :: t ∧ (x = 'x' ∨ x = 'X') ∧ readBase s1 = (true, c :: t) := by
  unfold readBase
  split
  · rename_i x c t
    by_cases hx : x = 'x' ∨ x = 'X'
    · right
      exact ⟨x, c, t, rfl, hx, by rw [if_pos hx]⟩
    · left
      refine ⟨by rw [if_neg hx], ?_⟩
      intro x' c' t' heq
      simp only [List.cons.injEq, true_and] at heq
      obtain ⟨rfl, _, _⟩ := heq
      exact hx
  · rename_i hno
    left
    exact ⟨rfl, fun x c t heq => absurd heq (hno x c t)⟩

theorem mantissa_not_marker (hex : Bool) (c : Char)
    (h : isNumeralDigit hex c = true ∨ c = '_' ∨ c = '.') :
    (if hex then (c != 'p' && c != 'P') else (c != 'e' && c != 'E')) = true := by
  rcases h with h | h | h
  · obtain ⟨_, _, h3, h4, h5⟩ := isNumeralDigit_ne hex c h
    cases hex
    · have := h5 rfl
      simp [this.1, this.2]
    · simp [h3, h4]
  · subst h; cases hex <;> decide
  · subst h; cases hex <;> decide

theorem isMantissaText_of_spec (hex : Bool) (mant : List Char)
    (h2 : ∀ c ∈ mant, isNumeralDigit hex c = true ∨ c = '_' ∨ c = '.')
    (h4 : mant.count '.' ≤ 1) (h5 : mant.any (isNumeralDigit hex) = true) :
    isMantissaText hex mant = true := by
  unfold isMantissaText
  simp only [Bool.and_eq_true, List.all_eq_true, decide_eq_true_eq]
  refine ⟨⟨?_, h4⟩, h5⟩
  intro c hc
  rcases h2 c hc with h | h | h
  · simp [h]
  · simp [h]
  · simp [h]

theorem isNumeralText_of_readFloat (cs : List Char) (rf : ReadFloat)
    (h : readFloat cs = some rf) (hrest : rf.rest = [])
    (hund : rf.underscores = true → underscoreOK cs = true) :
    isNumeralText cs = true := by
  obtain ⟨e, hsd, hre⟩ := readFloat_some cs rf h
  rw [hrest] at hre
  unfold isNumeralText
  generalize hs1def : dropSign cs = s1 at hsd hre ⊢
  rcases readBase_cases s1 with ⟨hb, hnohex⟩ | ⟨x, c, t, hs1, hx, hb⟩
  · -- a decimal mantissa
    rw [hb] at hsd hre
    simp only at hsd hre
    obtain ⟨mant, hm1, hm2, _, hm4, hm5, _, hm7⟩ := readDigits_spec false s1 {}
    obtain ⟨hu1, hu2, hshape⟩ := readExponent_spec false _ _ e rf.underscores hre
    generalize (readDigits false s1 {}).2 = s3 at hm1 hre hu2 hshape
    generalize (readDigits false s1 {}).1 = st at hsd hm5 hm7 hu1 hre
    have hany : mant.any (isNumeralDigit false) = true := by
      rw [hsd] at hm5; simpa using hm5.symm
    have hs3 : s3 = [] ∨ ∃ mark t, s3 = mark :: t ∧ (mark = 'e' ∨ mark = 'E')
        ∧ isExponentText t = true := by
      rcases hshape with ⟨h0, _⟩ | ⟨mark, t, h1, h2, h3⟩
      · exact Or.inl h0
      · exact Or.inr ⟨mark, t, h1, by simpa using h2, h3⟩
    have hsplit := takeWhile_dropWhile_split (fun c => c != 'e' && c != 'E') mant s3
      (fun c hc => by simpa using mantissa_not_marker false c (hm2 c hc))
      (by
        rcases hs3 with h0 | ⟨mark, t, h1, h2, _⟩
        · exact Or.inl h0
        · refine Or.inr ⟨mark, t, h1, ?_⟩
          rcases h2 with rfl | rfl <;> decide)
    have hexp : isExponentPart true s3 = true := by
      rcases hs3 with h0 | ⟨mark, t, h1, _, h3⟩
      · rw [h0]; rfl
      · rw [h1]; exact h3
    -- the second character is a digit, an underscore, a point or the exponent marker
    have hsec : ∀ b t, dropSign cs = '0' :: b :: t →
        ¬ (b = 'x' ∨ b = 'X') ∧ ¬ (b = 'b' ∨ b = 'B' ∨ b = 'o' ∨ b = 'O') := by
      intro b t hbt
      rw [hs1def, hm1] at hbt
      have hcases : (isNumeralDigit false b = true ∨ b = '_' ∨ b = '.')
          ∨ (b = 'e' ∨ b = 'E') := by
        cases mant with
        | nil => simp at hany
        | cons m0 mt =>
          cases mt with
          | nil =>
            right
            rcases hs3 with h0 | ⟨mark, t2, h1, h2, _⟩
            · rw [h0] at hbt; simp at hbt
            · rw [h1] at hbt
              simp only [List.cons_append, List.nil_append, List.cons.injEq] at hbt
              rw [← hbt.2.1]; exact h2
          | cons m1 mt' =>
            left
            simp only [List.cons_append, List.cons.injEq] at hbt
            rw [← hbt.2.1]
            exact hm2 m1 (by simp)
      rcases hcases with (hd | hd | hd) | (hd | hd)
      · constructor
        · rintro (rfl | rfl) <;> revert hd <;> decide
        · rintro (rfl | rfl | rfl | rfl) <;> revert hd <;> decide
      · subst hd; decide
      · subst hd; decide
      · subst hd; decide
      · subst hd; decide
    have hdec : isDecimalNumeralText s1 = true := by
      unfold isDecimalNumeralText
      rw [hm1, hsplit.1, hsplit.2, isMantissaText_of_spec false mant hm2 hm4 hany, hexp]
      simp only [Bool.true_and]
      rw [← hm1]
      by_cases hU : rf.underscores = true
      · have hok := hund hU
        rw [underscoreOK_decimal cs hsec, hs1def] at hok
        have := underscoreScan_separate false s1 '^' hok
        simpa using this
      · have hU' : rf.underscores = false := by simpa using hU
        apply underscoresSeparateDigits_of_none
        intro c hc hcu
        rw [hm1] at hc
        rcases List.mem_append.mp hc with hc | hc
        · have := hu1 (hm7 c hc hcu)
          rw [hU'] at this; exact absurd this (by decide)
        · have := hu2 c hc hcu
          rw [hU'] at this; exact absurd this (by decide)
    split
    · split_ifs with hxx
      · exact absurd hxx (hnohex _ _ _ rfl)
      · exact hdec
    · exact hdec
  · -- a hexadecimal mantissa after the marker 0x
    subst hs1
    rw [hb] at hsd hre
    simp only at hsd hre ⊢
    rw [if_pos hx]
    obtain ⟨mant, hm1, hm2, _, hm4, hm5, _, hm7⟩ := readDigits_spec true (c :: t) {}
    obtain ⟨hu1, hu2, hshape⟩ := readExponent_spec true _ _ e rf.underscores hre
    generalize (readDigits true (c :: t) {}).2 = s3 at hm1 hre hu2 hshape
    generalize (readDigits true (c :: t) {}).1 = st at hsd hm5 hm7 hu1 hre
    have hany : mant.any (isNumeralDigit true) = true := by
      rw [hsd] at hm5; simpa using hm5.symm
    obtain ⟨mark, t', h1, h2, h3⟩ : ∃ mark t', s3 = mark :: t' ∧ (mark = 'p' ∨ mark = 'P')
        ∧ isExponentText t' = true := by
      rcases hshape with ⟨_, h0⟩ | ⟨mark, t', h1, h2, h3⟩
      · exact absurd h0 (by decide)
      · exact ⟨mark, t', h1, by simpa using h2, h3⟩
    have hsplit := takeWhile_dropWhile_split (fun c => c != 'p' && c != 'P') mant s3
      (fun c hc => by simpa using mantissa_not_marker true c (hm2 c hc))
      (by
        refine Or.inr ⟨mark, t', h1, ?_⟩
        rcases h2 with rfl | rfl <;> decide)
    have hexp : isExponentPart false s3 = true := by rw [h1]; exact h3
    unfold isHexNumeralText
    rw [hm1, hsplit.1, hsplit.2, isMantissaText_of_spec true mant hm2 hm4 hany, hexp]
    simp only [Bool.true_and]
    rw [← hm1]
    by_cases hU : rf.underscores = true
    · have hok := hund hU
      rw [underscoreOK_hex cs x (c :: t) hs1def hx] at hok
      have := underscoreScan_separate true (c :: t) '0' hok
      simpa using this
    · have hU' : rf.underscores = false := by simpa using hU
      apply underscoresSeparateDigits_of_none
      intro c' hc hcu
      rw [hm1] at hc
      rcases List.mem_append.mp hc with hc | hc
      · have := hu1 (hm7 c' hc hcu)
        rw [hU'] at this; exact absurd this (by decide)
      · have := hu2 c' hc hcu
        rw [hU'] at this; exact absurd this (by decide)

theorem toInt64_zero (overflow : Float64 → Int) :
    (Float64.finite false 0 0).toInt64 overflow = 0 := by
  simp [Float64.toInt64]

theorem special_of_not_word (cs : List Char) (h : isSpecialWord cs = false) :
    special cs = none := by
  unfold isSpecialWord at h
  simp only [Bool.or_eq_false_iff, decide_eq_false_iff_not] at h
  obtain ⟨⟨h1, h2⟩, h3⟩ := h
  unfold special
  split
  · rename_i t
    have : isInfText t = false := by
      simp only [dropSign] at h1 h2
      unfold isInfText
      exact decide_eq_false (not_or.mpr ⟨h1, h2⟩)
    rw [this]; rfl
  · rename_i t
    have : isInfText t = false := by
      simp only [dropSign] at h1 h2
      unfold isInfText
      exact decide_eq_false (not_or.mpr ⟨h1, h2⟩)
    rw [this]; rfl
  · rename_i hp hm
    have hd : dropSign cs = cs := by
      unfold dropSign
      split
      · exact absurd rfl (hp _)
      · exact absurd rfl (hm _)
      · rfl
    rw [hd] at h1 h2
    have : isInfText cs = false := by
      unfold isInfText
      exact decide_eq_false (not_or.mpr ⟨h1, h2⟩)
    rw [this, if_neg h3]; rfl

theorem parseFloat64_not_numeral (cs : List Char)
    (hnum : isNumeralText cs = false) (hword : isSpecialWord cs = false) :
    parseFloat64 cs = (Float64.finite false 0 0, some GoError.ErrSyntax) := by
  unfold parseFloat64
  rw [special_of_not_word cs hword]
  simp only
  cases hr : readFloat cs with
  | none => rfl
  | some rf =>
    simp only
    by_cases hbad : (!rf.rest.isEmpty) = true ∨ (rf.underscores = true ∧ (!underscoreOK cs) = true)
    · rw [if_pos hbad]
    · exfalso
      have hrest : rf.rest = [] := by
        by_contra hne
        apply hbad
        left
        cases hrr : rf.rest with
        | nil => exact absurd hrr hne
        | cons a b => rfl
      have hund : rf.underscores = true → underscoreOK cs = true := by
        intro hu
        by_contra hne
        apply hbad
        right
        exact ⟨hu, by simpa using hne⟩
      have := isNumeralText_of_readFloat cs rf hr hrest hund
      rw [hnum] at this
      exact absurd this (by decide)

/-- C10: for an authenticated `CreatePaymentBill` request with a well-formed
body whose `cart_total_price` is not a numeral (`isNumeralText`) and not one of
the words for an infinity or NaN (`isSpecialWord`), the parse error is
discarded: the status is not 400 and exactly one Charge call is made, with
gross amount 0 and a single line item of price 0. -/
theorem C10_unparsable_price_charges_zero (cfg : Config) (now : Time) (r : Request PaymentBill)
    (u : String) (bill : PaymentBill)
    (hauth : Authenticated cfg now r u) (hbody : r.body = some bill)
    (hnum : isNumeralText bill.CartTotalPrice.toList = false)
    (hword : isSpecialWord bill.CartTotalPrice.toList = false) :
    (CreatePaymentBill cfg now r).1.Status ≠ StatusBadRequest
    ∧ (CreatePaymentBill cfg now r).2
        = [{ PaymentType := PaymentTypeQris,
             TransactionDetails := { OrderID := r.Var "cart_id", GrossAmt := 0 },
             CustomerDetails := { FName := u },
             Items := [{ ID := r.Var "cart_id", Price := 0, Qty := 1,
                         Name := bill.ProductName }] }] := by
  unfold Authenticated at hauth
  have hv : (ParseFloat bill.CartTotalPrice).1 = Float64.finite false 0 0 := by
    unfold ParseFloat
    rw [parseFloat64_not_numeral _ hnum hword]
  constructor
  · cases hg : cfg.ChargeTransaction
        { PaymentType := PaymentTypeQris,
          TransactionDetails := { OrderID := r.Var "cart_id", GrossAmt := 0 },
          CustomerDetails := { FName := u },
          Items := [{ ID := r.Var "cart_id", Price := 0, Qty := 1,
                      Name := bill.ProductName }] } <;>
      simp [CreatePaymentBill, hauth, hbody, hv, toInt64_zero, hg, ResponseWriter.Error,
        ResponseWriter.HeaderSet, ResponseWriter.WriteHeader, ResponseWriter.Write,
        ResponseWriter.Encode, ResponseWriter.Status, StatusOK, StatusBadRequest,
        StatusInternalServerError]
  · cases hg : cfg.ChargeTransaction
        { PaymentType := PaymentTypeQris,
          TransactionDetails := { OrderID := r.Var "cart_id", GrossAmt := 0 },
          CustomerDetails := { FName := u },
          Items := [{ ID := r.Var "cart_id", Price := 0, Qty := 1,
                      Name := bill.ProductName }] } <;>
      simp [CreatePaymentBill, hauth, hbody, hv, toInt64_zero, hg]

/-- C10 for the prices `abc`, `12abc` and the empty string. -/
theorem C10_unparsable_price_charges_zero_witness :
    (CreatePaymentBill exampleConfig ⟨0⟩
          { cookies := aliceCookies 1600, vars := [("cart_id", "7")],
            body := some ⟨"abc", "", "Tea"⟩ }).2
        = [⟨"qris", ⟨"7", 0⟩, ⟨"alice"⟩, [⟨"7", 0, 1, "Tea"⟩]⟩]
    ∧ (CreatePaymentBill exampleConfig ⟨0⟩
          { cookies := aliceCookies 1600, vars := [("cart_id", "7")],
            body := some ⟨"12abc", "", "Tea"⟩ }).2
        = [⟨"qris", ⟨"7", 0⟩, ⟨"alice"⟩, [⟨"7", 0, 1, "Tea"⟩]⟩]
    ∧ (CreatePaymentBill exampleConfig ⟨0⟩
          { cookies := aliceCookies 1600, vars := [("cart_id", "7")],
            body := some ⟨"", "", "Tea"⟩ }).2
        = [⟨"qris", ⟨"7", 0⟩, ⟨"alice"⟩, [⟨"7", 0, 1, "Tea"⟩]⟩] :=
  ⟨(C10_unparsable_price_charges_zero exampleConfig ⟨0⟩
      { cookies := aliceCookies 1600, vars := [("cart_id", "7")],
        body := some ⟨"abc", "", "Tea"⟩ } "alice" ⟨"abc", "", "Tea"⟩
      (by unfold Authenticated; decide) rfl (by decide) (by decide)).2,
   (C10_unparsable_price_charges_zero exampleConfig ⟨0⟩
      { cookies := aliceCookies 1600, vars := [("cart_id", "7")],
        body := some ⟨"12abc", "", "Tea"⟩ } "alice" ⟨"12abc", "", "Tea"⟩
      (by unfold Authenticated; decide) rfl (by decide) (by decide)).2,
   (C10_unparsable_price_charges_zero exampleConfig ⟨0⟩
      { cookies := aliceCookies 1600, vars := [("cart_id", "7")],
        body := some ⟨"", "", "Tea"⟩ } "alice" ⟨"", "", "Tea"⟩
      (by unfold Authenticated; decide) rfl (by decide) (by decide)).2⟩

/-- C10 fails for the price `inf`: the text is not a numeral, yet no parse error
is reported, the value is the positive infinity, and the conversion to `int64`
gives the amount charged: -9223372036854775808 with the conversion of amd64,
not 0.  The same holds for `NaN`. -/
theorem C10_inf_price_is_not_charged_zero :
    isNumeralText "inf".toList = false
    ∧ ParseFloat "inf" = (Float64.inf false, none)
    ∧ (CreatePaymentBill exampleConfig ⟨0⟩
          { cookies := aliceCookies 1600, vars := [("cart_id", "7")],
            body := some ⟨"inf", "", "Tea"⟩ }).2
        = [⟨"qris", ⟨"7", -9223372036854775808⟩, ⟨"alice"⟩,
            [⟨"7", -9223372036854775808, 1, "Tea"⟩]⟩]
    ∧ isNumeralText "NaN".toList = false
    ∧ ParseFloat "NaN" = (Float64.nan, none)
    ∧ (CreatePaymentBill exampleConfig ⟨0⟩
          { cookies := aliceCookies 1600, vars := [("cart_id", "7")],
            body := some ⟨"NaN", "", "Tea"⟩ }).2
        = [⟨"qris", ⟨"7", -9223372036854775808⟩, ⟨"alice"⟩,
            [⟨"7", -9223372036854775808, 1, "Tea"⟩]⟩] := by
  refine ⟨by decide, by decide, by decide, by decide, by decide, by decide⟩

end OrderApp
